import Mathlib

/-!
# qflib: the one-dimensional finite-difference solver `Pde1DSolver`

A shallow embedding of `qflib/methods/pde/pde1dsolver.{hpp,cpp}` and of the
collaborators it touches (`VolatilityTermStructure`, `Product`), followed by
`PdeParams`, `DigitalCallPut`, the rate conversions of `qflib/utils.hpp`,
the Python entry points `pyQfPolyProd` and `pyQfEuroBSPDE` (its `Values` grid),
the closed-form pricers of `qflib/pricers/simplepricers.cpp` (`fwdPrice`,
`europeanOptionBS`, `quantoEuropeanOptionBS`, `cdsPV`) and the spectral
truncation `qflib/math/linalg/spectrunc.cpp`.

Conventions.
* `double` is idealised as an exact rational number (`ℚ`). Where rounding
  decides a statement (the composition of two discountings), the product of
  two doubles is a parameter `mul`, and `mulDouble` is the rounded product of
  the machine.
* `size_t` is `Nat`, `ptrdiff_t` is `Int`.
* A call that can throw (`QF_ASSERT`) or that would read or write outside a
  container returns `Result`; `Fault.raised` is a thrown `qf::Exception`,
  `Fault.invalidArgument` a thrown `std::invalid_argument`,
  `Fault.undefined` is an access the C++ program gives no meaning to
  (an index past the end, `back()` of an empty vector, an unset pointer).
* The functions of `<cmath>` enter through the record `CMath` (and the square
  root through a parameter `sqrt`); statements over the reals instantiate
  them with the real exponential, logarithm, power and square root.
* The pricers and the spectral truncation are written over an ordered field
  `α`, so that they can be run on rationals and stated over the reals; their
  matrices are `MatrixOf α`.
* Code that is not among the sources at hand enters as a parameter: the class
  `NormalDistribution`, the discount function of `YieldCurve`, and the
  library eigen-solver `arma::eig_sym`.
* Mutable members are fields of a state record; a member function is a
  function from the state before to the state after.
* Classes whose headers are not part of the sources at hand
  (`PdeBase`, `TridiagonalOp1D`, `DeltaOp1D`, `GammaOp1D`,
  `LinearInterpolation1D`, the implementation file of
  `VolatilityTermStructure`) enter as the parameter record `Collaborators`.
-/

namespace qf

/-- Failure of a call: a thrown `qf::Exception` (`raised`), an access without
meaning (`undefined`), or a thrown `std::invalid_argument`. -/
inductive Fault where
  | raised (msg : String)
  | undefined
  | invalidArgument (msg : String)
  deriving DecidableEq, Repr

/-- Outcome of a call that may fail. -/
abbrev Result (α : Type) := Except Fault α

/-- The library type `Vector` (a dense column of doubles). -/
abbrev Vector := List ℚ

/-- Read `v[i]`; an index past the end has no meaning. -/
def index {α : Type} (v : List α) (i : Nat) : Result α :=
  match v[i]? with
  | some x => .ok x
  | none => .error .undefined

/-- Write `v[i] = x`; an index past the end has no meaning. -/
def assignIndex {α : Type} (v : List α) (i : Nat) (x : α) : Result (List α) :=
  if i < v.length then .ok (v.set i x) else .error .undefined

/-- The call `v.back()`; on an empty container it has no meaning. -/
def back {α : Type} (v : List α) : Result α :=
  match v.getLast? with
  | some x => .ok x
  | none => .error .undefined

/-- The call `v.resize(n)`: keeps the first `n` elements, pads with `d`. -/
def resize {α : Type} (d : α) (n : Nat) (v : List α) : List α :=
  v.take n ++ List.replicate (n - v.length) d

/-- The library type `Matrix` (dense, stored column by column). -/
structure Matrix where
  n_rows : Nat
  cols : List Vector
  deriving DecidableEq, Repr

namespace Matrix

/-- Default-constructed matrix: no rows, no columns. -/
def empty : Matrix := ⟨0, []⟩

/-- Number of columns. -/
def n_cols (m : Matrix) : Nat := m.cols.length

/-- The matrix with `r` rows and `c` columns, every entry zero. -/
def zeros (r c : Nat) : Matrix := ⟨r, List.replicate c (List.replicate r 0)⟩

/-- Read access `m.col(j)`. -/
def col (m : Matrix) (j : Nat) : Result Vector := index m.cols j

/-- Assignment through the view `m.col(j)`. -/
def setCol (m : Matrix) (j : Nat) (v : Vector) : Result Matrix :=
  if j < m.cols.length then .ok { m with cols := m.cols.set j v } else .error .undefined

/-- Read access `m(i, j)`. -/
def get (m : Matrix) (i j : Nat) : Result ℚ := do
  let c ← index m.cols j
  index c i

/-- Write access `m(i, j) = x`. -/
def set (m : Matrix) (i j : Nat) (x : ℚ) : Result Matrix := do
  let c ← index m.cols j
  let c1 ← assignIndex c i x
  .ok { m with cols := m.cols.set j c1 }

/-- The call `m.resize(r, c)`: entries in the common block are kept, new ones are zero. -/
def resize (m : Matrix) (r c : Nat) : Matrix :=
  ⟨r, (List.range c).map fun j => qf.resize 0 r ((m.cols[j]?).getD [])⟩

/-- In-place scaling `m *= df`. -/
def scale (m : Matrix) (df : ℚ) : Matrix :=
  { m with cols := m.cols.map fun c => c.map fun x => x * df }

/-- In-place scaling `m *= df`, every entry `x` becoming `mul x df`, where
`mul` is the product of two numbers of type `double`. -/
def scaleWith (mul : ℚ → ℚ → ℚ) (m : Matrix) (df : ℚ) : Matrix :=
  { m with cols := m.cols.map fun c => c.map fun x => mul x df }

end Matrix

/-- Counted loop `for (k = 0; k < n; ++k) body(k)` over a state, stopping at the first fault. -/
def forLoop {σ : Type} (body : Nat → σ → Result σ) : Nat → σ → Result σ
  | 0, s => .ok s
  | n + 1, s => do
    let s1 ← forLoop body n s
    body n s1

/-- A yield curve, seen through the one query the solver constructor makes. -/
structure YieldCurve where
  spotRate : ℚ → ℚ

/-- The enumeration `VolatilityTermStructure::VolType`. -/
inductive VolType where
  | SPOTVOL
  | FWDVOL
  deriving DecidableEq, Repr

/-- The class `PiecewisePolynomial` as built by `fwdvars_(tMatBegin, tMatEnd, volBegin, 0)`:
breakpoints, one value per breakpoint, and the polynomial order. -/
structure PiecewisePolynomial where
  breakpoints : Vector
  values : Vector
  order : Nat
  deriving DecidableEq, Repr

/-- The volatility term structure: its only data member. -/
structure VolatilityTermStructure where
  fwdvars_ : PiecewisePolynomial
  deriving DecidableEq, Repr

/-- The product interface consumed by the solver: asset count, fixing and
payment times, the pay amounts written by the last evaluation, and the event
evaluator `eval(idx, spots, contValue)`, which maps the pay amounts before the
call to the pay amounts after it (or throws). -/
structure Product where
  nAssets : Nat
  fixTimes : Vector
  payTimes : Vector
  payAmounts : Vector
  eval : Nat → Vector → ℚ → Vector → Result Vector

/-- The call `product->eval(idx, spots, contValue)`. -/
def Product.evalEvent (p : Product) (idx : Nat) (spots : Vector) (contValue : ℚ) :
    Result Product := do
  let a ← p.eval idx spots contValue p.payAmounts
  .ok { p with payAmounts := a }

/-- The coordinate change attached to a grid axis. -/
structure CoordinateChange where
  fromRealToDiffused : ℚ → ℚ

/-- One axis of the finite-difference grid, as read by the solver. -/
structure GridAxis where
  NX : Nat
  DX : ℚ
  Slevels : Vector
  Xlevels : Vector
  drifts : Vector
  variances : Vector
  coordinateChange : CoordinateChange

/-- The class `Pde1DResults`: recorded times, per-step value grids, grid axes, prices. -/
structure Pde1DResults where
  times : Vector
  values : List Matrix
  gridAxes : List GridAxis
  prices : Vector

/-- Data members of the base class `PdeBase` that `Pde1DSolver` reads or writes. -/
structure PdeBase where
  spprod_ : Product
  nAssets_ : Nat
  nLayers_ : Nat
  spdiscyc_ : Option YieldCurve
  spots_ : List ℚ
  spaccrycs_ : List YieldCurve
  divyields_ : List ℚ
  vols_ : List VolatilityTermStructure
  gridAxes_ : List GridAxis
  theta_ : ℚ
  nSteps_ : Nat
  timesteps_ : Vector
  stepindex_ : List Int

/-- The code the solver calls but whose definition lies in headers outside the
sources at hand, taken as parameters; `Op` is the type of a tridiagonal operator. -/
structure Collaborators (Op : Type) where
  /-- Base-class constructor `PdeBase(product)`. -/
  pdeBase : Product → PdeBase
  /-- The method `PdeBase::nFactors()`. -/
  nFactors : PdeBase → Nat
  /-- Default-constructed operator. -/
  emptyOp : Op
  /-- The method `DeltaOp1D::init(drifts, DT, DX, weight)`. -/
  deltaInit : Vector → ℚ → ℚ → ℚ → Op
  /-- The method `GammaOp1D::init(variances, DT, DX, weight)`. -/
  gammaInit : Vector → ℚ → ℚ → ℚ → Op
  /-- The method `TridiagonalOp1D::init(n, lower, diag, upper)`. -/
  triInit : Nat → ℚ → ℚ → ℚ → Op
  /-- The operator `TridiagonalOp1D::operator+=`. -/
  add : Op → Op → Op
  /-- The operator `TridiagonalOp1D::operator-=`. -/
  sub : Op → Op → Op
  /-- The method `TridiagonalOp1D::apply(in, out)`, returning what is written to `out`. -/
  apply : Op → Vector → Vector
  /-- The method `TridiagonalOp1D::applyInverse(rhs, sol)`, returning what is written to `sol`. -/
  applyInverse : Op → Vector → Vector
  /-- The method `PdeBase::adjustOpsForBoundaryConditions(opExplicit, opImplicit, DX)`. -/
  adjustOpsForBoundaryConditions : PdeBase → Op → Op → ℚ → Op × Op
  /-- The method `PdeBase::applyBoundaryConditions(values)`. -/
  applyBoundaryConditions : PdeBase → Matrix → Matrix
  /-- The helper `VolatilityTermStructure::initFromSpotVols()`. -/
  initFromSpotVols : PiecewisePolynomial → Result PiecewisePolynomial
  /-- The helper `VolatilityTermStructure::initFromFwdVols()`. -/
  initFromFwdVols : PiecewisePolynomial → Result PiecewisePolynomial
  /-- The call `LinearInterpolation1D(xs, ys).getValue(x)`. -/
  interpolate : Vector → Vector → ℚ → Result ℚ

/-- The constructor of `VolatilityTermStructure`. -/
def VolatilityTermStructure.create {Op : Type} (env : Collaborators Op)
    (tMats vols : Vector) (vtype : VolType) : Result VolatilityTermStructure := do
  let fwdvars : PiecewisePolynomial := ⟨tMats, vols.take tMats.length, 0⟩
  if tMats.length ≠ vols.length then
    throw (.raised "VolatilityTermStructure: different number of maturities and vols")
  if ¬ tMats.all (fun x => decide (x > 0)) then
    throw (.raised "VolatilityTermStructure: maturities must be positive")
  match vtype with
  | .SPOTVOL => do
    let f ← env.initFromSpotVols fwdvars
    .ok ⟨f⟩
  | .FWDVOL => do
    let f ← env.initFromFwdVols fwdvars
    .ok ⟨f⟩

/-- The two value buffers a role pointer can designate. -/
inductive ValBuf where
  | values1
  | values2
  deriving DecidableEq, Repr

/-- State of a `Pde1DSolver`; `none` is a member no constructor has set. -/
structure Pde1DSolver (Op : Type) extends PdeBase where
  isQuanto_ : Bool
  assetVol_ : Option ℚ
  fxVol_ : Option ℚ
  correl_ : Option ℚ
  deltaOpExplicit_ : Op
  deltaOpImplicit_ : Op
  gammaOpExplicit_ : Op
  gammaOpImplicit_ : Op
  opExplicit_ : Op
  opImplicit_ : Op
  storeAllResults_ : Bool
  results_ : Pde1DResults
  values1 : Matrix
  values2 : Matrix
  prevValues : Option ValBuf
  currValues : Option ValBuf

namespace Pde1DSolver

variable {Op : Type}

/-- Dereference of a buffer pointer. -/
def deref (s : Pde1DSolver Op) : ValBuf → Matrix
  | .values1 => s.values1
  | .values2 => s.values2

/-- Store through a buffer pointer. -/
def store (s : Pde1DSolver Op) (b : ValBuf) (m : Matrix) : Pde1DSolver Op :=
  match b with
  | .values1 => { s with values1 := m }
  | .values2 => { s with values2 := m }

/-- The pointer `prevValues`; unset, it has no meaning. -/
def prevPtr (s : Pde1DSolver Op) : Result ValBuf :=
  match s.prevValues with
  | some b => .ok b
  | none => .error .undefined

/-- The pointer `currValues`; unset, it has no meaning. -/
def currPtr (s : Pde1DSolver Op) : Result ValBuf :=
  match s.currValues with
  | some b => .ok b
  | none => .error .undefined

/-- The access `gridAxes_[0]`. -/
def gridAxis0 (s : Pde1DSolver Op) : Result GridAxis := index s.gridAxes_ 0

/-- Members as left by the member-initialiser list shared by both constructors,
before the constructor body runs. -/
def membersAfterBase (env : Collaborators Op) (product : Product) (results : Pde1DResults)
    (storeAllResults : Bool) (isQuanto : Bool) (assetVol fxVol correl : Option ℚ) :
    Pde1DSolver Op :=
  { toPdeBase := env.pdeBase product
    isQuanto_ := isQuanto
    assetVol_ := assetVol
    fxVol_ := fxVol
    correl_ := correl
    deltaOpExplicit_ := env.emptyOp
    deltaOpImplicit_ := env.emptyOp
    gammaOpExplicit_ := env.emptyOp
    gammaOpImplicit_ := env.emptyOp
    opExplicit_ := env.emptyOp
    opImplicit_ := env.emptyOp
    storeAllResults_ := storeAllResults
    results_ := results
    values1 := Matrix.empty
    values2 := Matrix.empty
    prevValues := none
    currValues := none }

/-- The part of a constructor body common to both constructors
(`pde1dsolver.hpp` lines 33-38 and `pde1dsolver.cpp` lines 116-121). -/
def commonBody (s : Pde1DSolver Op) (product : Product) (discountYieldCurve : YieldCurve)
    (spot divyield : ℚ) : Pde1DSolver Op :=
  let s1 := { s with nAssets_ := product.nAssets }
  let s2 := { s1 with nLayers_ := 1 }
  let s3 := { s2 with spdiscyc_ := some discountYieldCurve }
  let s4 := { s3 with spots_ := s3.spots_ ++ [spot] }
  let s5 := { s4 with spaccrycs_ := s4.spaccrycs_ ++ [discountYieldCurve] }
  { s5 with divyields_ := s5.divyields_ ++ [divyield] }

/-- The 7-argument standard constructor. -/
def standard (env : Collaborators Op) (product : Product) (discountYieldCurve : YieldCurve)
    (spot divyield : ℚ) (svol : VolatilityTermStructure) (results : Pde1DResults)
    (storeAllResults : Bool) : Pde1DSolver Op :=
  let s := membersAfterBase env product results storeAllResults false none none none
  let s1 := commonBody s product discountYieldCurve spot divyield
  { s1 with vols_ := s1.vols_ ++ [svol] }

/-- The 6-argument constructor, delegating with `storeAllResults = false`. -/
def standard6 (env : Collaborators Op) (product : Product) (discountYieldCurve : YieldCurve)
    (spot divyield : ℚ) (svol : VolatilityTermStructure) (results : Pde1DResults) :
    Pde1DSolver Op :=
  standard env product discountYieldCurve spot divyield svol results false

/-- The 10-argument quanto constructor. -/
def quanto (env : Collaborators Op) (product : Product)
    (discountYieldCurve growthYieldCurve : YieldCurve)
    (spot divyield assetVol fxVol correl : ℚ) (results : Pde1DResults)
    (storeAllResults : Bool) : Result (Pde1DSolver Op) := do
  let s := membersAfterBase env product results storeAllResults true
    (some assetVol) (some fxVol) (some correl)
  let s1 := commonBody s product discountYieldCurve spot divyield
  let times : Vector := [1]
  let vols : Vector := [assetVol]
  let svol ← VolatilityTermStructure.create env times vols VolType.SPOTVOL
  let s2 := { s1 with vols_ := s1.vols_ ++ [svol] }
  let tLast ← back product.fixTimes
  let rd := discountYieldCurve.spotRate tLast
  let tLast2 ← back product.fixTimes
  let rf := growthYieldCurve.spotRate tLast2
  let quantoDivYield := rd - rf + divyield - correl * assetVol * fxVol
  let dy ← assignIndex s2.divyields_ 0 quantoDivYield
  .ok { s2 with divyields_ := dy }

/-- Lines 15-28 of `solveFromStepToStep`: the drift and diffusion operators are
initialised and composed into the explicit and the implicit operator. -/
def buildOperators (env : Collaborators Op) (DT : ℚ) (s : Pde1DSolver Op) :
    Result (Pde1DSolver Op) := do
  let grax ← s.gridAxis0
  let s1 := { s with deltaOpExplicit_ := env.deltaInit grax.drifts DT grax.DX (1 - s.theta_) }
  let s2 := { s1 with deltaOpImplicit_ := env.deltaInit grax.drifts DT grax.DX s1.theta_ }
  let s3 := { s2 with gammaOpExplicit_ := env.gammaInit grax.variances DT grax.DX (1 - s2.theta_) }
  let s4 := { s3 with gammaOpImplicit_ := env.gammaInit grax.variances DT grax.DX s3.theta_ }
  let s5 := { s4 with opExplicit_ := env.triInit grax.NX 0 1 0 }
  let s6 := { s5 with opExplicit_ := env.add s5.opExplicit_ s5.deltaOpExplicit_ }
  let s7 := { s6 with opExplicit_ := env.add s6.opExplicit_ s6.gammaOpExplicit_ }
  let s8 := { s7 with opImplicit_ := env.triInit grax.NX 0 1 0 }
  let s9 := { s8 with opImplicit_ := env.sub s8.opImplicit_ s8.deltaOpImplicit_ }
  .ok { s9 with opImplicit_ := env.sub s9.opImplicit_ s9.gammaOpImplicit_ }

/-- Line 31 of `solveFromStepToStep`: both operators are adjusted in place. -/
def adjustOperators (env : Collaborators Op) (s : Pde1DSolver Op) : Result (Pde1DSolver Op) := do
  let grax ← s.gridAxis0
  let r := env.adjustOpsForBoundaryConditions s.toPdeBase s.opExplicit_ s.opImplicit_ grax.DX
  .ok { s with opExplicit_ := r.1, opImplicit_ := r.2 }

/-- Body of the loop over layers (lines 35-38): column `j` of the previous
buffer goes through the explicit operator into column `j` of the current
buffer, which goes through the inverse of the implicit operator back into
column `j` of the previous buffer. -/
def stepLayer (env : Collaborators Op) (j : Nat) (s : Pde1DSolver Op) :
    Result (Pde1DSolver Op) := do
  let p ← s.prevPtr
  let c ← s.currPtr
  let v1 ← (s.deref p).col j
  let _ ← (s.deref c).col j
  let m2 ← (s.deref c).setCol j (env.apply s.opExplicit_ v1)
  let s1 := s.store c m2
  let v2 ← (s1.deref c).col j
  let m1 ← (s1.deref p).setCol j (env.applyInverse s1.opImplicit_ v2)
  .ok (s1.store p m1)

/-- Line 41 of `solveFromStepToStep`: boundary conditions on the previous buffer. -/
def boundaryStep (env : Collaborators Op) (s : Pde1DSolver Op) : Result (Pde1DSolver Op) := do
  let p ← s.prevPtr
  .ok (s.store p (env.applyBoundaryConditions s.toPdeBase (s.deref p)))

/-- The method `solveFromStepToStep(step, DT)`. -/
def solveFromStepToStep (env : Collaborators Op) (step : Int) (DT : ℚ) (s : Pde1DSolver Op) :
    Result (Pde1DSolver Op) := do
  let _ := step
  let s1 ← buildOperators env DT s
  let s2 ← adjustOperators env s1
  let s3 ← forLoop (stepLayer env) s2.nLayers_ s2
  boundaryStep env s3

/-- Body of the inner loop of `initValLayers`: `values1(i, j) = values2(i, j) = 0.0`. -/
def zeroEntry (i j : Nat) (s : Pde1DSolver Op) : Result (Pde1DSolver Op) := do
  let m2 ← s.values2.set i j 0
  let m1 ← s.values1.set i j 0
  .ok { s with values1 := m1, values2 := m2 }

/-- Lines 47-60 of `initValLayers`: what follows the assertion. -/
def initValLayersBody (s : Pde1DSolver Op) : Result (Pde1DSolver Op) := do
  let grax ← s.gridAxis0
  let s1 := { s with values1 := s.values1.resize (grax.NX + 2) s.nLayers_ }
  let s2 := { s1 with values2 := s1.values2.resize (grax.NX + 2) s1.nLayers_ }
  let s3 ← forLoop (fun i t => forLoop (fun j u => zeroEntry i j u) t.nLayers_ t) (grax.NX + 2) s2
  let s4 := { s3 with prevValues := some ValBuf.values1 }
  let s5 := { s4 with currValues := some ValBuf.values2 }
  let s6 := { s5 with results_ := { s5.results_ with
    times := resize 0 s5.nSteps_ s5.results_.times } }
  let s7 := { s6 with results_ := { s6.results_ with
    values := resize Matrix.empty s6.nSteps_ s6.results_.values } }
  if s7.storeAllResults_ then
    .ok { s7 with results_ := { s7.results_ with
      values := resize Matrix.empty s7.nSteps_ s7.results_.values } }
  else
    .ok s7

/-- The method `initValLayers()`. -/
def initValLayers (env : Collaborators Op) (s : Pde1DSolver Op) : Result (Pde1DSolver Op) := do
  if env.nFactors s.toPdeBase ≠ 1 then
    throw (.raised "1D PDE is handles 1 asset only!")
  initValLayersBody s

/-- The scan `size_t i = 0; while (fixtime > payTms[i]) ++i;`, resumed at index
`i` with `payTms` the times from index `i` on; running past the last payment
time has no meaning. -/
def payScan (fixtime : ℚ) : Vector → Nat → Result Nat
  | [], _ => .error .undefined
  | t :: ts, i => if fixtime > t then payScan fixtime ts (i + 1) else .ok i

/-- Body of the loop over grid nodes in `evalProduct` (lines 72-77). -/
def evalNode (eventIdx : Nat) (fixtime : ℚ) (payTms : Vector) (node : Nat)
    (s : Pde1DSolver Op) : Result (Pde1DSolver Op) := do
  let grax ← s.gridAxis0
  let spot ← index grax.Slevels node
  let spots : Vector := [spot]
  let p ← s.prevPtr
  let contValue ← (s.deref p).get node 0
  let prod ← s.spprod_.evalEvent eventIdx spots contValue
  let s1 := { s with spprod_ := prod }
  let payAms := s1.spprod_.payAmounts
  let _ ← payScan fixtime payTms 0
  let amount ← index payAms eventIdx
  let m ← (s1.deref p).set node 0 amount
  .ok (s1.store p m)

/-- Lines 66-79 of `evalProduct`: at a fixing event every grid node is evaluated. -/
def evalNodes (stepIdx : Nat) (s : Pde1DSolver Op) : Result (Pde1DSolver Op) := do
  let eventIdx ← index s.stepindex_ stepIdx
  if eventIdx ≥ 0 then do
    let payTms := s.spprod_.payTimes
    let fixtime ← index s.spprod_.fixTimes eventIdx.toNat
    let grax ← s.gridAxis0
    forLoop (evalNode eventIdx.toNat fixtime payTms) (grax.NX + 2) s
  else .ok s

/-- Lines 80-82 of `evalProduct`: the step time, and the value grid when all
results are stored, are recorded. -/
def recordStep (stepIdx : Nat) (s : Pde1DSolver Op) : Result (Pde1DSolver Op) := do
  let t ← index s.timesteps_ stepIdx
  let times ← assignIndex s.results_.times stepIdx t
  let s1 := { s with results_ := { s.results_ with times := times } }
  if s1.storeAllResults_ then do
    let p ← s1.prevPtr
    let values ← assignIndex s1.results_.values stepIdx (s1.deref p)
    .ok { s1 with results_ := { s1.results_ with values := values } }
  else
    .ok s1

/-- The method `evalProduct(stepIdx)`. -/
def evalProduct (stepIdx : Nat) (s : Pde1DSolver Op) : Result (Pde1DSolver Op) := do
  let s1 ← evalNodes stepIdx s
  recordStep stepIdx s1

/-- Body of the loop over layers in `storeResults` (lines 90-93). -/
def storeLayer (env : Collaborators Op) (j : Nat) (s : Pde1DSolver Op) :
    Result (Pde1DSolver Op) := do
  let grax ← s.gridAxis0
  let spot ← index s.spots_ 0
  let X0 := grax.coordinateChange.fromRealToDiffused spot
  let p ← s.prevPtr
  let temp ← (s.deref p).col j
  let price ← env.interpolate grax.Xlevels temp X0
  let prices ← assignIndex s.results_.prices j price
  .ok { s with results_ := { s.results_ with prices := prices } }

/-- The method `storeResults()`. -/
def storeResults (env : Collaborators Op) (s : Pde1DSolver Op) : Result (Pde1DSolver Op) := do
  let s1 := { s with results_ := { s.results_ with gridAxes := s.gridAxes_ } }
  let s2 := { s1 with results_ := { s1.results_ with
    prices := resize 0 s1.nLayers_ s1.results_.prices } }
  forLoop (storeLayer env) s2.nLayers_ s2

/-- The method `discountFromStepToStep(df)`. -/
def discountFromStepToStep (df : ℚ) (s : Pde1DSolver Op) : Result (Pde1DSolver Op) := do
  let p ← s.prevPtr
  .ok (s.store p ((s.deref p).scale df))

/-- The method `discountFromStepToStep(df)`, with `mul` the product of two
numbers of type `double`: the exact product in the idealisation above, the
rounded one on the machine. -/
def discountFromStepToStepWith (mul : ℚ → ℚ → ℚ) (df : ℚ) (s : Pde1DSolver Op) :
    Result (Pde1DSolver Op) := do
  let p ← s.prevPtr
  .ok (s.store p ((s.deref p).scaleWith mul df))

/-- The three quanto parameters as stored in the solver, with the flag. -/
structure QuantoFields where
  isQuanto_ : Bool
  assetVol_ : Option ℚ
  fxVol_ : Option ℚ
  correl_ : Option ℚ
  deriving DecidableEq, Repr

/-- Overwrites the members `isQuanto_`, `assetVol_`, `fxVol_`, `correl_`. -/
def withQuanto (q : QuantoFields) (s : Pde1DSolver Op) : Pde1DSolver Op :=
  { s with isQuanto_ := q.isQuanto_, assetVol_ := q.assetVol_, fxVol_ := q.fxVol_,
           correl_ := q.correl_ }


end Pde1DSolver

/-- Columns `0 .. k-1` of `src` mapped through `f`, followed by the columns of
`dst` from index `k` on: the content of a buffer `dst` after `k` rounds of
writing `f (src[j])` into its column `j`. -/
def steppedColumns (f : Vector → Vector) (k : Nat) (src dst : List Vector) : List Vector :=
  (src.take k).map f ++ dst.drop k

namespace Pde1DSolver

/-- State after the first `k` rounds of the loop over layers of
`solveFromStepToStep`, started in `s` with `prevValues = &p`, `currValues = &c`:
columns `0 .. k-1` of the current buffer hold the explicit operator applied to
the columns of the previous buffer, and columns `0 .. k-1` of the previous
buffer hold the inverse implicit operator applied to those. -/
def afterLayers {Op : Type} (env : Collaborators Op) (s : Pde1DSolver Op) (p c : ValBuf)
    (k : Nat) : Pde1DSolver Op :=
  (s.store c ⟨(s.deref c).n_rows,
      steppedColumns (env.apply s.opExplicit_) k (s.deref p).cols (s.deref c).cols⟩).store p
    ⟨(s.deref p).n_rows,
      steppedColumns (fun v => env.applyInverse s.opImplicit_ (env.apply s.opExplicit_ v)) k
        (s.deref p).cols (s.deref p).cols⟩

end Pde1DSolver

namespace Pde1DSolver

/-- State after lines 15-28 of `solveFromStepToStep` on the grid axis `grax`. -/
def withBuiltOperators {Op : Type} (env : Collaborators Op) (DT : ℚ) (grax : GridAxis)
    (s : Pde1DSolver Op) : Pde1DSolver Op :=
  { s with
    deltaOpExplicit_ := env.deltaInit grax.drifts DT grax.DX (1 - s.theta_)
    deltaOpImplicit_ := env.deltaInit grax.drifts DT grax.DX s.theta_
    gammaOpExplicit_ := env.gammaInit grax.variances DT grax.DX (1 - s.theta_)
    gammaOpImplicit_ := env.gammaInit grax.variances DT grax.DX s.theta_
    opExplicit_ := env.add (env.add (env.triInit grax.NX 0 1 0)
        (env.deltaInit grax.drifts DT grax.DX (1 - s.theta_)))
      (env.gammaInit grax.variances DT grax.DX (1 - s.theta_))
    opImplicit_ := env.sub (env.sub (env.triInit grax.NX 0 1 0)
        (env.deltaInit grax.drifts DT grax.DX s.theta_))
      (env.gammaInit grax.variances DT grax.DX s.theta_) }

/-- State after line 31 of `solveFromStepToStep`: the built operators adjusted
for the boundary conditions. -/
def withAdjustedOperators {Op : Type} (env : Collaborators Op) (DT : ℚ) (grax : GridAxis)
    (s : Pde1DSolver Op) : Pde1DSolver Op :=
  { withBuiltOperators env DT grax s with
    opExplicit_ := (env.adjustOpsForBoundaryConditions s.toPdeBase
      (withBuiltOperators env DT grax s).opExplicit_
      (withBuiltOperators env DT grax s).opImplicit_ grax.DX).1
    opImplicit_ := (env.adjustOpsForBoundaryConditions s.toPdeBase
      (withBuiltOperators env DT grax s).opExplicit_
      (withBuiltOperators env DT grax s).opImplicit_ grax.DX).2 }

end Pde1DSolver

/-- Pay amounts held by the product just before grid node `n` is evaluated in
the loop of `evalProduct` at event `e`: the product's pay amounts for node 0,
and for node `n + 1` what the evaluator returns for node `n`, called with the
spot level `Slevels[n]` and the continuation value `col0[n]`. -/
def payAmountsBefore (prod : Product) (e : Nat) (Slevels col0 : Vector) : Nat → Result Vector
  | 0 => .ok prod.payAmounts
  | n + 1 => do
    let a ← payAmountsBefore prod e Slevels col0 n
    let spot ← index Slevels n
    let contValue ← index col0 n
    prod.eval e [spot] contValue a

namespace Pde1DSolver

/-- The solver `s` with the product's pay amounts replaced by `a` and column 0
of the buffer `p` replaced by `col`. -/
def withNodeState {Op : Type} (s : Pde1DSolver Op) (p : ValBuf) (a col : Vector) :
    Pde1DSolver Op :=
  ({ s with spprod_ := { s.spprod_ with payAmounts := a } }).store p
    ⟨(s.deref p).n_rows, (s.deref p).cols.set 0 col⟩

/-- What a call of `evalProduct(stepIdx)` at a fixing event needs in order to
be defined: the step is event `e`, fixing `e` exists, there is a grid axis
with a spot level for each of its `NX + 2` nodes, `prevValues` designates a
buffer whose column 0 has a row for each node, some payment time is not
earlier than the fixing time, the product's pay amounts include entry `e`,
and the event evaluator, called for event `e` on pay amounts that include
entry `e`, returns pay amounts that include entry `e`. -/
def EventReady {Op : Type} (s : Pde1DSolver Op) (stepIdx e : Nat) (p : ValBuf)
    (grax : GridAxis) (fixtime : ℚ) (col0 : Vector) : Prop :=
  s.stepindex_[stepIdx]? = some (e : Int)
    ∧ s.spprod_.fixTimes[e]? = some fixtime
    ∧ s.gridAxes_[0]? = some grax
    ∧ grax.NX + 2 ≤ grax.Slevels.length
    ∧ s.prevValues = some p
    ∧ (s.deref p).cols[0]? = some col0
    ∧ grax.NX + 2 ≤ col0.length
    ∧ (∃ t ∈ s.spprod_.payTimes, fixtime ≤ t)
    ∧ e < s.spprod_.payAmounts.length
    ∧ (∀ spot contValue a, e < a.length →
        ∃ a1, s.spprod_.eval e [spot] contValue a = .ok a1 ∧ e < a1.length)

/-- What the recording part of `evalProduct(stepIdx)` needs in order to be
defined: a time for the step, a slot for it in `results_.times`, and, when all
results are stored, a slot in `results_.values` and a set `prevValues`. -/
def RecordReady {Op : Type} (s : Pde1DSolver Op) (stepIdx : Nat) (t : ℚ) : Prop :=
  s.timesteps_[stepIdx]? = some t
    ∧ stepIdx < s.results_.times.length
    ∧ (s.storeAllResults_ = true →
        stepIdx < s.results_.values.length ∧ ∃ p, s.prevValues = some p)

end Pde1DSolver

namespace Matrix

/-- Entry `(i, j)` of a matrix, when present. -/
def entry (m : Matrix) (i j : Nat) : Option ℚ := (m.cols[j]?).bind fun col => col[i]?

/-- The matrix has `r` rows and `c` columns, each column with `r` entries. -/
def Shaped (r c : Nat) (m : Matrix) : Prop :=
  m.n_rows = r ∧ m.cols.length = c ∧ ∀ col ∈ m.cols, col.length = r

/-- Entries of rows before `i`, and of row `i` in columns before `j`, are zero:
the entries visited by the loops of `initValLayers` before entry `(i, j)`. -/
def ZeroBefore (r c : Nat) (m : Matrix) (i j : Nat) : Prop :=
  ∀ i1 j1, i1 < r → j1 < c → (i1 < i ∨ (i1 = i ∧ j1 < j)) → m.entry i1 j1 = some 0

end Matrix

/-- How a call ends, with the object state it ends in: normal return, a thrown
exception (with the state at the throw), or an access without meaning. -/
inductive Outcome (σ : Type) where
  | returned (s : σ)
  | threw (s : σ) (e : Fault)
  | undefined

namespace Pde1DSolver

/-- The method `initValLayers()` with the solver state it ends in. The only
`QF_ASSERT` is the first statement (line 46), evaluated before any member is
written: when it throws, the state is the one the call started in. Lines
47-60 contain no assertion: they return or make an access without meaning. -/
def initValLayersOutcome {Op : Type} (env : Collaborators Op) (s : Pde1DSolver Op) :
    Outcome (Pde1DSolver Op) :=
  if env.nFactors s.toPdeBase ≠ 1 then
    .threw s (.raised "1D PDE is handles 1 asset only!")
  else
    match initValLayersBody s with
    | .ok s1 => .returned s1
    | .error _ => .undefined

end Pde1DSolver

namespace Pde1DSolver

/-- What a call of `storeResults()` needs in order to be defined: a grid
axis, a spot, a set `prevValues` designating a buffer with a column for each
layer, and an interpolation that returns for each of these columns. -/
def StoreReady {Op : Type} (env : Collaborators Op) (s : Pde1DSolver Op) (p : ValBuf)
    (grax : GridAxis) (spot : ℚ) : Prop :=
  s.gridAxes_[0]? = some grax
    ∧ s.spots_[0]? = some spot
    ∧ s.prevValues = some p
    ∧ s.nLayers_ ≤ (s.deref p).cols.length
    ∧ (∀ j col, j < s.nLayers_ → (s.deref p).cols[j]? = some col →
        ∃ y, env.interpolate grax.Xlevels col
          (grax.coordinateChange.fromRealToDiffused spot) = .ok y)

end Pde1DSolver

namespace Matrix

/-- The call `m.size()`: the number of elements. -/
def size (m : Matrix) : Nat := m.n_rows * m.n_cols

end Matrix

/-- The `Values` grid assembled by `pyQfEuroBSPDE` when its all-results flag is
set (`pyfunctions4.hpp` lines 89-92): a matrix with `results.times.size()`
rows and `results.values.front().size()` columns, entry `(i, j)` being
`results.values[i](j, 0)`. -/
def valuesGrid (results : Pde1DResults) : Result Matrix := do
  let front ← index results.values 0
  let nrows := results.times.length
  let ncols := front.size
  forLoop (fun i v => forLoop (fun j w => do
      let m ← index results.values i
      let x ← m.get j 0
      w.set i j x) ncols v) nrows (Matrix.zeros nrows ncols)

namespace Pde1DSolver

/-- States the induction driver of the base class (`PdeBase::solve`, not part
of the sources at hand) can bring a solver to: it can change the members of
the base class (grid axes, time steps, ...) and call the five virtual member
functions; the members of `Pde1DSolver` itself are out of its reach. -/
inductive Reachable {Op : Type} (env : Collaborators Op) (s0 : Pde1DSolver Op) :
    Pde1DSolver Op → Prop where
  | start : Reachable env s0 s0
  | base (t : Pde1DSolver Op) (b : PdeBase) :
      Reachable env s0 t → Reachable env s0 { t with toPdeBase := b }
  | initValLayers (t u : Pde1DSolver Op) :
      Reachable env s0 t → Pde1DSolver.initValLayers env t = .ok u → Reachable env s0 u
  | evalProduct (t u : Pde1DSolver Op) (stepIdx : Nat) :
      Reachable env s0 t → Pde1DSolver.evalProduct stepIdx t = .ok u → Reachable env s0 u
  | solveFromStepToStep (t u : Pde1DSolver Op) (step : Int) (DT : ℚ) :
      Reachable env s0 t → Pde1DSolver.solveFromStepToStep env step DT t = .ok u →
      Reachable env s0 u
  | discountFromStepToStep (t u : Pde1DSolver Op) (df : ℚ) :
      Reachable env s0 t → Pde1DSolver.discountFromStepToStep df t = .ok u →
      Reachable env s0 u
  | storeResults (t u : Pde1DSolver Op) :
      Reachable env s0 t → Pde1DSolver.storeResults env t = .ok u → Reachable env s0 u

end Pde1DSolver

/-! ## Configuration and products -/

/-- The structure `PdeParams`. -/
structure PdeParams where
  nTimeSteps : Nat
  nSpotNodes : List Nat
  nStdDevs : List ℚ
  theta : ℚ
  deriving DecidableEq, Repr

/-- The constructor `PdeParams(size_t n)`:
`nTimeSteps(1), nSpotNodes(n, 10), nStdDevs(n, 4.0), theta(0.0)`. -/
def PdeParams.defaultCtor (n : Nat) : PdeParams :=
  { nTimeSteps := 1
    nSpotNodes := List.replicate n 10
    nStdDevs := List.replicate n 4
    theta := 0 }

/-- The class `DigitalCallPut`, with the three containers of its base class
`Product`. -/
structure DigitalCallPut where
  payoffType_ : Int
  strike_ : ℚ
  timeToExp_ : ℚ
  fixTimes_ : Vector
  payTimes_ : Vector
  payAmounts_ : Vector
  deriving DecidableEq, Repr

namespace DigitalCallPut

/-- The initialising constructor `DigitalCallPut(payoffType, strike, timeToExp)`. -/
def ctor (payoffType : Int) (strike timeToExp : ℚ) : Result DigitalCallPut := do
  if ¬ (payoffType = 1 ∨ payoffType = -1) then
    throw (.raised "DigitalCallPut: the payoff type must be 1 (call) or -1 (put)!")
  if ¬ (strike > 0) then
    throw (.raised "DigitalCallPut: the strike must be positive!")
  if ¬ (timeToExp > 0) then
    throw (.raised "DigitalCallPut: the time to expiration must be positive!")
  let fixTimes ← assignIndex (resize 0 1 ([] : Vector)) 0 timeToExp
  let payTimes ← assignIndex (resize 0 1 ([] : Vector)) 0 timeToExp
  .ok { payoffType_ := payoffType, strike_ := strike, timeToExp_ := timeToExp,
        fixTimes_ := fixTimes, payTimes_ := payTimes, payAmounts_ := resize 0 1 [] }

/-- The method `nAssets()`. -/
def nAssets (_d : DigitalCallPut) : Nat := 1

/-- The path evaluator `eval(pricePath)`. -/
def evalPath (d : DigitalCallPut) (pricePath : Matrix) : Result DigitalCallPut := do
  let S_T ← pricePath.get 0 0
  let amount : ℚ :=
    if d.payoffType_ = 1 then (if S_T ≥ d.strike_ then 1 else 0)
    else (if S_T ≤ d.strike_ then 1 else 0)
  let a ← assignIndex d.payAmounts_ 0 amount
  .ok { d with payAmounts_ := a }

/-- The event evaluator `eval(idx, spots, contValue)`. -/
def evalEvent (d : DigitalCallPut) (idx : Nat) (spots : Vector) (contValue : ℚ) :
    Result DigitalCallPut := do
  let _ := contValue
  if ¬ (idx = 0) then
    throw (.raised "DigitalCallPut: wrong fixing time index!")
  let S_T ← index spots idx
  let amount : ℚ :=
    if d.payoffType_ = 1 then (if S_T ≥ d.strike_ then 1 else 0)
    else (if S_T ≤ d.strike_ then 1 else 0)
  let a ← assignIndex d.payAmounts_ idx amount
  .ok { d with payAmounts_ := a }

/-- The digital option seen through the product interface of the solver. -/
def toProduct (d : DigitalCallPut) : Product where
  nAssets := d.nAssets
  fixTimes := d.fixTimes_
  payTimes := d.payTimes_
  payAmounts := d.payAmounts_
  eval := fun idx spots contValue a =>
    (fun d1 : DigitalCallPut => d1.payAmounts_)
      <$> ({ d with payAmounts_ := a } : DigitalCallPut).evalEvent idx spots contValue

end DigitalCallPut

/-! ## Utilities -/

/-- The functions of `<cmath>` used by the rate conversions, over a number
type `α`: `std::exp`, `std::log`, `std::pow`. -/
structure CMath (α : Type) where
  exp : α → α
  log : α → α
  pow : α → α → α

/-- The function `toContCmpd(rate, annfreq)`. -/
def toContCmpd {α : Type} [Field α] (m : CMath α) (rate : α) (annfreq : Nat) : Result α := do
  if ¬ (annfreq ≥ 1) then
    throw (.raised "compounding frequency less than 1 not allowed")
  let tmp := m.pow (1 + rate / (annfreq : α)) (annfreq : α)
  .ok (m.log tmp)

/-- The function `fromContCmpd(rate, annfreq)`. -/
def fromContCmpd {α : Type} [Field α] (m : CMath α) (rate : α) (annfreq : Nat) : Result α := do
  if ¬ (annfreq ≥ 1) then
    throw (.raised "compounding frequency less than 1 not allowed")
  let tmp := m.exp (rate / (annfreq : α))
  .ok ((tmp - 1) * (annfreq : α))

/-- The statement `prod[k] += x`. -/
def addAt (prod : Vector) (k : Nat) (x : ℚ) : Result Vector := do
  let y ← index prod k
  assignIndex prod k (y + x)

/-- The double loop of `pyQfPolyProd` (lines 85-89): `prod[i + j] += pvec[i] * qvec[j]`. -/
def polyAccumulate (pvec qvec prod : Vector) : Result Vector :=
  forLoop (fun i acc => forLoop (fun j acc1 => do
      let a ← index pvec i
      let b ← index qvec j
      addAt acc1 (i + j) (a * b)) qvec.length acc) pvec.length prod

/-- The scan `while (k > 0 && prod[k] == 0) --k;` of `pyQfPolyProd`, started at `k`. -/
def lastNonZero (prod : Vector) : Nat → Result Nat
  | 0 => .ok 0
  | k + 1 => do
    let y ← index prod (k + 1)
    if y = 0 then lastNonZero prod k else .ok (k + 1)

/-- The copy loop of `pyQfPolyProd` (lines 96-99) into a vector of `k + 1` entries. -/
def polyCopy (prod : Vector) (k : Nat) : Result Vector :=
  forLoop (fun i out => do
      let y ← index prod i
      assignIndex out i y) (k + 1) (List.replicate (k + 1) 0)

/-- The function `pyQfPolyProd` on the two coefficient vectors read from its
arguments, returning the vector it hands back. -/
def pyQfPolyProd (pvec qvec : Vector) : Result Vector := do
  let m := pvec.length
  if m = 0 then
    throw (.invalidArgument "p vector is empty")
  let n := qvec.length
  if n = 0 then
    throw (.invalidArgument "q vector is empty")
  let p := m + n - 1
  let prod ← polyAccumulate pvec qvec (List.replicate p 0)
  let k ← lastNonZero prod (p - 1)
  polyCopy prod k

/-- Coefficient `k` of the product polynomial: the sum of `p[i] * q[j]` over
the index pairs with `i + j = k`. -/
def convCoeff (p q : Vector) (k : Nat) : ℚ :=
  ((List.range p.length).map fun i =>
    ((List.range q.length).map fun j =>
      if i + j = k then p.getD i 0 * q.getD j 0 else 0).sum).sum

/-! ## Closed-form pricers -/

/-- The class `NormalDistribution`, whose header is not among the sources at
hand: its density and its distribution function. -/
structure NormalDistribution (α : Type) where
  pdf : α → α
  cdf : α → α

/-- The function `fwdPrice(spot, timeToExp, intRate, divYield)`. -/
def fwdPrice {α : Type} [LinearOrderedField α] (m : CMath α)
    (spot timeToExp intRate divYield : α) : Result α := do
  if ¬ (spot ≥ 0) then
    throw (.raised "spot must be non-negative")
  if ¬ (timeToExp ≥ 0) then
    throw (.raised "time to expiration must be non-negative")
  if ¬ (intRate ≥ 0) then
    throw (.raised "interest rate must be non-negative")
  if ¬ (divYield ≥ 0) then
    throw (.raised "dividend yield must be non-negative")
  .ok (spot * m.exp ((intRate - divYield) * timeToExp))

/-- The function `europeanOptionBS`: price, delta, gamma, theta and vega, in
this order; `sqrt` is the square root of `<cmath>`. -/
def europeanOptionBS {α : Type} [LinearOrderedField α] (m : CMath α) (sqrt : α → α)
    (normal : NormalDistribution α) (payoffType : Int)
    (spot strike timeToExp intRate divYield volatility : α) : Result (List α) := do
  if ¬ (payoffType = 1 ∨ payoffType = -1) then
    throw (.raised "payoffType must be 1 or -1")
  if ¬ (strike ≥ 0) then
    throw (.raised "strike must be non-negative")
  if ¬ (volatility ≥ 0) then
    throw (.raised "volatility must be non-negative")
  let phi : α := (payoffType : α)
  let fwd ← fwdPrice m spot timeToExp intRate divYield
  let sigT := volatility * sqrt timeToExp
  let d1 := m.log (fwd / strike) / sigT + 1 / 2 * sigT
  let d2 := d1 - sigT
  let epsilon : α := 1 / 10 ^ 12
  let df := m.exp (-intRate * timeToExp)
  let qf := m.exp (-divYield * timeToExp)
  let nd1 := normal.cdf (phi * d1)
  let nd2 := normal.cdf (phi * d2)
  let nprd1 := normal.pdf d1
  let sqrtT := sqrt timeToExp
  let price := phi * df * (fwd * nd1 - strike * nd2)
  let delta := phi * qf * nd1
  let gamma := qf * nprd1 / (spot * volatility * sqrtT)
  let gamma := if sigT < epsilon then 0 else gamma
  let theta := -qf * nprd1 * spot * volatility / (2 * sqrtT)
  let theta := theta + phi * divYield * qf * spot * nd1
  let theta := theta - phi * intRate * df * strike * nd2
  let theta := if sqrtT < epsilon then 0 else theta
  let vega := qf * sqrtT * spot * nprd1
  .ok [price, delta, gamma, theta, vega]

/-- The local `quantoDrift` of `quantoEuropeanOptionBS` (line 252). -/
def quantoDrift {α : Type} [LinearOrderedField α]
    (growthRate divYield correl assetVol fxVol : α) : α :=
  growthRate - divYield + correl * assetVol * fxVol

/-- The function `quantoEuropeanOptionBS`. -/
def quantoEuropeanOptionBS {α : Type} [LinearOrderedField α] (m : CMath α) (sqrt : α → α)
    (normal : NormalDistribution α) (payoffType : Int)
    (spot strike timeToExp discRate growthRate divYield assetVol fxVol correl : α) :
    Result α := do
  if ¬ (payoffType = 1 ∨ payoffType = -1) then
    throw (.raised "payoffType must be 1 or -1")
  if ¬ (spot ≥ 0) then
    throw (.raised "spot must be non-negative")
  if ¬ (strike ≥ 0) then
    throw (.raised "strike must be non-negative")
  if ¬ (timeToExp ≥ 0) then
    throw (.raised "time to expiration must be non-negative")
  if ¬ (assetVol ≥ 0) then
    throw (.raised "asset volatility must be non-negative")
  if ¬ (fxVol ≥ 0) then
    throw (.raised "FX volatility must be non-negative")
  if ¬ (correl ≥ -1 ∧ correl ≤ 1) then
    throw (.raised "correlation must be between -1 and 1")
  let phi : α := (payoffType : α)
  let quantoFwd := spot * m.exp (quantoDrift growthRate divYield correl assetVol fxVol * timeToExp)
  let sigT := assetVol * sqrt timeToExp
  let d1 := m.log (quantoFwd / strike) / sigT + 1 / 2 * sigT
  let d2 := d1 - sigT
  let df := m.exp (-discRate * timeToExp)
  let nd1 := normal.cdf (phi * d1)
  let nd2 := normal.cdf (phi * d2)
  let price := phi * df * (quantoFwd * nd1 - strike * nd2)
  .ok price

/-- The first loop of `cdsPV` (lines 207-209): `paytimes[npay - i - 1] -= i * DeltaT`. -/
def cdsPayTimes {α : Type} [LinearOrderedField α] (npay : Nat) (DeltaT : α)
    (paytimes : List α) : Result (List α) :=
  forLoop (fun i pt => do
      let x ← index pt (npay - i - 1)
      assignIndex pt (npay - i - 1) (x - (i : α) * DeltaT)) npay paytimes

/-- The second loop of `cdsPV` (lines 213-217): the survival probabilities,
floored at zero and rescaled. -/
def cdsSurvProb {α : Type} [LinearOrderedField α] (m : CMath α) (credSprd recov epsilon : α)
    (paytimes : List α) (npay : Nat) (survprob : List α) : Result (List α) :=
  forLoop (fun i sp => do
      let t ← index paytimes i
      let sp1 ← assignIndex sp i (m.exp (-credSprd * t) - recov)
      let x ← index sp1 i
      let sp2 ← assignIndex sp1 i (if x > 0 then x else 0)
      let y ← index sp2 i
      assignIndex sp2 i (y / (1 - recov + epsilon))) npay survprob

/-- The third loop of `cdsPV` (lines 222-228) on the pair `(pvpl, pvdl)`;
`discount` is the call `sprfyc->discount(t)` of the class `YieldCurve`, whose
implementation is not among the sources at hand. -/
def cdsLegs {α : Type} [LinearOrderedField α] (discount : α → Result α) (cdsRate recov : α)
    (paytimes survprob : List α) (npay : Nat) : Result (α × α) :=
  forLoop (fun i acc => do
      let t ← index paytimes i
      let df ← discount t
      let DeltaT ← if i = 0 then index paytimes i else do
        let a ← index paytimes i
        let b ← index paytimes (i - 1)
        pure (a - b)
      let sp ← index survprob i
      let pvpl := acc.1 + cdsRate * DeltaT * sp * df
      let defprob ← if i = 0 then do
          let a ← index survprob i
          pure (1 - a)
        else do
          let a ← index survprob (i - 1)
          let b ← index survprob i
          pure (a - b)
      let pvdl := acc.2 + (1 - recov) * defprob * df
      pure (pvpl, pvdl)) npay (0, 0)

/-- The function `cdsPV`, returning `[pvdl, pvpl]`. -/
def cdsPV {α : Type} [LinearOrderedField α] [FloorRing α] (m : CMath α)
    (discount : α → Result α) (credSprd cdsRate recov timeToMat : α) (payFreq : Nat) :
    Result (List α) := do
  if ¬ (credSprd > 0) then
    throw (.raised "credit spread must be non-negative")
  if ¬ (cdsRate ≥ 0) then
    throw (.raised "CDS rate must be non-negative")
  if ¬ (recov ≥ 0 ∧ recov ≤ 1) then
    throw (.raised "recovery must be between 0.0 and 1.0")
  if ¬ (timeToMat ≥ 0) then
    throw (.raised "time to maturity must be non-negative")
  if ¬ (payFreq ≥ 1) then
    throw (.raised "lay frequency must be positive")
  let DeltaT : α := 1 / (payFreq : α)
  let npay : Nat := Nat.ceil (timeToMat * (payFreq : α))
  let epsilon : α := 1 / 10 ^ 12
  if npay = 0 then
    .ok [0, 0]
  else do
    let paytimes ← cdsPayTimes npay DeltaT (List.replicate npay timeToMat)
    let survprob ← cdsSurvProb m credSprd recov epsilon paytimes npay (List.replicate npay 1)
    let legs ← cdsLegs discount cdsRate recov paytimes survprob npay
    .ok [legs.2, legs.1]

/-! ## Linear algebra -/

/-- The library type `Matrix` over a number type `α`, for the routines stated
over the reals: its dimensions and its entries. -/
structure MatrixOf (α : Type) where
  n_rows : Nat
  n_cols : Nat
  entry : Nat → Nat → α

namespace MatrixOf

variable {α : Type}

/-- The call `m.is_square()`. -/
def is_square (m : MatrixOf α) : Bool := m.n_rows == m.n_cols

/-- Read access `m(i, j)`; outside the dimensions it has no meaning. -/
def get (m : MatrixOf α) (i j : Nat) : Result α :=
  if i < m.n_rows ∧ j < m.n_cols then .ok (m.entry i j) else .error .undefined

/-- Write access `m(i, j) = x`; outside the dimensions it has no meaning. -/
def set (m : MatrixOf α) (i j : Nat) (x : α) : Result (MatrixOf α) :=
  if i < m.n_rows ∧ j < m.n_cols then
    .ok { m with entry := fun a b => if a = i ∧ b = j then x else m.entry a b }
  else .error .undefined

end MatrixOf

/-- The locals `myEigenvalues`, `myEigenvectors` and `coeffcorrection` of `spectrunc`. -/
structure SpectralWork (α : Type) where
  myEigenvalues : List α
  myEigenvectors : MatrixOf α
  coeffcorrection : List α

/-- Lines 20-25 of `spectrunc`: every diagonal entry is asserted to be 1.0. -/
def assertUnitDiagonal {α : Type} [LinearOrderedField α] (corrmat : MatrixOf α)
    (matsize : Nat) : Result Unit :=
  forLoop (fun i _ => do
      let d ← corrmat.get i i
      if ¬ (d = 1) then
        throw (.raised
          "spectrunc: input correlation matrix does not have all ones in the diagonal!")
      pure ()) matsize ()

/-- Lines 49-52 of `spectrunc`: column `j` of the eigenvectors is scaled by
`tmp` and the squares of the scaled entries are added to `coeffcorrection`. -/
def scaleColumn {α : Type} [LinearOrderedField α] (tmp : α) (j matsize : Nat)
    (w : SpectralWork α) : Result (SpectralWork α) :=
  forLoop (fun i w1 => do
      let v ← w1.myEigenvectors.get i j
      let tmp2 := v * tmp
      let vecs ← w1.myEigenvectors.set i j tmp2
      let c ← index w1.coeffcorrection i
      let coeff ← assignIndex w1.coeffcorrection i (c + tmp2 * tmp2)
      pure { w1 with myEigenvectors := vecs, coeffcorrection := coeff }) matsize w

/-- Lines 46-54 of `spectrunc`: each eigenvalue is replaced by the root of its
positive part, and column `j` of the eigenvectors is scaled by the larger of
that root and the root of the tolerance. -/
def scaleEigenvectors {α : Type} [LinearOrderedField α] (sqrt : α → α) (tol : α)
    (matsize : Nat) (w : SpectralWork α) : Result (SpectralWork α) :=
  forLoop (fun j w => do
      let lam ← index w.myEigenvalues j
      let root := sqrt (max lam 0)
      let vals ← assignIndex w.myEigenvalues j root
      let tmp := max root (sqrt tol)
      scaleColumn tmp j matsize { w with myEigenvalues := vals }) matsize w

/-- Lines 60-62 of `spectrunc`: row `i` of the eigenvectors is divided by `coeffcorrection[i]`. -/
def divideRow {α : Type} [LinearOrderedField α] (i matsize : Nat) (w : SpectralWork α) :
    Result (SpectralWork α) :=
  forLoop (fun j w1 => do
      let v ← w1.myEigenvectors.get i j
      let d ← index w1.coeffcorrection i
      let vecs ← w1.myEigenvectors.set i j (v / d)
      pure { w1 with myEigenvectors := vecs }) matsize w

/-- Lines 56-63 of `spectrunc`: each row of the scaled eigenvectors is divided
by the root of its accumulated squares, which is asserted to be non-zero. -/
def normaliseRows {α : Type} [LinearOrderedField α] (sqrt : α → α) (matsize : Nat)
    (w : SpectralWork α) : Result (SpectralWork α) :=
  forLoop (fun i w => do
      let c ← index w.coeffcorrection i
      let coeff ← assignIndex w.coeffcorrection i (sqrt c)
      let ci ← index coeff i
      if ¬ (ci ≠ 0) then
        throw (.raised "spectrunc: zero eigenvector in correlation matrix!")
      divideRow i matsize { w with coeffcorrection := coeff }) matsize w

/-- The accumulation `tmp += a(i, k) * a(j, k)` over `k` (lines 68-70 with
`j = i`, lines 78-80). -/
def rowProduct {α : Type} [LinearOrderedField α] (i j matsize : Nat)
    (myEigenvectors : MatrixOf α) : Result α :=
  forLoop (fun k tmp => do
      let a ← myEigenvectors.get i k
      let b ← myEigenvectors.get j k
      pure (tmp + a * b)) matsize 0

/-- Lines 65-72 of `spectrunc`: the largest squared row norm (`tolcorrection`). -/
def maxRowNorm {α : Type} [LinearOrderedField α] (matsize : Nat)
    (myEigenvectors : MatrixOf α) : Result α :=
  forLoop (fun i tolcorrection => do
      let tmp ← rowProduct i i matsize myEigenvectors
      pure (max tolcorrection tmp)) matsize 0

/-- Lines 76-82 of `spectrunc`: the entries of row `i` left of the diagonal,
and their mirror images, are set to the scaled inner products of the rows. -/
def rebuildRow {α : Type} [LinearOrderedField α] (i matsize : Nat)
    (myEigenvectors : MatrixOf α) (tolcorrection : α) (corrmat : MatrixOf α) :
    Result (MatrixOf α) :=
  forLoop (fun j cm => do
      let tmp ← rowProduct i j matsize myEigenvectors
      let cm1 ← cm.set j i (tmp / tolcorrection)
      cm1.set i j (tmp / tolcorrection)) i corrmat

/-- Lines 74-83 of `spectrunc`: the matrix is rebuilt row by row, with ones on
the diagonal. -/
def rebuildCorrelation {α : Type} [LinearOrderedField α] (matsize : Nat)
    (myEigenvectors : MatrixOf α) (tolcorrection : α) (corrmat : MatrixOf α) :
    Result (MatrixOf α) :=
  forLoop (fun i cm => do
      let cm1 ← cm.set i i 1
      rebuildRow i matsize myEigenvectors tolcorrection cm1) matsize corrmat

/-- The function `spectrunc(corrmat, tolerance)`, returning the matrix it
leaves in `corrmat`; `sqrt` is the square root of `<cmath>`, and `eig_sym`
the library call `arma::eig_sym`, `none` standing for a thrown exception. -/
def spectrunc {α : Type} [LinearOrderedField α] (sqrt : α → α)
    (eig_sym : MatrixOf α → Option (List α × MatrixOf α)) (corrmat : MatrixOf α)
    (tolerance : α) : Result (MatrixOf α) := do
  let matsize := corrmat.n_rows
  if ¬ corrmat.is_square then
    throw (.raised "spectrunc: input correlation matrix is not square!")
  assertUnitDiagonal corrmat matsize
  match eig_sym corrmat with
  | none => throw (.raised "spectrunc: failed to diagonalize the correlation matrix!")
  | some (myEigenvalues, myEigenvectors) =>
    let tol := tolerance
    if myEigenvalues.all (fun x => x > tol) then
      .ok corrmat
    else do
      let w ← scaleEigenvectors sqrt tol matsize
        ⟨myEigenvalues, myEigenvectors, List.replicate matsize 0⟩
      let w1 ← normaliseRows sqrt matsize w
      let tolcorrection ← maxRowNorm matsize w1.myEigenvectors
      rebuildCorrelation matsize w1.myEigenvectors tolcorrection corrmat

/-- A valid correlation matrix: square, symmetric, ones on the diagonal,
every entry in `[-1, 1]`, positive semi-definite. -/
def IsCorrelation {α : Type} [LinearOrderedField α] (m : MatrixOf α) : Prop :=
  m.n_cols = m.n_rows
    ∧ (∀ i j, i < m.n_rows → j < m.n_rows → m.entry i j = m.entry j i)
    ∧ (∀ i, i < m.n_rows → m.entry i i = 1)
    ∧ (∀ i j, i < m.n_rows → j < m.n_rows → -1 ≤ m.entry i j ∧ m.entry i j ≤ 1)
    ∧ ∀ x : Nat → α, 0 ≤ ∑ i in Finset.range m.n_rows, ∑ j in Finset.range m.n_rows,
        x i * m.entry i j * x j

/-- What a correct eigen-decomposition of the square matrix `a` provides:
as many eigenvalues as rows, a square matrix of eigenvectors of the same
size, and `a = V diag(vals) Vᵀ` (the orthonormality of the columns of `V` is
not needed below). -/
def IsEigenDecomposition {α : Type} [LinearOrderedField α] (a : MatrixOf α) (vals : List α)
    (vecs : MatrixOf α) : Prop :=
  vals.length = a.n_rows ∧ vecs.n_rows = a.n_rows ∧ vecs.n_cols = a.n_rows
    ∧ ∀ i j, i < a.n_rows → j < a.n_rows →
        a.entry i j = ∑ k in Finset.range a.n_rows, vecs.entry i k * vals.getD k 0 * vecs.entry j k

/-! ## Double arithmetic

The product of two numbers of type `double` as the machine computes it (IEEE
754 binary64, rounding to nearest, ties to even): the exact product, rounded
to the nearest number with a significand of 53 binary digits. A finite
`double` is the rational number it denotes. Results beyond the largest finite
`double`, which the machine rounds to infinity, are not represented: the
functions below describe the products that stay in the finite range. -/

/-- The integer nearest to `p / q`, ties going to the even one. -/
def roundNearestEven (p q : Nat) : Nat :=
  let f := p / q
  let r := p % q
  if 2 * r < q then f else if q < 2 * r then f + 1 else if f % 2 = 0 then f else f + 1

/-- The quotient `p / q` divided by `2 ^ k`, as numerator and denominator. -/
def scaleByPow2 (k : Int) (p q : Nat) : Nat × Nat :=
  if 0 ≤ k then (p, q * 2 ^ k.toNat) else (p * 2 ^ (-k).toNat, q)

/-- The number of halvings that bring `n` below two, in at most `fuel` steps. -/
def floorLog2With : Nat → Nat → Nat
  | 0, _ => 0
  | fuel + 1, n => if 2 ≤ n then floorLog2With fuel (n / 2) + 1 else 0

/-- The exponent of the leading binary digit of a positive `n`. -/
def floorLog2 (n : Nat) : Nat := floorLog2With n n

/-- The exponent `e` with `2 ^ e ≤ p / q < 2 ^ (e + 1)`, for positive `p` and `q`. -/
def binaryExponent (p q : Nat) : Int :=
  let e0 : Int := (floorLog2 p : Int) - (floorLog2 q : Int)
  let pq := scaleByPow2 e0 p q
  if pq.2 ≤ pq.1 then e0 else e0 - 1

/-- The exponent of the last binary place of the `double` nearest `p / q`:
52 places below the leading digit, and never below the last place `2 ^ (-1074)`
of the subnormal numbers. -/
def ulpExponent (p q : Nat) : Int := max (binaryExponent p q) (-1022) - 52

/-- The significand of the `double` nearest `p / q`, in units of the last place. -/
def significand (p q : Nat) : Nat :=
  roundNearestEven (scaleByPow2 (ulpExponent p q) p q).1 (scaleByPow2 (ulpExponent p q) p q).2

/-- The `double` nearest the positive quotient `p / q`. -/
def roundPos (p q : Nat) : ℚ := (significand p q : ℚ) * (2 : ℚ) ^ ulpExponent p q

/-- The `double` nearest `x`. -/
def roundDouble (x : ℚ) : ℚ :=
  if x = 0 then 0
  else if x < 0 then -roundPos x.num.natAbs x.den
  else roundPos x.num.natAbs x.den

/-- The product `x * y` of two numbers of type `double`, as the machine computes it. -/
def mulDouble (x y : ℚ) : ℚ := roundDouble (x * y)

/-! ## Sample collaborators and inputs for concrete runs -/

/-- A tridiagonal operator with one coefficient per diagonal, for sample runs. -/
structure SampleOp where
  lower : ℚ
  diag : ℚ
  upper : ℚ
  deriving DecidableEq, Repr

/-- Boundary rows of a column by linear extrapolation from its two neighbours
(sample boundary condition; columns shorter than three rows are left alone). -/
def sampleBoundary (v : Vector) : Vector :=
  match v with
  | _ :: b :: c :: rest => (2 * b - c) :: b :: c :: rest
  | _ => v

/-- Sample piecewise-linear interpolation through the points `(xs[i], ys[i])`,
extended linearly beyond the first and the last point. -/
def sampleInterpolate : Vector → Vector → ℚ → Result ℚ
  | x0 :: x1 :: xs, y0 :: y1 :: ys, x =>
    if x ≤ x1 ∨ xs = [] then .ok (y0 + (y1 - y0) * (x - x0) / (x1 - x0))
    else sampleInterpolate (x1 :: xs) (y1 :: ys) x
  | _, _, _ => .error .undefined

/-- Sample collaborators: a base constructor leaving every container empty,
operators acting through their diagonal coefficient, boundary conditions
applied column by column, the vol initialisers accepting their input. -/
def sampleEnv : Collaborators SampleOp where
  pdeBase := fun product =>
    { spprod_ := product, nAssets_ := 0, nLayers_ := 0, spdiscyc_ := none, spots_ := [],
      spaccrycs_ := [], divyields_ := [], vols_ := [], gridAxes_ := [], theta_ := 0,
      nSteps_ := 0, timesteps_ := [], stepindex_ := [] }
  nFactors := fun b => b.nAssets_
  emptyOp := ⟨0, 0, 0⟩
  deltaInit := fun drifts DT DX w => ⟨-(w * DT * drifts.sum / (2 * DX)), 0, w * DT * drifts.sum / (2 * DX)⟩
  gammaInit := fun variances DT DX w =>
    ⟨w * DT * variances.sum / (2 * DX * DX), -(w * DT * variances.sum / (DX * DX)),
      w * DT * variances.sum / (2 * DX * DX)⟩
  triInit := fun _ l d u => ⟨l, d, u⟩
  add := fun a b => ⟨a.lower + b.lower, a.diag + b.diag, a.upper + b.upper⟩
  sub := fun a b => ⟨a.lower - b.lower, a.diag - b.diag, a.upper - b.upper⟩
  apply := fun op v => v.map fun x => op.diag * x
  applyInverse := fun op v => v.map fun x => x / op.diag
  adjustOpsForBoundaryConditions := fun _ e i _ => (e, i)
  applyBoundaryConditions := fun _ m => { m with cols := m.cols.map sampleBoundary }
  initFromSpotVols := fun f => .ok f
  initFromFwdVols := fun f => .ok f
  interpolate := sampleInterpolate

/-- A flat yield curve. -/
def flatCurve (r : ℚ) : YieldCurve := ⟨fun _ => r⟩

/-- A sample product with two fixings (times 1 and 2) paid one period later
(times 2 and 3); its event evaluator writes the spot into the pay amount of
the evaluated fixing and keeps the other pay amounts. -/
def sampleProduct : Product where
  nAssets := 1
  fixTimes := [1, 2]
  payTimes := [2, 3]
  payAmounts := [7, 0]
  eval := fun idx spots _ payAms =>
    match spots[0]? with
    | some x => assignIndex payAms idx x
    | none => .error .undefined

/-- Empty results container. -/
def emptyResults : Pde1DResults := ⟨[], [], [], []⟩

/-- A sample grid axis with one interior node and the two boundary nodes. -/
def sampleAxis : GridAxis where
  NX := 1
  DX := 1
  Slevels := [90, 100, 110]
  Xlevels := [-1, 0, 1]
  drifts := [0, 0, 0]
  variances := [1, 1, 1]
  coordinateChange := ⟨fun x => (x - 100) / 10⟩

/-- A sample solver in the middle of the induction: three time steps, the last
two being the fixings of `sampleProduct`, one layer, `prevValues = &values1`,
`currValues = &values2`. -/
def sampleSolver : Pde1DSolver SampleOp :=
  { Pde1DSolver.standard sampleEnv sampleProduct (flatCurve (1/20)) 100 0
      ⟨⟨[1], [1/5], 0⟩⟩ ⟨[0, 0, 0], [Matrix.empty, Matrix.empty, Matrix.empty], [], []⟩ false with
    gridAxes_ := [sampleAxis]
    theta_ := 1/2
    nSteps_ := 3
    timesteps_ := [0, 1, 2]
    stepindex_ := [-1, 0, 1]
    values1 := ⟨3, [[1, 2, 4]]⟩
    values2 := Matrix.zeros 3 1
    prevValues := some ValBuf.values1
    currValues := some ValBuf.values2 }

/-- The `double` written `0.99`: the one nearest 99/100. -/
def sampleDiscount : ℚ := 4458563631096791 / 4503599627370496

/-- The sample solver with the value `100.0` at the three nodes of the
previous-values buffer. -/
def sampleDoubleSolver : Pde1DSolver SampleOp :=
  { sampleSolver with values1 := ⟨3, [[100, 100, 100]]⟩ }

/-- The solver `pyQfEuroBSPDE` builds (6-argument constructor, default
results), with the base-class members the driver has set up for the sample
grid and time steps. -/
def sampleEuroSolver : Pde1DSolver SampleOp :=
  { Pde1DSolver.standard6 sampleEnv sampleProduct (flatCurve (1/20)) 100 0
      ⟨⟨[1], [1/5], 0⟩⟩ emptyResults with
    toPdeBase := sampleSolver.toPdeBase }

/-- The solver `sampleEuroSolver` after `initValLayers`. -/
def sampleEuroInitialised : Pde1DSolver SampleOp :=
  { sampleEuroSolver with
    values1 := Matrix.zeros 3 1
    values2 := Matrix.zeros 3 1
    prevValues := some ValBuf.values1
    currValues := some ValBuf.values2
    results_ := ⟨[0, 0, 0], [Matrix.empty, Matrix.empty, Matrix.empty], [], []⟩ }

/-- A distribution function with the symmetry `cdf x + cdf (-x) = 1` of the
normal one, and a bump as density, for sample runs. -/
def sampleNormal {α : Type} [LinearOrderedField α] : NormalDistribution α where
  pdf := fun x => 1 / (2 * (1 + |x|) ^ 2)
  cdf := fun x => (1 + x / (1 + |x|)) / 2

/-- The identity matrix of size `n`. -/
def MatrixOf.identity {α : Type} [LinearOrderedField α] (n : Nat) : MatrixOf α :=
  ⟨n, n, fun i j => if i = j then 1 else 0⟩

/-- A sample stand-in for `arma::eig_sym`, which reads the upper triangle of
its argument: for a square matrix with zeros above the diagonal it returns the
diagonal entries as eigenvalues and the identity as eigenvectors; on any other
matrix it fails. -/
def sampleEigSym {α : Type} [LinearOrderedField α] (m : MatrixOf α) :
    Option (List α × MatrixOf α) :=
  if m.n_rows = m.n_cols ∧ ∀ j, j < m.n_cols → ∀ i, i < j → m.entry i j = 0 then
    some ((List.range m.n_rows).map fun i => m.entry i i, MatrixOf.identity m.n_rows)
  else none

/-- A square matrix with unit diagonal that is not symmetric: rows `(1, 0)` and `(1/2, 1)`. -/
def sampleAsymmetric {α : Type} [LinearOrderedField α] : MatrixOf α :=
  ⟨2, 2, fun i j => if i = j then 1 else if i = 1 ∧ j = 0 then 1 / 2 else 0⟩

/-- A symmetric matrix with unit diagonal that is not positive semi-definite:
rows `(1, 17/8)` and `(17/8, 1)`. -/
def sampleIndefinite {α : Type} [LinearOrderedField α] : MatrixOf α :=
  ⟨2, 2, fun i j => if i = j then 1 else 17 / 8⟩

/-- A decomposition `V diag(4, -1) Vᵀ` of `sampleIndefinite`: the columns of
`V` are its eigenvectors `(1, 1)` and `(1, -1)`, scaled (not normalised) so
that every number of the sample run is rational. -/
def sampleIndefiniteEig {α : Type} [LinearOrderedField α] (_ : MatrixOf α) :
    Option (List α × MatrixOf α) :=
  some ([4, -1], ⟨2, 2, fun i j => if j = 0 then 5 / 8 else if i = 0 then 3 / 4 else -(3 / 4)⟩)

/-! ## Theorems -/

theorem create_flat {Op : Type} (env : Collaborators Op) (assetVol : ℚ) :
    VolatilityTermStructure.create env [1] [assetVol] VolType.SPOTVOL
      = (env.initFromSpotVols ⟨[1], [assetVol], 0⟩).map VolatilityTermStructure.mk := by
  simp only [VolatilityTermStructure.create]
  cases h : env.initFromSpotVols ⟨[1], [assetVol], 0⟩ <;>
    simp [h, bind, Except.bind, Except.map, pure, Except.pure]


theorem back_of_getLast {α : Type} (v : List α) (x : α) (h : v.getLast? = some x) :
    back v = .ok x := by
  simp [back, h]

/-- Closed form of the quanto constructor once the flat vol structure is built
and the product has a last fixing time. -/
theorem quanto_eq {Op : Type} (env : Collaborators Op) (product : Product)
    (discountYieldCurve growthYieldCurve : YieldCurve)
    (spot divyield assetVol fxVol correl : ℚ) (results : Pde1DResults)
    (storeAllResults : Bool) (svol : VolatilityTermStructure) (tLast : ℚ)
    (hvol : VolatilityTermStructure.create env [1] [assetVol] VolType.SPOTVOL = .ok svol)
    (hfix : product.fixTimes.getLast? = some tLast) :
    Pde1DSolver.quanto env product discountYieldCurve growthYieldCurve spot divyield
        assetVol fxVol correl results storeAllResults
      = .ok { (Pde1DSolver.commonBody
                (Pde1DSolver.membersAfterBase env product results storeAllResults true
                  (some assetVol) (some fxVol) (some correl))
                product discountYieldCurve spot divyield) with
              vols_ := (env.pdeBase product).vols_ ++ [svol]
              divyields_ := ((env.pdeBase product).divyields_ ++ [divyield]).set 0
                (discountYieldCurve.spotRate tLast - growthYieldCurve.spotRate tLast
                  + divyield - correl * assetVol * fxVol) } := by
  have hb := back_of_getLast _ _ hfix
  simp only [Pde1DSolver.quanto, hvol, hb, bind, Except.bind, assignIndex,
    Pde1DSolver.commonBody, Pde1DSolver.membersAfterBase]
  simp

theorem create_sample (assetVol : ℚ) :
    VolatilityTermStructure.create sampleEnv [1] [assetVol] VolType.SPOTVOL
      = .ok ⟨⟨[1], [assetVol], 0⟩⟩ := by
  rw [create_flat]
  rfl

/-- C1. For every product, pair of yield curves and inputs spot, divyield,
assetVol, fxVol, correl (the flat vol structure being constructible and the
product having a last fixing time), the quanto constructor returns a solver
whose dividend yield `divyields_[0]` is
`rd - rf + divyield - correl * assetVol * fxVol`, where `rd` and `rf` are the
spot rates of the discount and the growth curve at the last fixing time; when
the base constructor leaves `divyields_` empty this is the solver's only
dividend yield. -/
theorem quanto_dividend_yield {Op : Type} (env : Collaborators Op) (product : Product)
    (discountYieldCurve growthYieldCurve : YieldCurve)
    (spot divyield assetVol fxVol correl : ℚ) (results : Pde1DResults)
    (storeAllResults : Bool) (svol : VolatilityTermStructure) (tLast : ℚ)
    (hvol : VolatilityTermStructure.create env [1] [assetVol] VolType.SPOTVOL = .ok svol)
    (hfix : product.fixTimes.getLast? = some tLast) :
    ∃ s, Pde1DSolver.quanto env product discountYieldCurve growthYieldCurve spot divyield
          assetVol fxVol correl results storeAllResults = .ok s
      ∧ s.divyields_[0]? = some (discountYieldCurve.spotRate tLast
          - growthYieldCurve.spotRate tLast + divyield - correl * assetVol * fxVol)
      ∧ ((env.pdeBase product).divyields_ = [] →
          s.divyields_ = [discountYieldCurve.spotRate tLast
            - growthYieldCurve.spotRate tLast + divyield - correl * assetVol * fxVol]) := by
  refine ⟨_, quanto_eq env product discountYieldCurve growthYieldCurve spot divyield
    assetVol fxVol correl results storeAllResults svol tLast hvol hfix, ?_, ?_⟩
  · cases h : (env.pdeBase product).divyields_ <;> simp
  · intro h
    simp [h]

/-- Sample run of C1: rates 5% and 2%, dividend yield 1%, vols 20% and 10%,
correlation 1/2, last fixing time 2. -/
theorem quanto_dividend_yield_witness :
    ∃ s, Pde1DSolver.quanto sampleEnv sampleProduct (flatCurve (1/20)) (flatCurve (1/50))
          100 (1/100) (1/5) (1/10) (1/2) emptyResults false = .ok s
      ∧ s.divyields_[0]? = some ((flatCurve (1/20)).spotRate 2
          - (flatCurve (1/50)).spotRate 2 + 1/100 - 1/2 * (1/5) * (1/10))
      ∧ ((sampleEnv.pdeBase sampleProduct).divyields_ = [] →
          s.divyields_ = [(flatCurve (1/20)).spotRate 2
            - (flatCurve (1/50)).spotRate 2 + 1/100 - 1/2 * (1/5) * (1/10)]) :=
  quanto_dividend_yield sampleEnv sampleProduct (flatCurve (1/20)) (flatCurve (1/50))
    100 (1/100) (1/5) (1/10) (1/2) emptyResults false ⟨⟨[1], [1/5], 0⟩⟩ 2
    (create_sample (1/5)) rfl

/-! ### Counted loops -/

theorem forLoop_succ {σ : Type} (body : Nat → σ → Result σ) (n : Nat) (s : σ) :
    forLoop body (n + 1) s = (forLoop body n s) >>= body n := rfl

/-- A loop commutes with a state transformation its body commutes with. -/
theorem forLoop_map {σ : Type} (g : σ → σ) (body : Nat → σ → Result σ)
    (h : ∀ k s, body k (g s) = g <$> body k s) (n : Nat) (s : σ) :
    forLoop body n (g s) = g <$> forLoop body n s := by
  induction n with
  | zero => rfl
  | succ n ih =>
    rw [forLoop_succ, forLoop_succ, ih]
    cases hn : forLoop body n s with
    | error e => rfl
    | ok t => exact h n t

/-- Loop rule: an invariant carried by every iteration, with every iteration
returning, is carried by the loop, which returns. -/
theorem forLoop_inv {σ : Type} (I : Nat → σ → Prop) (body : Nat → σ → Result σ) (n : Nat)
    (s : σ) (h0 : I 0 s)
    (hstep : ∀ k t, k < n → I k t → ∃ t1, body k t = .ok t1 ∧ I (k + 1) t1) :
    ∃ s1, forLoop body n s = .ok s1 ∧ I n s1 := by
  induction n with
  | zero => exact ⟨s, rfl, h0⟩
  | succ n ih =>
    obtain ⟨t, ht, hI⟩ := ih (fun k t hk => hstep k t (Nat.lt_succ_of_lt hk))
    obtain ⟨t1, ht1, hI1⟩ := hstep n t (Nat.lt_succ_self n) hI
    refine ⟨t1, ?_, hI1⟩
    rw [forLoop_succ, ht]
    exact ht1

/-- Loop rule without the returning part: whatever the loop returns carries the invariant. -/
theorem forLoop_inv_of_ok {σ : Type} (I : Nat → σ → Prop) (body : Nat → σ → Result σ)
    (n : Nat) (s s1 : σ) (h0 : I 0 s)
    (hstep : ∀ k t t1, k < n → I k t → body k t = .ok t1 → I (k + 1) t1)
    (hrun : forLoop body n s = .ok s1) : I n s1 := by
  induction n generalizing s1 with
  | zero =>
    cases hrun
    exact h0
  | succ n ih =>
    rw [forLoop_succ] at hrun
    cases hn : forLoop body n s with
    | error e => rw [hn] at hrun; cases hrun
    | ok t =>
      rw [hn] at hrun
      exact hstep n t s1 (Nat.lt_succ_self n)
        (ih t (fun k t t1 hk => hstep k t t1 (Nat.lt_succ_of_lt hk)) hn) hrun

theorem bind_ok {α β : Type} (x : Result α) (f : α → Result β) (b : β)
    (h : x >>= f = .ok b) : ∃ a, x = .ok a ∧ f a = .ok b := by
  cases x with
  | error e => cases h
  | ok a => exact ⟨a, rfl, h⟩

/-! ### The quanto members are not read by any step -/

namespace Pde1DSolver

variable {Op : Type}

@[simp] theorem withQuanto_toPdeBase (q : QuantoFields) (s : Pde1DSolver Op) :
    (withQuanto q s).toPdeBase = s.toPdeBase := rfl

@[simp] theorem withQuanto_prevPtr (q : QuantoFields) (s : Pde1DSolver Op) :
    (withQuanto q s).prevPtr = s.prevPtr := rfl

@[simp] theorem withQuanto_currPtr (q : QuantoFields) (s : Pde1DSolver Op) :
    (withQuanto q s).currPtr = s.currPtr := rfl

@[simp] theorem withQuanto_gridAxis0 (q : QuantoFields) (s : Pde1DSolver Op) :
    (withQuanto q s).gridAxis0 = s.gridAxis0 := rfl

@[simp] theorem withQuanto_deref (q : QuantoFields) (s : Pde1DSolver Op) (b : ValBuf) :
    (withQuanto q s).deref b = s.deref b := by
  cases b <;> rfl

@[simp] theorem withQuanto_store (q : QuantoFields) (s : Pde1DSolver Op) (b : ValBuf)
    (m : Matrix) : (withQuanto q s).store b m = withQuanto q (s.store b m) := by
  cases b <;> rfl

@[simp] theorem withQuanto_opExplicit (q : QuantoFields) (s : Pde1DSolver Op) :
    (withQuanto q s).opExplicit_ = s.opExplicit_ := rfl

@[simp] theorem withQuanto_opImplicit (q : QuantoFields) (s : Pde1DSolver Op) :
    (withQuanto q s).opImplicit_ = s.opImplicit_ := rfl

@[simp] theorem map_ok {α β : Type} (g : α → β) (a : α) :
    g <$> (Except.ok a : Result α) = Except.ok (g a) := rfl

theorem stepLayer_withQuanto (env : Collaborators Op) (q : QuantoFields) (j : Nat)
    (s : Pde1DSolver Op) :
    stepLayer env j (withQuanto q s) = withQuanto q <$> stepLayer env j s := by
  simp only [stepLayer, withQuanto_prevPtr, withQuanto_currPtr, withQuanto_deref,
    withQuanto_store, withQuanto_opExplicit, withQuanto_opImplicit, map_bind, map_ok]

theorem buildOperators_withQuanto (env : Collaborators Op) (q : QuantoFields) (DT : ℚ)
    (s : Pde1DSolver Op) :
    buildOperators env DT (withQuanto q s) = withQuanto q <$> buildOperators env DT s := by
  simp only [buildOperators, withQuanto_gridAxis0, map_bind, map_ok]
  rfl

theorem adjustOperators_withQuanto (env : Collaborators Op) (q : QuantoFields)
    (s : Pde1DSolver Op) :
    adjustOperators env (withQuanto q s) = withQuanto q <$> adjustOperators env s := by
  simp only [adjustOperators, withQuanto_gridAxis0, map_bind, map_ok]
  rfl

theorem boundaryStep_withQuanto (env : Collaborators Op) (q : QuantoFields)
    (s : Pde1DSolver Op) :
    boundaryStep env (withQuanto q s) = withQuanto q <$> boundaryStep env s := by
  simp only [boundaryStep, withQuanto_prevPtr, withQuanto_deref, withQuanto_store,
    withQuanto_toPdeBase, map_bind, map_ok]

theorem discountFromStepToStep_withQuanto (q : QuantoFields) (df : ℚ) (s : Pde1DSolver Op) :
    discountFromStepToStep df (withQuanto q s) = withQuanto q <$> discountFromStepToStep df s := by
  simp only [discountFromStepToStep, withQuanto_prevPtr, withQuanto_deref, withQuanto_store,
    map_bind, map_ok]

theorem bind_withQuanto {α : Type} (q : QuantoFields) (x : Result (Pde1DSolver Op))
    (f : Pde1DSolver Op → Result α) :
    (withQuanto q <$> x) >>= f = x >>= fun t => f (withQuanto q t) := by
  cases x <;> rfl

theorem solveFromStepToStep_withQuanto (env : Collaborators Op) (q : QuantoFields)
    (step : Int) (DT : ℚ) (s : Pde1DSolver Op) :
    solveFromStepToStep env step DT (withQuanto q s)
      = withQuanto q <$> solveFromStepToStep env step DT s := by
  simp only [solveFromStepToStep, buildOperators_withQuanto, bind_withQuanto,
    adjustOperators_withQuanto, map_bind]
  refine bind_congr fun s1 => bind_congr fun s2 => ?_
  have h := forLoop_map (withQuanto q) (stepLayer env) (stepLayer_withQuanto env q)
    s2.nLayers_ s2
  have hn : (withQuanto q s2).nLayers_ = s2.nLayers_ := rfl
  rw [hn, h, bind_withQuanto]
  exact bind_congr fun s3 => boundaryStep_withQuanto env q s3

theorem zeroEntry_withQuanto (q : QuantoFields) (i j : Nat) (s : Pde1DSolver Op) :
    zeroEntry i j (withQuanto q s) = withQuanto q <$> zeroEntry i j s := by
  simp only [zeroEntry, map_bind, map_ok]
  rfl

theorem zeroRow_withQuanto (q : QuantoFields) (i : Nat) (s : Pde1DSolver Op) :
    forLoop (fun j u => zeroEntry i j u) (withQuanto q s).nLayers_ (withQuanto q s)
      = withQuanto q <$> forLoop (fun j u => zeroEntry i j u) s.nLayers_ s :=
  forLoop_map (withQuanto q) (fun j u => zeroEntry i j u)
    (fun j u => zeroEntry_withQuanto q i j u) s.nLayers_ s

theorem initValLayers_withQuanto (env : Collaborators Op) (q : QuantoFields)
    (s : Pde1DSolver Op) :
    initValLayers env (withQuanto q s) = withQuanto q <$> initValLayers env s := by
  unfold initValLayers initValLayersBody
  simp only [withQuanto_toPdeBase, withQuanto_gridAxis0]
  by_cases hf : env.nFactors s.toPdeBase = 1
  · simp only [hf, ne_eq, not_true_eq_false, if_false, map_bind]
    refine bind_congr fun _ => bind_congr fun grax => ?_
    have h := forLoop_map (withQuanto q)
      (fun i (t : Pde1DSolver Op) => forLoop (fun j u => zeroEntry i j u) t.nLayers_ t)
      (fun i t => zeroRow_withQuanto q i t) (grax.NX + 2)
      { s with values1 := s.values1.resize (grax.NX + 2) s.nLayers_,
               values2 := s.values2.resize (grax.NX + 2) s.nLayers_ }
    erw [h, bind_withQuanto]
    refine bind_congr fun s3 => ?_
    cases hs : s3.storeAllResults_ <;> simp [withQuanto, hs]
  · simp only [hf, ne_eq, not_false_eq_true, if_true]
    rfl

theorem evalNode_withQuanto (q : QuantoFields) (eventIdx : Nat) (fixtime : ℚ)
    (payTms : Vector) (node : Nat) (s : Pde1DSolver Op) :
    evalNode eventIdx fixtime payTms node (withQuanto q s)
      = withQuanto q <$> evalNode eventIdx fixtime payTms node s := by
  simp only [evalNode, withQuanto_gridAxis0, withQuanto_prevPtr, withQuanto_deref,
    map_bind, map_ok]
  refine bind_congr fun grax => bind_congr fun spot => bind_congr fun p =>
    bind_congr fun cv => bind_congr fun prod => bind_congr fun _ => bind_congr fun a => ?_
  cases p <;> rfl

theorem evalNodes_withQuanto (q : QuantoFields) (stepIdx : Nat) (s : Pde1DSolver Op) :
    evalNodes stepIdx (withQuanto q s) = withQuanto q <$> evalNodes stepIdx s := by
  unfold evalNodes
  simp only [map_bind]
  refine bind_congr fun e => ?_
  by_cases he : e ≥ 0
  · simp only [he, if_true, map_bind, withQuanto_gridAxis0]
    refine bind_congr fun fixtime => bind_congr fun grax => ?_
    exact forLoop_map (withQuanto q) _
      (fun k t => evalNode_withQuanto q e.toNat fixtime s.spprod_.payTimes k t) _ s
  · simp only [he, if_false]
    rfl

theorem recordStep_withQuanto (q : QuantoFields) (stepIdx : Nat) (s : Pde1DSolver Op) :
    recordStep stepIdx (withQuanto q s) = withQuanto q <$> recordStep stepIdx s := by
  unfold recordStep
  simp only [map_bind]
  refine bind_congr fun t => bind_congr fun times => ?_
  cases hs : s.storeAllResults_
  · simp [withQuanto, hs]
  · simp only [withQuanto, hs, if_true, map_bind]
    refine bind_congr fun p => ?_
    cases p <;> rfl

theorem evalProduct_withQuanto (q : QuantoFields) (stepIdx : Nat) (s : Pde1DSolver Op) :
    evalProduct stepIdx (withQuanto q s) = withQuanto q <$> evalProduct stepIdx s := by
  simp only [evalProduct, evalNodes_withQuanto, bind_withQuanto, map_bind]
  exact bind_congr fun s1 => recordStep_withQuanto q stepIdx s1

theorem storeLayer_withQuanto (env : Collaborators Op) (q : QuantoFields) (j : Nat)
    (s : Pde1DSolver Op) :
    storeLayer env j (withQuanto q s) = withQuanto q <$> storeLayer env j s := by
  simp only [storeLayer, withQuanto_gridAxis0, withQuanto_prevPtr, withQuanto_deref,
    map_bind, map_ok]
  rfl

theorem storeResults_withQuanto (env : Collaborators Op) (q : QuantoFields)
    (s : Pde1DSolver Op) :
    storeResults env (withQuanto q s) = withQuanto q <$> storeResults env s := by
  unfold storeResults
  exact forLoop_map (withQuanto q) (storeLayer env) (storeLayer_withQuanto env q) _
    { s with results_ := { gridAxes := s.gridAxes_,
                           prices := resize 0 s.nLayers_ s.results_.prices,
                           times := s.results_.times, values := s.results_.values } }

end Pde1DSolver

/-- Closed form of the quanto constructor in terms of the standard one, when
the base constructor leaves `divyields_` empty. -/
theorem quanto_eq_standard {Op : Type} (env : Collaborators Op) (product : Product)
    (discountYieldCurve growthYieldCurve : YieldCurve)
    (spot divyield assetVol fxVol correl : ℚ) (results : Pde1DResults)
    (storeAllResults : Bool) (svol : VolatilityTermStructure) (tLast : ℚ)
    (hbase : (env.pdeBase product).divyields_ = [])
    (hvol : VolatilityTermStructure.create env [1] [assetVol] VolType.SPOTVOL = .ok svol)
    (hfix : product.fixTimes.getLast? = some tLast) :
    Pde1DSolver.quanto env product discountYieldCurve growthYieldCurve spot divyield
        assetVol fxVol correl results storeAllResults
      = .ok (Pde1DSolver.withQuanto ⟨true, some assetVol, some fxVol, some correl⟩
          (Pde1DSolver.standard env product discountYieldCurve spot
            (discountYieldCurve.spotRate tLast - growthYieldCurve.spotRate tLast
              + divyield - correl * assetVol * fxVol) svol results storeAllResults)) := by
  rw [quanto_eq env product discountYieldCurve growthYieldCurve spot divyield assetVol fxVol
    correl results storeAllResults svol tLast hvol hfix]
  simp [Pde1DSolver.withQuanto, Pde1DSolver.standard, Pde1DSolver.commonBody,
    Pde1DSolver.membersAfterBase, hbase]

/-- C2. The state built by the 10-argument quanto constructor is the state
built by the 7-argument standard constructor from the same product, discount
curve and spot, the adjusted dividend yield and the flat spot-vol structure
(maturity 1, value assetVol), with only the members `isQuanto_`, `assetVol_`,
`fxVol_`, `correl_` set differently: all base-class members (layer count,
asset count, discount curve, accrual curves, spots, dividend yields, vols)
and the `storeAllResults_` flag agree, and each later step
(`initValLayers`, `evalProduct`, `solveFromStepToStep`,
`discountFromStepToStep`, `storeResults`) commutes with a change of those
four members, so it proceeds identically on both. -/
theorem quanto_refines_standard {Op : Type} (env : Collaborators Op) (product : Product)
    (discountYieldCurve growthYieldCurve : YieldCurve)
    (spot divyield assetVol fxVol correl : ℚ) (results : Pde1DResults)
    (storeAllResults : Bool) (svol : VolatilityTermStructure) (tLast : ℚ)
    (hbase : (env.pdeBase product).divyields_ = [])
    (hvol : VolatilityTermStructure.create env [1] [assetVol] VolType.SPOTVOL = .ok svol)
    (hfix : product.fixTimes.getLast? = some tLast) :
    ∃ s, Pde1DSolver.quanto env product discountYieldCurve growthYieldCurve spot divyield
          assetVol fxVol correl results storeAllResults = .ok s
      ∧ s = Pde1DSolver.withQuanto ⟨true, some assetVol, some fxVol, some correl⟩
          (Pde1DSolver.standard env product discountYieldCurve spot
            (discountYieldCurve.spotRate tLast - growthYieldCurve.spotRate tLast
              + divyield - correl * assetVol * fxVol) svol results storeAllResults)
      ∧ s.toPdeBase = (Pde1DSolver.standard env product discountYieldCurve spot
            (discountYieldCurve.spotRate tLast - growthYieldCurve.spotRate tLast
              + divyield - correl * assetVol * fxVol) svol results storeAllResults).toPdeBase
      ∧ s.nLayers_ = 1 ∧ s.nAssets_ = product.nAssets
      ∧ s.storeAllResults_ = storeAllResults
      ∧ s.isQuanto_ = true
      ∧ (Pde1DSolver.standard env product discountYieldCurve spot
            (discountYieldCurve.spotRate tLast - growthYieldCurve.spotRate tLast
              + divyield - correl * assetVol * fxVol) svol results
              storeAllResults).isQuanto_ = false
      ∧ (∀ (q : Pde1DSolver.QuantoFields) (t : Pde1DSolver Op),
          Pde1DSolver.initValLayers env (Pde1DSolver.withQuanto q t)
            = Pde1DSolver.withQuanto q <$> Pde1DSolver.initValLayers env t)
      ∧ (∀ (q : Pde1DSolver.QuantoFields) (t : Pde1DSolver Op) (stepIdx : Nat),
          Pde1DSolver.evalProduct stepIdx (Pde1DSolver.withQuanto q t)
            = Pde1DSolver.withQuanto q <$> Pde1DSolver.evalProduct stepIdx t)
      ∧ (∀ (q : Pde1DSolver.QuantoFields) (t : Pde1DSolver Op) (step : Int) (DT : ℚ),
          Pde1DSolver.solveFromStepToStep env step DT (Pde1DSolver.withQuanto q t)
            = Pde1DSolver.withQuanto q <$> Pde1DSolver.solveFromStepToStep env step DT t)
      ∧ (∀ (q : Pde1DSolver.QuantoFields) (t : Pde1DSolver Op) (df : ℚ),
          Pde1DSolver.discountFromStepToStep df (Pde1DSolver.withQuanto q t)
            = Pde1DSolver.withQuanto q <$> Pde1DSolver.discountFromStepToStep df t)
      ∧ (∀ (q : Pde1DSolver.QuantoFields) (t : Pde1DSolver Op),
          Pde1DSolver.storeResults env (Pde1DSolver.withQuanto q t)
            = Pde1DSolver.withQuanto q <$> Pde1DSolver.storeResults env t) :=
  ⟨_, quanto_eq_standard env product discountYieldCurve growthYieldCurve spot divyield
      assetVol fxVol correl results storeAllResults svol tLast hbase hvol hfix,
    rfl, rfl, rfl, rfl, rfl, rfl, rfl,
    fun q t => Pde1DSolver.initValLayers_withQuanto env q t,
    fun q t stepIdx => Pde1DSolver.evalProduct_withQuanto q stepIdx t,
    fun q t step DT => Pde1DSolver.solveFromStepToStep_withQuanto env q step DT t,
    fun q t df => Pde1DSolver.discountFromStepToStep_withQuanto q df t,
    fun q t => Pde1DSolver.storeResults_withQuanto env q t⟩

/-- Sample run of C2: the quanto solver for rates 5% and 2%, dividend yield
1%, vols 20% and 10%, correlation 1/2 is the standard solver for the adjusted
yield with the quanto members set. -/
theorem quanto_refines_standard_witness :
    ∃ s, Pde1DSolver.quanto sampleEnv sampleProduct (flatCurve (1/20)) (flatCurve (1/50))
          100 (1/100) (1/5) (1/10) (1/2) emptyResults true = .ok s
      ∧ s = Pde1DSolver.withQuanto ⟨true, some (1/5), some (1/10), some (1/2)⟩
          (Pde1DSolver.standard sampleEnv sampleProduct (flatCurve (1/20)) 100
            ((flatCurve (1/20)).spotRate 2 - (flatCurve (1/50)).spotRate 2
              + 1/100 - 1/2 * (1/5) * (1/10)) ⟨⟨[1], [1/5], 0⟩⟩ emptyResults true) :=
  let h := quanto_refines_standard sampleEnv sampleProduct (flatCurve (1/20))
    (flatCurve (1/50)) 100 (1/100) (1/5) (1/10) (1/2) emptyResults true
    ⟨⟨[1], [1/5], 0⟩⟩ 2 rfl (create_sample (1/5)) rfl
  ⟨h.choose, h.choose_spec.1, h.choose_spec.2.1⟩

/-- C3, counterexample. With correlation 0 and FX volatility 0, discount rate
5%, growth rate 2% and raw dividend yield 0, the quanto constructor returns a
solver whose dividend yield is 3%, while the standard constructor on the same
product, discount curve, spot, raw yield and flat vol has dividend yield 0:
the two are not configured alike. -/
theorem quanto_zero_correl_differs :
    ∃ s, Pde1DSolver.quanto sampleEnv sampleProduct (flatCurve (1/20)) (flatCurve (1/50))
          100 0 (1/5) 0 0 emptyResults false = .ok s
      ∧ s.divyields_ = [3/100]
      ∧ (Pde1DSolver.standard sampleEnv sampleProduct (flatCurve (1/20)) 100 0
          ⟨⟨[1], [1/5], 0⟩⟩ emptyResults false).divyields_ = [0]
      ∧ s.toPdeBase ≠ (Pde1DSolver.standard sampleEnv sampleProduct (flatCurve (1/20)) 100 0
          ⟨⟨[1], [1/5], 0⟩⟩ emptyResults false).toPdeBase := by
  refine ⟨_, quanto_eq_standard sampleEnv sampleProduct (flatCurve (1/20)) (flatCurve (1/50))
    100 0 (1/5) 0 0 emptyResults false ⟨⟨[1], [1/5], 0⟩⟩ 2 rfl (create_sample (1/5)) rfl,
    ?_, ?_, ?_⟩
  · simp only [Pde1DSolver.withQuanto, Pde1DSolver.standard, Pde1DSolver.commonBody,
      Pde1DSolver.membersAfterBase, sampleEnv, flatCurve]
    norm_num
  · simp [Pde1DSolver.standard, Pde1DSolver.commonBody, Pde1DSolver.membersAfterBase,
      sampleEnv]
  · intro h
    have h2 := congrArg PdeBase.divyields_ h
    simp only [Pde1DSolver.withQuanto, Pde1DSolver.standard, Pde1DSolver.commonBody,
      Pde1DSolver.membersAfterBase, sampleEnv, flatCurve] at h2
    norm_num at h2

/-- C3, amended. With correlation 0 and FX volatility 0 the quanto constructor
returns a solver whose dividend yield is `rd - rf + divyield`; it is the
standard solver built from the same product, discount curve, spot, raw
dividend yield and flat vol (up to the four quanto members) exactly when the
discount and the growth curve have the same spot rate at the last fixing
time, and then its dividend yield is the raw one. -/
theorem quanto_zero_correl_standard {Op : Type} (env : Collaborators Op) (product : Product)
    (discountYieldCurve growthYieldCurve : YieldCurve)
    (spot divyield assetVol : ℚ) (results : Pde1DResults)
    (storeAllResults : Bool) (svol : VolatilityTermStructure) (tLast : ℚ)
    (hbase : (env.pdeBase product).divyields_ = [])
    (hvol : VolatilityTermStructure.create env [1] [assetVol] VolType.SPOTVOL = .ok svol)
    (hfix : product.fixTimes.getLast? = some tLast) :
    ∃ s, Pde1DSolver.quanto env product discountYieldCurve growthYieldCurve spot divyield
          assetVol 0 0 results storeAllResults = .ok s
      ∧ s.divyields_ = [discountYieldCurve.spotRate tLast
          - growthYieldCurve.spotRate tLast + divyield]
      ∧ (s = Pde1DSolver.withQuanto ⟨true, some assetVol, some 0, some 0⟩
            (Pde1DSolver.standard env product discountYieldCurve spot divyield svol results
              storeAllResults)
          ↔ discountYieldCurve.spotRate tLast = growthYieldCurve.spotRate tLast)
      ∧ (discountYieldCurve.spotRate tLast = growthYieldCurve.spotRate tLast →
          s.divyields_ = [divyield]
          ∧ s.toPdeBase = (Pde1DSolver.standard env product discountYieldCurve spot divyield
              svol results storeAllResults).toPdeBase
          ∧ s.storeAllResults_ = (Pde1DSolver.standard env product discountYieldCurve spot
              divyield svol results storeAllResults).storeAllResults_) := by
  have hdy : ∀ y : ℚ, (Pde1DSolver.withQuanto ⟨true, some assetVol, some 0, some 0⟩
      (Pde1DSolver.standard env product discountYieldCurve spot y svol results
        storeAllResults)).divyields_ = [y] := by
    intro y
    simp [Pde1DSolver.withQuanto, Pde1DSolver.standard, Pde1DSolver.commonBody,
      Pde1DSolver.membersAfterBase, hbase]
  have hadj : discountYieldCurve.spotRate tLast - growthYieldCurve.spotRate tLast
      + divyield - 0 * assetVol * 0
      = discountYieldCurve.spotRate tLast - growthYieldCurve.spotRate tLast + divyield := by
    ring
  have hq := quanto_eq_standard env product discountYieldCurve growthYieldCurve spot divyield
    assetVol 0 0 results storeAllResults svol tLast hbase hvol hfix
  rw [hadj] at hq
  refine ⟨_, hq, hdy _, ⟨fun h => ?_, fun h => ?_⟩, fun h => ?_⟩
  · have h2 := congrArg (fun t : Pde1DSolver Op => t.divyields_) h
    simp only [hdy] at h2
    have h3 := List.head_eq_of_cons_eq h2
    linarith
  · have : discountYieldCurve.spotRate tLast - growthYieldCurve.spotRate tLast + divyield
        = divyield := by rw [h]; ring
    rw [this]
  · have : discountYieldCurve.spotRate tLast - growthYieldCurve.spotRate tLast + divyield
        = divyield := by rw [h]; ring
    rw [this]
    exact ⟨hdy _, rfl, rfl⟩

/-- Sample run of C3 as amended: growth curve equal to the discount curve. -/
theorem quanto_zero_correl_standard_witness :
    ∃ s, Pde1DSolver.quanto sampleEnv sampleProduct (flatCurve (1/20)) (flatCurve (1/20))
          100 (1/100) (1/5) 0 0 emptyResults false = .ok s
      ∧ s.divyields_ = [(flatCurve (1/20)).spotRate 2 - (flatCurve (1/20)).spotRate 2 + 1/100]
      ∧ (s = Pde1DSolver.withQuanto ⟨true, some (1/5), some 0, some 0⟩
            (Pde1DSolver.standard sampleEnv sampleProduct (flatCurve (1/20)) 100 (1/100)
              ⟨⟨[1], [1/5], 0⟩⟩ emptyResults false)
          ↔ (flatCurve (1/20)).spotRate 2 = (flatCurve (1/20)).spotRate 2) := by
  obtain ⟨s, h1, h2, h3, _⟩ := quanto_zero_correl_standard sampleEnv sampleProduct
    (flatCurve (1/20)) (flatCurve (1/20)) 100 (1/100) (1/5) emptyResults false
    ⟨⟨[1], [1/5], 0⟩⟩ 2 rfl (create_sample (1/5)) rfl
  exact ⟨s, h1, h2, h3⟩

/-! ### One backward step -/

theorem steppedColumns_zero (f : Vector → Vector) (src dst : List Vector) :
    steppedColumns f 0 src dst = dst := by
  simp [steppedColumns]

theorem steppedColumns_length (f : Vector → Vector) (k : Nat) (src dst : List Vector)
    (hs : k ≤ src.length) (hd : k ≤ dst.length) :
    (steppedColumns f k src dst).length = dst.length := by
  simp [steppedColumns]
  omega

theorem steppedColumns_set (f : Vector → Vector) (k : Nat) (src dst : List Vector) (v : Vector)
    (hs : src[k]? = some v) (hd : k < dst.length) :
    (steppedColumns f k src dst).set k (f v) = steppedColumns f (k + 1) src dst := by
  induction k generalizing src dst with
  | zero =>
    cases src with
    | nil => simp at hs
    | cons a src =>
      cases dst with
      | nil => simp at hd
      | cons b dst =>
        simp at hs
        simp [steppedColumns, hs]
  | succ k ih =>
    cases src with
    | nil => simp at hs
    | cons a src =>
      cases dst with
      | nil => simp at hd
      | cons b dst =>
        have h1 : src[k]? = some v := by simpa using hs
        have h2 : k < dst.length := by simpa using hd
        have := ih src dst h1 h2
        simp only [steppedColumns] at this ⊢
        simp only [List.take_succ_cons, List.map_cons, List.drop_succ_cons, List.cons_append,
          List.set_cons_succ, this]

theorem steppedColumns_getElem_lt (f : Vector → Vector) (k j : Nat) (src dst : List Vector)
    (hj : j < k) (hs : k ≤ src.length) :
    (steppedColumns f k src dst)[j]? = (src[j]?).map f := by
  have h1 : j < ((src.take k).map f).length := by simp; omega
  simp only [steppedColumns]
  rw [List.getElem?_append_left h1]
  simp [List.getElem?_take, hj]

theorem steppedColumns_getElem_ge (f : Vector → Vector) (k j : Nat) (src dst : List Vector)
    (hj : k ≤ j) (hs : k ≤ src.length) :
    (steppedColumns f k src dst)[j]? = dst[j]? := by
  have h1 : ((src.take k).map f).length = k := by simp; omega
  simp only [steppedColumns]
  rw [List.getElem?_append_right (by omega), h1]
  simp
  congr 1
  omega

theorem index_of_getElem {α : Type} (v : List α) (i : Nat) (x : α) (h : v[i]? = some x) :
    index v i = .ok x := by
  simp [index, h]

theorem getElem_of_index {α : Type} (v : List α) (i : Nat) (x : α) (h : index v i = .ok x) :
    v[i]? = some x := by
  unfold index at h
  cases hv : v[i]? with
  | none => rw [hv] at h; cases h
  | some y => rw [hv] at h; cases h; rfl

namespace Pde1DSolver

variable {Op : Type}

theorem afterLayers_zero (env : Collaborators Op) (s : Pde1DSolver Op) (p c : ValBuf) :
    afterLayers env s p c 0 = s := by
  cases p <;> cases c <;> simp [afterLayers, steppedColumns_zero, store, deref]

theorem stepLayer_afterLayers (env : Collaborators Op) (s : Pde1DSolver Op) (p c : ValBuf)
    (k : Nat) (hp : s.prevValues = some p) (hc : s.currValues = some c) (hpc : p ≠ c)
    (hkp : k < (s.deref p).cols.length) (hkc : k < (s.deref c).cols.length) :
    stepLayer env k (afterLayers env s p c k) = .ok (afterLayers env s p c (k + 1)) := by
  obtain ⟨v, hv⟩ : ∃ v, (s.deref p).cols[k]? = some v :=
    ⟨_, List.getElem?_eq_getElem hkp⟩
  have hP : (steppedColumns (fun v => env.applyInverse s.opImplicit_
      (env.apply s.opExplicit_ v)) k (s.deref p).cols (s.deref p).cols)[k]? = some v := by
    rw [steppedColumns_getElem_ge _ _ _ _ _ (le_refl k) (le_of_lt hkp), hv]
  have hC : ∃ w, (steppedColumns (env.apply s.opExplicit_) k (s.deref p).cols
      (s.deref c).cols)[k]? = some w := by
    rw [steppedColumns_getElem_ge _ _ _ _ _ (le_refl k) (le_of_lt hkp)]
    exact ⟨_, List.getElem?_eq_getElem hkc⟩
  obtain ⟨w, hw⟩ := hC
  have hlenC := steppedColumns_length (env.apply s.opExplicit_) k (s.deref p).cols
    (s.deref c).cols (le_of_lt hkp) (le_of_lt hkc)
  have hlenP := steppedColumns_length (fun v => env.applyInverse s.opImplicit_
      (env.apply s.opExplicit_ v)) k (s.deref p).cols (s.deref p).cols
      (le_of_lt hkp) (le_of_lt hkp)
  have hsetC := steppedColumns_set (env.apply s.opExplicit_) k (s.deref p).cols
    (s.deref c).cols v hv hkc
  have hsetP := steppedColumns_set (fun v => env.applyInverse s.opImplicit_
      (env.apply s.opExplicit_ v)) k (s.deref p).cols (s.deref p).cols v hv hkp
  have hgetC : (steppedColumns (env.apply s.opExplicit_) (k + 1) (s.deref p).cols
      (s.deref c).cols)[k]? = some (env.apply s.opExplicit_ v) := by
    rw [steppedColumns_getElem_lt _ _ _ _ _ (Nat.lt_succ_self k) hkp, hv]
    rfl
  cases p <;> cases c
  · exact absurd rfl hpc
  · simp only [deref] at hv hP hw hlenC hlenP hsetC hsetP hgetC hkp hkc
    simp [stepLayer, afterLayers, store, deref, prevPtr, currPtr, hp, hc, Matrix.col,
      Matrix.setCol, index, hP, hw, hlenC, hlenP, hkp, hkc, hsetC, hsetP, hgetC, bind,
      Except.bind]
  · simp only [deref] at hv hP hw hlenC hlenP hsetC hsetP hgetC hkp hkc
    simp [stepLayer, afterLayers, store, deref, prevPtr, currPtr, hp, hc, Matrix.col,
      Matrix.setCol, index, hP, hw, hlenC, hlenP, hkp, hkc, hsetC, hsetP, hgetC, bind,
      Except.bind]
  · exact absurd rfl hpc

end Pde1DSolver

namespace Pde1DSolver

variable {Op : Type}

theorem layerLoop_afterLayers (env : Collaborators Op) (s : Pde1DSolver Op) (p c : ValBuf)
    (n : Nat) (hp : s.prevValues = some p) (hc : s.currValues = some c) (hpc : p ≠ c)
    (hnp : n ≤ (s.deref p).cols.length) (hnc : n ≤ (s.deref c).cols.length) :
    forLoop (stepLayer env) n s = .ok (afterLayers env s p c n) := by
  obtain ⟨t, ht, hI⟩ := forLoop_inv (fun k t => t = afterLayers env s p c k) (stepLayer env)
    n s (afterLayers_zero env s p c).symm
    (fun k t hk hI => ⟨_, by
      rw [hI]
      exact stepLayer_afterLayers env s p c k hp hc hpc (by omega) (by omega), rfl⟩)
  rw [ht, hI]

theorem buildOperators_closed (env : Collaborators Op) (DT : ℚ) (s : Pde1DSolver Op)
    (grax : GridAxis) (hg : s.gridAxes_[0]? = some grax) :
    buildOperators env DT s = .ok (withBuiltOperators env DT grax s) := by
  simp only [buildOperators, gridAxis0, index_of_getElem _ _ _ hg, bind, Except.bind]
  rfl

theorem adjustOperators_closed (env : Collaborators Op) (DT : ℚ) (s : Pde1DSolver Op)
    (grax : GridAxis) (hg : s.gridAxes_[0]? = some grax) :
    adjustOperators env (withBuiltOperators env DT grax s)
      = .ok (withAdjustedOperators env DT grax s) := by
  have hg1 : (withBuiltOperators env DT grax s).gridAxes_[0]? = some grax := hg
  simp only [adjustOperators, gridAxis0, index_of_getElem _ _ _ hg1, bind, Except.bind]
  rfl

/-- Closed form of one call of `solveFromStepToStep`. -/
theorem solveFromStepToStep_closed (env : Collaborators Op) (step : Int) (DT : ℚ)
    (s : Pde1DSolver Op) (p c : ValBuf) (grax : GridAxis)
    (hp : s.prevValues = some p) (hc : s.currValues = some c) (hpc : p ≠ c)
    (hg : s.gridAxes_[0]? = some grax)
    (hnp : s.nLayers_ ≤ (s.deref p).cols.length)
    (hnc : s.nLayers_ ≤ (s.deref c).cols.length) :
    solveFromStepToStep env step DT s
      = .ok ((afterLayers env (withAdjustedOperators env DT grax s) p c s.nLayers_).store p
          (env.applyBoundaryConditions s.toPdeBase
            ((afterLayers env (withAdjustedOperators env DT grax s) p c s.nLayers_).deref p))) := by
  have hd : ∀ b, (withAdjustedOperators env DT grax s).deref b = s.deref b := by
    intro b; cases b <;> rfl
  have hloop := layerLoop_afterLayers env (withAdjustedOperators env DT grax s) p c s.nLayers_
    hp hc hpc (by rw [hd]; exact hnp) (by rw [hd]; exact hnc)
  have hn : (withAdjustedOperators env DT grax s).nLayers_ = s.nLayers_ := rfl
  have hprev : (afterLayers env (withAdjustedOperators env DT grax s) p c s.nLayers_).prevPtr
      = .ok p := by
    cases p <;> cases c <;> simp [afterLayers, store, prevPtr, withAdjustedOperators,
      withBuiltOperators, hp]
  have hbase : (afterLayers env (withAdjustedOperators env DT grax s) p c
      s.nLayers_).toPdeBase = s.toPdeBase := by
    cases p <;> cases c <;> rfl
  simp only [solveFromStepToStep, buildOperators_closed env DT s grax hg,
    adjustOperators_closed env DT s grax hg, hn, hloop, boundaryStep, hprev, hbase, bind,
    Except.bind]

end Pde1DSolver

namespace Pde1DSolver

variable {Op : Type}

theorem store_deref_same (s : Pde1DSolver Op) (b : ValBuf) (m : Matrix) :
    (s.store b m).deref b = m := by
  cases b <;> rfl

theorem store_deref_other (s : Pde1DSolver Op) (b b1 : ValBuf) (m : Matrix) (h : b ≠ b1) :
    (s.store b m).deref b1 = s.deref b1 := by
  cases b <;> cases b1 <;> first | rfl | exact absurd rfl h

theorem afterLayers_deref_prev (env : Collaborators Op) (s : Pde1DSolver Op) (p c : ValBuf)
    (k : Nat) :
    (afterLayers env s p c k).deref p = ⟨(s.deref p).n_rows,
      steppedColumns (fun v => env.applyInverse s.opImplicit_ (env.apply s.opExplicit_ v)) k
        (s.deref p).cols (s.deref p).cols⟩ :=
  store_deref_same _ p _

theorem afterLayers_deref_curr (env : Collaborators Op) (s : Pde1DSolver Op) (p c : ValBuf)
    (k : Nat) (hpc : p ≠ c) :
    (afterLayers env s p c k).deref c = ⟨(s.deref c).n_rows,
      steppedColumns (env.apply s.opExplicit_) k (s.deref p).cols (s.deref c).cols⟩ := by
  unfold afterLayers
  rw [store_deref_other _ p c _ hpc, store_deref_same]

end Pde1DSolver

/-- C4. Started with distinct buffer roles, a grid axis and at least `nLayers_`
columns in both buffers, `solveFromStepToStep` returns; the operators `Exp`,
`Imp` it leaves in `opExplicit_`, `opImplicit_` are the built operators after
`adjustOpsForBoundaryConditions` (one adjustment, before the loop over
layers); the buffer `prevValues` still designates is
`applyBoundaryConditions` (one application, after the loop) of the matrix
whose column `j`, for every layer `j`, is `Imp^-1 (Exp * v)` with `v` column
`j` of `prevValues` before the call; and for boundary conditions acting
column by column through `bc`, column `j` of `prevValues` after the call is
`bc (Imp^-1 (Exp * v))`. -/
theorem solve_step_previous_buffer {Op : Type} (env : Collaborators Op) (step : Int) (DT : ℚ)
    (s : Pde1DSolver Op) (p c : ValBuf) (grax : GridAxis)
    (hp : s.prevValues = some p) (hc : s.currValues = some c) (hpc : p ≠ c)
    (hg : s.gridAxes_[0]? = some grax)
    (hnp : s.nLayers_ ≤ (s.deref p).cols.length)
    (hnc : s.nLayers_ ≤ (s.deref c).cols.length) :
    ∃ s1 stepped, Pde1DSolver.solveFromStepToStep env step DT s = .ok s1
      ∧ s1.prevValues = some p
      ∧ (s1.opExplicit_, s1.opImplicit_)
          = env.adjustOpsForBoundaryConditions s.toPdeBase
              (Pde1DSolver.withBuiltOperators env DT grax s).opExplicit_
              (Pde1DSolver.withBuiltOperators env DT grax s).opImplicit_ grax.DX
      ∧ s1.deref p = env.applyBoundaryConditions s.toPdeBase stepped
      ∧ stepped.n_rows = (s.deref p).n_rows
      ∧ stepped.cols.length = (s.deref p).cols.length
      ∧ (∀ j v, j < s.nLayers_ → (s.deref p).col j = .ok v →
          stepped.col j = .ok (env.applyInverse s1.opImplicit_ (env.apply s1.opExplicit_ v)))
      ∧ (∀ j, s.nLayers_ ≤ j → stepped.cols[j]? = (s.deref p).cols[j]?)
      ∧ (∀ bc : Vector → Vector,
          (∀ (m : Matrix) (i : Nat) (w : Vector), m.col i = .ok w →
            (env.applyBoundaryConditions s.toPdeBase m).col i = .ok (bc w)) →
          ∀ j v, j < s.nLayers_ → (s.deref p).col j = .ok v →
            (s1.deref p).col j
              = .ok (bc (env.applyInverse s1.opImplicit_ (env.apply s1.opExplicit_ v)))) := by
  have hcl := Pde1DSolver.solveFromStepToStep_closed env step DT s p c grax hp hc hpc hg hnp hnc
  have hd : ∀ b, (Pde1DSolver.withAdjustedOperators env DT grax s).deref b = s.deref b := by
    intro b; cases b <;> rfl
  have hE : ∀ m, ((Pde1DSolver.afterLayers env (Pde1DSolver.withAdjustedOperators env DT grax s)
      p c s.nLayers_).store p m).opExplicit_
      = (Pde1DSolver.withAdjustedOperators env DT grax s).opExplicit_ := by
    intro m; cases p <;> cases c <;> rfl
  have hI : ∀ m, ((Pde1DSolver.afterLayers env (Pde1DSolver.withAdjustedOperators env DT grax s)
      p c s.nLayers_).store p m).opImplicit_
      = (Pde1DSolver.withAdjustedOperators env DT grax s).opImplicit_ := by
    intro m; cases p <;> cases c <;> rfl
  have hP : ∀ m, ((Pde1DSolver.afterLayers env (Pde1DSolver.withAdjustedOperators env DT grax s)
      p c s.nLayers_).store p m).prevValues = some p := by
    intro m; rw [← hp]; cases p <;> cases c <;> rfl
  have hcol : ∀ j v, j < s.nLayers_ → (s.deref p).col j = .ok v →
      (Matrix.mk (s.deref p).n_rows (steppedColumns (fun v => env.applyInverse
        (Pde1DSolver.withAdjustedOperators env DT grax s).opImplicit_
        (env.apply (Pde1DSolver.withAdjustedOperators env DT grax s).opExplicit_ v)) s.nLayers_
        (s.deref p).cols (s.deref p).cols)).col j
      = .ok (env.applyInverse (Pde1DSolver.withAdjustedOperators env DT grax s).opImplicit_
        (env.apply (Pde1DSolver.withAdjustedOperators env DT grax s).opExplicit_ v)) := by
    intro j v hj hv
    have hv1 := getElem_of_index _ _ _ hv
    apply index_of_getElem
    show (steppedColumns _ _ _ _)[j]? = _
    rw [steppedColumns_getElem_lt _ _ _ _ _ hj hnp, hv1]
    rfl
  refine ⟨_, Matrix.mk (s.deref p).n_rows (steppedColumns (fun v => env.applyInverse
        (Pde1DSolver.withAdjustedOperators env DT grax s).opImplicit_
        (env.apply (Pde1DSolver.withAdjustedOperators env DT grax s).opExplicit_ v)) s.nLayers_
        (s.deref p).cols (s.deref p).cols), hcl, hP _, ?_, ?_, rfl, ?_, ?_, ?_, ?_⟩
  · rw [hE, hI]; rfl
  · rw [Pde1DSolver.store_deref_same, Pde1DSolver.afterLayers_deref_prev, hd]
  · exact steppedColumns_length _ _ _ _ hnp hnp
  · intro j v hj hv
    rw [hE, hI]
    exact hcol j v hj hv
  · intro j hj
    exact steppedColumns_getElem_ge _ _ _ _ _ hj hnp
  · intro bc hbc j v hj hv
    rw [hE, hI, Pde1DSolver.store_deref_same, Pde1DSolver.afterLayers_deref_prev, hd]
    exact hbc _ j _ (hcol j v hj hv)

theorem sampleEnv_boundary_columnwise (b : PdeBase) (m : Matrix) (i : Nat) (w : Vector)
    (h : m.col i = .ok w) :
    (sampleEnv.applyBoundaryConditions b m).col i = .ok (sampleBoundary w) := by
  have h1 := getElem_of_index _ _ _ h
  apply index_of_getElem
  show (m.cols.map sampleBoundary)[i]? = _
  rw [List.getElem?_map, h1]
  rfl

/-- Sample run of C4: one step of the sample solver, whose previous buffer
has the single column `[1, 2, 4]`. -/
theorem solve_step_previous_buffer_witness :
    ∃ s1, Pde1DSolver.solveFromStepToStep sampleEnv 0 1 sampleSolver = .ok s1
      ∧ s1.prevValues = some ValBuf.values1
      ∧ (s1.deref ValBuf.values1).col 0
          = .ok (sampleBoundary (sampleEnv.applyInverse s1.opImplicit_
              (sampleEnv.apply s1.opExplicit_ [1, 2, 4]))) := by
  obtain ⟨s1, stepped, h1, h2, _, _, _, _, _, _, h9⟩ :=
    solve_step_previous_buffer sampleEnv 0 1 sampleSolver ValBuf.values1 ValBuf.values2
      sampleAxis rfl rfl (by decide) rfl (by decide) (by decide)
  exact ⟨s1, h1, h2, h9 sampleBoundary
    (fun m i w h => sampleEnv_boundary_columnwise sampleSolver.toPdeBase m i w h)
    0 [1, 2, 4] (by decide) rfl⟩

/-- C5. On a solver with a grid axis, lines 15-28 of `solveFromStepToStep`
return, and before the boundary adjustment the explicit operator is
`init(NX, 0, 1, 0)` plus the drift operator plus the diffusion operator, both
built with weight `1 - theta_`, and the implicit operator is
`init(NX, 0, 1, 0)` minus the drift operator minus the diffusion operator,
both built with weight `theta_`; all four are built from the drifts or
variances of `gridAxes_[0]`, the same `DT` and the same `DX`; the rest of
`solveFromStepToStep` (boundary adjustment, loop over layers, boundary
conditions) runs on that state. -/
theorem explicit_implicit_operators {Op : Type} (env : Collaborators Op) (step : Int) (DT : ℚ)
    (s : Pde1DSolver Op) (grax : GridAxis) (hg : s.gridAxes_[0]? = some grax) :
    ∃ s1, Pde1DSolver.buildOperators env DT s = .ok s1
      ∧ s1.deltaOpExplicit_ = env.deltaInit grax.drifts DT grax.DX (1 - s.theta_)
      ∧ s1.gammaOpExplicit_ = env.gammaInit grax.variances DT grax.DX (1 - s.theta_)
      ∧ s1.deltaOpImplicit_ = env.deltaInit grax.drifts DT grax.DX s.theta_
      ∧ s1.gammaOpImplicit_ = env.gammaInit grax.variances DT grax.DX s.theta_
      ∧ s1.opExplicit_ = env.add (env.add (env.triInit grax.NX 0 1 0)
            (env.deltaInit grax.drifts DT grax.DX (1 - s.theta_)))
          (env.gammaInit grax.variances DT grax.DX (1 - s.theta_))
      ∧ s1.opImplicit_ = env.sub (env.sub (env.triInit grax.NX 0 1 0)
            (env.deltaInit grax.drifts DT grax.DX s.theta_))
          (env.gammaInit grax.variances DT grax.DX s.theta_)
      ∧ Pde1DSolver.solveFromStepToStep env step DT s
          = (Pde1DSolver.adjustOperators env s1 >>= fun s2 =>
              forLoop (Pde1DSolver.stepLayer env) s2.nLayers_ s2
                >>= Pde1DSolver.boundaryStep env) := by
  refine ⟨_, Pde1DSolver.buildOperators_closed env DT s grax hg,
    rfl, rfl, rfl, rfl, rfl, rfl, ?_⟩
  simp only [Pde1DSolver.solveFromStepToStep,
    Pde1DSolver.buildOperators_closed env DT s grax hg, bind, Except.bind]

/-- Sample run of C5 on the sample solver (theta = 1/2, DT = 1). -/
theorem explicit_implicit_operators_witness :
    ∃ s1, Pde1DSolver.buildOperators sampleEnv 1 sampleSolver = .ok s1
      ∧ s1.opExplicit_ = sampleEnv.add (sampleEnv.add (sampleEnv.triInit sampleAxis.NX 0 1 0)
            (sampleEnv.deltaInit sampleAxis.drifts 1 sampleAxis.DX (1 - sampleSolver.theta_)))
          (sampleEnv.gammaInit sampleAxis.variances 1 sampleAxis.DX (1 - sampleSolver.theta_))
      ∧ s1.opImplicit_ = sampleEnv.sub (sampleEnv.sub (sampleEnv.triInit sampleAxis.NX 0 1 0)
            (sampleEnv.deltaInit sampleAxis.drifts 1 sampleAxis.DX sampleSolver.theta_))
          (sampleEnv.gammaInit sampleAxis.variances 1 sampleAxis.DX sampleSolver.theta_) := by
  obtain ⟨s1, h1, _, _, _, _, h6, h7, _⟩ :=
    explicit_implicit_operators sampleEnv 0 1 sampleSolver sampleAxis rfl
  exact ⟨s1, h1, h6, h7⟩

/-- C6, counterexample. One call of `solveFromStepToStep` on the sample solver
(`prevValues = &values1`, `currValues = &values2`) returns with `prevValues`
still designating `values1` and `currValues` still designating `values2`: the
buffer designated previous after the call is not the one designated current
before it. -/
theorem solve_step_no_swap :
    sampleSolver.prevValues = some ValBuf.values1
      ∧ sampleSolver.currValues = some ValBuf.values2
      ∧ ∃ s1, Pde1DSolver.solveFromStepToStep sampleEnv 0 1 sampleSolver = .ok s1
          ∧ s1.prevValues = some ValBuf.values1
          ∧ s1.currValues = some ValBuf.values2
          ∧ s1.prevValues ≠ sampleSolver.currValues
          ∧ s1.currValues ≠ sampleSolver.prevValues := by
  refine ⟨rfl, rfl, _, Pde1DSolver.solveFromStepToStep_closed sampleEnv 0 1 sampleSolver
    ValBuf.values1 ValBuf.values2 sampleAxis rfl rfl (by decide) rfl (by decide) (by decide),
    rfl, rfl, ?_, ?_⟩
  · show some ValBuf.values1 ≠ some ValBuf.values2
    decide
  · show some ValBuf.values2 ≠ some ValBuf.values1
    decide

/-- C6, amended. Started with distinct buffer roles, a grid axis and at least
`nLayers_` columns in both buffers, `solveFromStepToStep` returns and leaves
the roles of the two value buffers as they were: `prevValues` and
`currValues` designate after the call the buffers they designated before it.
The current buffer is used as scratch (its column `j` holds `Exp * v` for
every layer `j`, `v` being column `j` of the previous buffer before the call,
its other columns are untouched). -/
theorem solve_step_keeps_roles {Op : Type} (env : Collaborators Op) (step : Int) (DT : ℚ)
    (s : Pde1DSolver Op) (p c : ValBuf) (grax : GridAxis)
    (hp : s.prevValues = some p) (hc : s.currValues = some c) (hpc : p ≠ c)
    (hg : s.gridAxes_[0]? = some grax)
    (hnp : s.nLayers_ ≤ (s.deref p).cols.length)
    (hnc : s.nLayers_ ≤ (s.deref c).cols.length) :
    ∃ s1, Pde1DSolver.solveFromStepToStep env step DT s = .ok s1
      ∧ s1.prevValues = s.prevValues
      ∧ s1.currValues = s.currValues
      ∧ (s1.deref c).n_rows = (s.deref c).n_rows
      ∧ (∀ j v, j < s.nLayers_ → (s.deref p).col j = .ok v →
          (s1.deref c).col j = .ok (env.apply s1.opExplicit_ v))
      ∧ (∀ j, s.nLayers_ ≤ j → (s1.deref c).cols[j]? = (s.deref c).cols[j]?) := by
  have hcl := Pde1DSolver.solveFromStepToStep_closed env step DT s p c grax hp hc hpc hg hnp hnc
  have hd : ∀ b, (Pde1DSolver.withAdjustedOperators env DT grax s).deref b = s.deref b := by
    intro b; cases b <;> rfl
  have hE : ∀ m, ((Pde1DSolver.afterLayers env (Pde1DSolver.withAdjustedOperators env DT grax s)
      p c s.nLayers_).store p m).opExplicit_
      = (Pde1DSolver.withAdjustedOperators env DT grax s).opExplicit_ := by
    intro m; cases p <;> cases c <;> rfl
  have hC : ∀ m, ((Pde1DSolver.afterLayers env (Pde1DSolver.withAdjustedOperators env DT grax s)
      p c s.nLayers_).store p m).deref c
      = ⟨(s.deref c).n_rows, steppedColumns
          (env.apply (Pde1DSolver.withAdjustedOperators env DT grax s).opExplicit_) s.nLayers_
          (s.deref p).cols (s.deref c).cols⟩ := by
    intro m
    rw [Pde1DSolver.store_deref_other _ p c _ hpc,
      Pde1DSolver.afterLayers_deref_curr _ _ _ _ _ hpc, hd, hd]
  refine ⟨_, hcl, ?_, ?_, ?_, ?_, ?_⟩
  · cases p <;> cases c <;> rfl
  · cases p <;> cases c <;> rfl
  · rw [hC]
  · intro j v hj hv
    rw [hC, hE]
    have hv1 := getElem_of_index _ _ _ hv
    apply index_of_getElem
    show (steppedColumns _ _ _ _)[j]? = _
    rw [steppedColumns_getElem_lt _ _ _ _ _ hj hnp, hv1]
    rfl
  · intro j hj
    rw [hC]
    exact steppedColumns_getElem_ge _ _ _ _ _ hj hnp

/-- Sample run of C6 as amended, on the sample solver. -/
theorem solve_step_keeps_roles_witness :
    ∃ s1, Pde1DSolver.solveFromStepToStep sampleEnv 0 1 sampleSolver = .ok s1
      ∧ s1.prevValues = sampleSolver.prevValues
      ∧ s1.currValues = sampleSolver.currValues := by
  obtain ⟨s1, h1, h2, h3, _⟩ :=
    solve_step_keeps_roles sampleEnv 0 1 sampleSolver ValBuf.values1 ValBuf.values2
      sampleAxis rfl rfl (by decide) rfl (by decide) (by decide)
  exact ⟨s1, h1, h2, h3⟩

/-! ### Product evaluation at a time step -/

namespace Pde1DSolver

variable {Op : Type}

theorem payScan_spec (fixtime : ℚ) (l : Vector) (j i : Nat)
    (h : payScan fixtime l j = .ok i) :
    j ≤ i ∧ (∃ t, l[i - j]? = some t ∧ ¬ fixtime > t)
      ∧ ∀ k t, k < i - j → l[k]? = some t → fixtime > t := by
  induction l generalizing j with
  | nil => cases h
  | cons a l ih =>
    unfold payScan at h
    by_cases ha : fixtime > a
    · rw [if_pos ha] at h
      obtain ⟨h1, ⟨t, h2, h3⟩, h4⟩ := ih (j + 1) h
      have hij : i - j = (i - (j + 1)) + 1 := by omega
      refine ⟨by omega, ⟨t, ?_, h3⟩, ?_⟩
      · rw [hij]; simpa using h2
      · intro k t1 hk hkt
        cases k with
        | zero => simp at hkt; rw [← hkt]; exact ha
        | succ k => exact h4 k t1 (by omega) (by simpa using hkt)
    · rw [if_neg ha] at h
      cases h
      refine ⟨le_refl _, ⟨a, by simp, ha⟩, ?_⟩
      intro k t hk
      omega

theorem payScan_total (fixtime : ℚ) (l : Vector) (j : Nat)
    (h : ∃ t ∈ l, fixtime ≤ t) : ∃ i, payScan fixtime l j = .ok i := by
  induction l generalizing j with
  | nil => obtain ⟨t, ht, _⟩ := h; simp at ht
  | cons a l ih =>
    unfold payScan
    by_cases ha : fixtime > a
    · rw [if_pos ha]
      obtain ⟨t, ht, hle⟩ := h
      rcases List.mem_cons.mp ht with rfl | hmem
      · exact absurd ha (not_lt.mpr hle)
      · exact ih (j + 1) ⟨t, hmem, hle⟩
    · rw [if_neg ha]
      exact ⟨j, rfl⟩

theorem withNodeState_self (s : Pde1DSolver Op) (p : ValBuf) (col0 : Vector)
    (h : (s.deref p).cols[0]? = some col0) :
    withNodeState s p s.spprod_.payAmounts col0 = s := by
  have hset : (s.deref p).cols.set 0 col0 = (s.deref p).cols := by
    cases hc : (s.deref p).cols with
    | nil => rfl
    | cons c cs => rw [hc] at h; simp at h; simp [h]
  unfold withNodeState
  rw [hset]
  cases p <;> rfl

theorem evalNode_withNodeState (s : Pde1DSolver Op) (e : Nat) (p : ValBuf) (grax : GridAxis)
    (fixtime : ℚ) (col0 : Vector) (payTms : Vector)
    (hg : s.gridAxes_[0]? = some grax) (hS : grax.NX + 2 ≤ grax.Slevels.length)
    (hp : s.prevValues = some p) (h0 : (s.deref p).cols[0]? = some col0)
    (hscan : ∃ i, payScan fixtime payTms 0 = .ok i)
    (heval : ∀ spot contValue a, e < a.length → ∃ a1,
      s.spprod_.eval e [spot] contValue a = .ok a1 ∧ e < a1.length)
    (k : Nat) (hk : k < grax.NX + 2) (a col : Vector) (hae : e < a.length)
    (ha : payAmountsBefore s.spprod_ e grax.Slevels col0 k = .ok a)
    (hlen : k < col.length) (hcol : col[k]? = col0[k]?) :
    ∃ spot contValue a1 x, grax.Slevels[k]? = some spot ∧ col0[k]? = some contValue
      ∧ s.spprod_.eval e [spot] contValue a = .ok a1 ∧ a1[e]? = some x
      ∧ payAmountsBefore s.spprod_ e grax.Slevels col0 (k + 1) = .ok a1
      ∧ evalNode e fixtime payTms k (withNodeState s p a col)
          = .ok (withNodeState s p a1 (col.set k x)) := by
  obtain ⟨spot, hspot⟩ : ∃ spot, grax.Slevels[k]? = some spot :=
    ⟨_, List.getElem?_eq_getElem (by omega)⟩
  obtain ⟨cv, hcv⟩ : ∃ cv, col[k]? = some cv := ⟨_, List.getElem?_eq_getElem hlen⟩
  obtain ⟨a1, ha1, hlen1⟩ := heval spot cv a hae
  obtain ⟨x, hx⟩ : ∃ x, a1[e]? = some x := ⟨_, List.getElem?_eq_getElem hlen1⟩
  obtain ⟨i, hi⟩ := hscan
  have hcv0 : col0[k]? = some cv := by rw [← hcol, hcv]
  have hnext : payAmountsBefore s.spprod_ e grax.Slevels col0 (k + 1) = .ok a1 := by
    simp only [payAmountsBefore, ha, index_of_getElem _ _ _ hspot,
      index_of_getElem _ _ _ hcv0, bind, Except.bind, ha1]
  have hcols : 0 < (s.deref p).cols.length := by
    cases hc : (s.deref p).cols with
    | nil => rw [hc] at h0; simp at h0
    | cons c cs => simp
  refine ⟨spot, cv, a1, x, hspot, hcv0, ha1, hx, hnext, ?_⟩
  cases p
  · simp only [deref] at h0 hcols
    simp [evalNode, withNodeState, store, deref, gridAxis0, prevPtr, hp, hg, hspot,
      Matrix.get, Matrix.set, index, assignIndex, hcols, hcv, hlen, Product.evalEvent, ha1, hi,
      hx, bind, Except.bind]
  · simp only [deref] at h0 hcols
    simp [evalNode, withNodeState, store, deref, gridAxis0, prevPtr, hp, hg, hspot,
      Matrix.get, Matrix.set, index, assignIndex, hcols, hcv, hlen, Product.evalEvent, ha1, hi,
      hx, bind, Except.bind]

end Pde1DSolver

namespace Pde1DSolver

variable {Op : Type}

/-- Closed form of the loop over grid nodes of `evalProduct` at a fixing event. -/
theorem evalNodes_event (s : Pde1DSolver Op) (stepIdx e : Nat) (p : ValBuf)
    (grax : GridAxis) (fixtime : ℚ) (col0 : Vector)
    (h : EventReady s stepIdx e p grax fixtime col0) :
    ∃ a col, evalNodes stepIdx s = .ok (withNodeState s p a col)
      ∧ payAmountsBefore s.spprod_ e grax.Slevels col0 (grax.NX + 2) = .ok a
      ∧ col.length = col0.length
      ∧ (∀ n, n < grax.NX + 2 → ∃ a0 spot contValue a1 x,
          payAmountsBefore s.spprod_ e grax.Slevels col0 n = .ok a0
          ∧ grax.Slevels[n]? = some spot ∧ col0[n]? = some contValue
          ∧ s.spprod_.eval e [spot] contValue a0 = .ok a1
          ∧ a1[e]? = some x ∧ col[n]? = some x)
      ∧ (∀ n, grax.NX + 2 ≤ n → col[n]? = col0[n]?) := by
  obtain ⟨hs, hfix, hg, hS, hp, h0, hlen0, hpay, hpa, heval⟩ := h
  have hscan := payScan_total fixtime s.spprod_.payTimes 0 hpay
  have hloop := forLoop_inv
    (fun k t => ∃ a col, t = withNodeState s p a col
      ∧ payAmountsBefore s.spprod_ e grax.Slevels col0 k = .ok a
      ∧ e < a.length
      ∧ col.length = col0.length
      ∧ (∀ n, n < k → ∃ a0 spot contValue a1 x,
          payAmountsBefore s.spprod_ e grax.Slevels col0 n = .ok a0
          ∧ grax.Slevels[n]? = some spot ∧ col0[n]? = some contValue
          ∧ s.spprod_.eval e [spot] contValue a0 = .ok a1
          ∧ a1[e]? = some x ∧ col[n]? = some x)
      ∧ (∀ n, k ≤ n → col[n]? = col0[n]?))
    (evalNode e fixtime s.spprod_.payTimes) (grax.NX + 2) s
    ⟨s.spprod_.payAmounts, col0, (withNodeState_self s p col0 h0).symm, rfl, hpa, rfl,
      fun n hn => absurd hn (Nat.not_lt_zero n), fun n _ => rfl⟩
    (by
      rintro k t hk ⟨a, col, rfl, ha, hae, hlen, hlt, hge⟩
      obtain ⟨spot, cv, a1, x, hspot, hcv, ha1, hx, hnext, hrun⟩ :=
        evalNode_withNodeState s e p grax fixtime col0 s.spprod_.payTimes hg hS hp h0 hscan
          heval k hk a col hae ha (by omega) (hge k (le_refl k))
      have hae1 : e < a1.length := (List.getElem?_eq_some.mp hx).1
      refine ⟨_, hrun, a1, col.set k x, rfl, hnext, hae1, by simp [hlen], ?_, ?_⟩
      · intro n hn
        rcases Nat.lt_succ_iff_lt_or_eq.mp hn with hlt1 | rfl
        · obtain ⟨a0, sp, c0, a2, y, h1, h2, h3, h4, h5, h6⟩ := hlt n hlt1
          refine ⟨a0, sp, c0, a2, y, h1, h2, h3, h4, h5, ?_⟩
          rw [List.getElem?_set_ne (by omega)]
          exact h6
        · refine ⟨a, spot, cv, a1, x, ha, hspot, hcv, ha1, hx, ?_⟩
          rw [List.getElem?_set_self (by omega)]
      · intro n hn
        rw [List.getElem?_set_ne (by omega)]
        exact hge n (by omega))
  obtain ⟨t, ht, a, col, rfl, ha, _, hlen, hlt, hge⟩ := hloop
  refine ⟨a, col, ?_, ha, hlen, hlt, hge⟩
  have he : ((e : Int) ≥ 0) := Int.ofNat_nonneg e
  simp only [evalNodes, index_of_getElem _ _ _ hs, he, if_true, Int.toNat_ofNat,
    index_of_getElem _ _ _ hfix, gridAxis0, index_of_getElem _ _ _ hg, bind, Except.bind, ht]

/-- Away from a fixing event the loop over grid nodes is not entered. -/
theorem evalNodes_no_event (s : Pde1DSolver Op) (stepIdx : Nat) (e : Int)
    (hs : s.stepindex_[stepIdx]? = some e) (he : e < 0) :
    evalNodes stepIdx s = .ok s := by
  have hne : ¬ e ≥ 0 := not_le.mpr he
  simp only [evalNodes, index_of_getElem _ _ _ hs, hne, if_false, bind, Except.bind]

/-- The recording part of `evalProduct` returns when it has what it needs, and
changes `results_` only. -/
theorem recordStep_spec (s : Pde1DSolver Op) (stepIdx : Nat) (t : ℚ)
    (h : RecordReady s stepIdx t) :
    ∃ s1, recordStep stepIdx s = .ok s1
      ∧ s1.results_.times = s.results_.times.set stepIdx t
      ∧ s1.values1 = s.values1 ∧ s1.values2 = s.values2
      ∧ s1.prevValues = s.prevValues ∧ s1.currValues = s.currValues
      ∧ s1.toPdeBase = s.toPdeBase
      ∧ (s.storeAllResults_ = false → s1.results_.values = s.results_.values)
      ∧ (s.storeAllResults_ = true → ∀ p, s.prevValues = some p →
          s1.results_.values = s.results_.values.set stepIdx (s.deref p)) := by
  obtain ⟨ht, hlen, hstore⟩ := h
  cases hb : s.storeAllResults_
  · refine ⟨{ s with results_ := { s.results_ with times := s.results_.times.set stepIdx t } },
      ?_, rfl, rfl, rfl, rfl, rfl, rfl, fun _ => rfl, fun h => absurd h (by simp)⟩
    simp [recordStep, index_of_getElem _ _ _ ht, assignIndex, hlen, hb, bind, Except.bind]
  · obtain ⟨hv, p, hp⟩ := hstore hb
    refine ⟨{ s with results_ := { s.results_ with
        times := s.results_.times.set stepIdx t
        values := s.results_.values.set stepIdx (s.deref p) } },
      ?_, rfl, rfl, rfl, rfl, rfl, rfl, fun h => absurd h (by simp), ?_⟩
    · simp [recordStep, index_of_getElem _ _ _ ht, assignIndex, hlen, hb, bind, Except.bind,
        prevPtr, hp, hv]
      cases p <;> rfl
    · intro _ q hq
      rw [hp] at hq
      cases hq
      rfl

end Pde1DSolver

namespace Pde1DSolver

variable {Op : Type}

theorem recordReady_withNodeState (s : Pde1DSolver Op) (stepIdx : Nat) (t : ℚ) (p : ValBuf)
    (a col : Vector) (h : RecordReady s stepIdx t) :
    RecordReady (withNodeState s p a col) stepIdx t := by
  cases p <;> exact h

theorem deref_of_fields (s s1 : Pde1DSolver Op) (h1 : s1.values1 = s.values1)
    (h2 : s1.values2 = s.values2) (b : ValBuf) : s1.deref b = s.deref b := by
  cases b
  · exact h1
  · exact h2

theorem get_column_zero (m : Matrix) (col : Vector) (n : Nat) (h : m.cols[0]? = some col) :
    m.get n 0 = index col n := by
  simp [Matrix.get, index, h, bind, Except.bind]

/-- Closed form of `evalProduct` at a fixing event. -/
theorem evalProduct_event (s : Pde1DSolver Op) (stepIdx e : Nat) (p : ValBuf)
    (grax : GridAxis) (fixtime : ℚ) (col0 : Vector) (t : ℚ)
    (h : EventReady s stepIdx e p grax fixtime col0) (hr : RecordReady s stepIdx t) :
    ∃ s1 a col, evalProduct stepIdx s = .ok s1
      ∧ s1.prevValues = some p
      ∧ s1.deref p = ⟨(s.deref p).n_rows, (s.deref p).cols.set 0 col⟩
      ∧ (∀ b, b ≠ p → s1.deref b = s.deref b)
      ∧ s1.results_.times = s.results_.times.set stepIdx t
      ∧ s1.spprod_.payAmounts = a
      ∧ payAmountsBefore s.spprod_ e grax.Slevels col0 (grax.NX + 2) = .ok a
      ∧ col.length = col0.length
      ∧ (∀ n, n < grax.NX + 2 → ∃ a0 spot contValue a1 x,
          payAmountsBefore s.spprod_ e grax.Slevels col0 n = .ok a0
          ∧ grax.Slevels[n]? = some spot ∧ col0[n]? = some contValue
          ∧ s.spprod_.eval e [spot] contValue a0 = .ok a1
          ∧ a1[e]? = some x ∧ col[n]? = some x)
      ∧ (∀ n, grax.NX + 2 ≤ n → col[n]? = col0[n]?) := by
  obtain ⟨a, col, hrun, ha, hlen, hlt, hge⟩ := evalNodes_event s stepIdx e p grax fixtime col0 h
  obtain ⟨s1, hrec, htimes, hv1, hv2, hprev, _, hbase, _, _⟩ :=
    recordStep_spec (withNodeState s p a col) stepIdx t
      (recordReady_withNodeState s stepIdx t p a col hr)
  have hd := deref_of_fields _ _ hv1 hv2
  refine ⟨s1, a, col, ?_, ?_, ?_, ?_, ?_, ?_, ha, hlen, hlt, hge⟩
  · simp only [evalProduct, hrun, bind, Except.bind]
    exact hrec
  · rw [hprev, ← h.2.2.2.2.1]
    cases p <;> rfl
  · rw [hd, withNodeState, store_deref_same]
  · intro b hb
    rw [hd, withNodeState, store_deref_other _ p b _ (Ne.symm hb)]
    cases b <;> rfl
  · rw [htimes]
    cases p <;> rfl
  · have : s1.spprod_ = (withNodeState s p a col).spprod_ := congrArg PdeBase.spprod_ hbase
    rw [this]
    cases p <;> rfl

end Pde1DSolver

/-- C7. At a step that is fixing event `e` (with the call defined, see
`EventReady` and `RecordReady`), `evalProduct` returns, and afterwards every
grid node `n` in `0 .. NX + 1`, both boundary nodes included, holds in the
previous buffer, layer 0, entry `e` of the pay amounts computed by the
product's event evaluator called with event index `e`, the spot level
`Slevels[n]` and the node's value before the call as continuation value (on
the pay amounts the product held when node `n` was reached). -/
theorem evalProduct_event_nodes {Op : Type} (s : Pde1DSolver Op) (stepIdx e : Nat) (p : ValBuf)
    (grax : GridAxis) (fixtime : ℚ) (col0 : Vector) (t : ℚ)
    (h : Pde1DSolver.EventReady s stepIdx e p grax fixtime col0)
    (hr : Pde1DSolver.RecordReady s stepIdx t) :
    ∃ s1, Pde1DSolver.evalProduct stepIdx s = .ok s1
      ∧ s1.prevValues = some p
      ∧ ∀ n, n ≤ grax.NX + 1 → ∃ a0 spot contValue a1 x,
          payAmountsBefore s.spprod_ e grax.Slevels col0 n = .ok a0
          ∧ index grax.Slevels n = .ok spot
          ∧ (s.deref p).get n 0 = .ok contValue
          ∧ s.spprod_.eval e [spot] contValue a0 = .ok a1
          ∧ index a1 e = .ok x
          ∧ (s1.deref p).get n 0 = .ok x := by
  obtain ⟨s1, a, col, hrun, hprev, hderef, _, _, _, _, _, hlt, _⟩ :=
    Pde1DSolver.evalProduct_event s stepIdx e p grax fixtime col0 t h hr
  have h0 := h.2.2.2.2.2.1
  have hcols : 0 < (s.deref p).cols.length := by
    cases hc : (s.deref p).cols with
    | nil => rw [hc] at h0; simp at h0
    | cons c cs => simp
  refine ⟨s1, hrun, hprev, ?_⟩
  intro n hn
  obtain ⟨a0, spot, cv, a1, x, h1, h2, h3, h4, h5, h6⟩ := hlt n (by omega)
  refine ⟨a0, spot, cv, a1, x, h1, index_of_getElem _ _ _ h2, ?_, h4,
    index_of_getElem _ _ _ h5, ?_⟩
  · rw [Pde1DSolver.get_column_zero _ col0 n h0]
    exact index_of_getElem _ _ _ h3
  · rw [hderef, Pde1DSolver.get_column_zero _ col n
      (by simp [List.getElem?_set_self hcols])]
    exact index_of_getElem _ _ _ h6

theorem sampleSolver_eventReady :
    Pde1DSolver.EventReady sampleSolver 2 1 ValBuf.values1 sampleAxis 2 [1, 2, 4] := by
  refine ⟨rfl, rfl, rfl, by decide, rfl, rfl, by decide, ⟨2, ?_, le_refl _⟩, by decide, ?_⟩
  · show (2 : ℚ) ∈ [2, 3]
    simp
  · intro spot contValue a ha
    refine ⟨a.set 1 spot, ?_, by simpa using ha⟩
    show (match [spot][0]? with
      | some x => assignIndex a 1 x
      | none => .error .undefined) = _
    simp [assignIndex, ha]

theorem sampleSolver_recordReady : Pde1DSolver.RecordReady sampleSolver 2 2 := by
  refine ⟨rfl, by decide, ?_⟩
  intro h
  exact absurd h (by decide)

/-- Sample run of C7: the sample solver at its last time step, fixing 1 of the
sample product. -/
theorem evalProduct_event_nodes_witness :
    ∃ s1, Pde1DSolver.evalProduct 2 sampleSolver = .ok s1
      ∧ s1.prevValues = some ValBuf.values1
      ∧ ∀ n, n ≤ sampleAxis.NX + 1 → ∃ a0 spot contValue a1 x,
          payAmountsBefore sampleSolver.spprod_ 1 sampleAxis.Slevels [1, 2, 4] n = .ok a0
          ∧ index sampleAxis.Slevels n = .ok spot
          ∧ (sampleSolver.deref ValBuf.values1).get n 0 = .ok contValue
          ∧ sampleSolver.spprod_.eval 1 [spot] contValue a0 = .ok a1
          ∧ index a1 1 = .ok x
          ∧ (s1.deref ValBuf.values1).get n 0 = .ok x :=
  evalProduct_event_nodes sampleSolver 2 1 ValBuf.values1 sampleAxis 2 [1, 2, 4] 2
    sampleSolver_eventReady sampleSolver_recordReady

theorem payAmountsBefore_succ (prod : Product) (e : Nat) (Slevels col0 : Vector) (n : Nat)
    (a0 a1 : Vector) (spot contValue : ℚ)
    (h0 : payAmountsBefore prod e Slevels col0 n = .ok a0)
    (hs : Slevels[n]? = some spot) (hc : col0[n]? = some contValue)
    (he : prod.eval e [spot] contValue a0 = .ok a1) :
    payAmountsBefore prod e Slevels col0 (n + 1) = .ok a1 := by
  simp only [payAmountsBefore, h0, index_of_getElem _ _ _ hs, index_of_getElem _ _ _ hc, bind,
    Except.bind, he]

/-- C8, counterexample. The sample product fixes at times 1 and 2 and pays at
times 2 and 3. At fixing 1 (time 2) the scan stops at payment index 0. After
grid node 0 (spot 90) is evaluated the product's pay amounts are `[7, 90]`:
the amount at the scan index 0 is 7, while the amount written to the node is
90, the pay amount at the event index 1. After the whole call the nodes hold
90, 100, 110. -/
theorem evalProduct_ignores_scan_index :
    sampleSolver.stepindex_[2]? = some 1
      ∧ sampleSolver.spprod_.fixTimes[1]? = some 2
      ∧ Pde1DSolver.payScan 2 sampleSolver.spprod_.payTimes 0 = .ok 0
      ∧ (fun t : Pde1DSolver SampleOp =>
            (t.spprod_.payAmounts, index t.spprod_.payAmounts 0,
              (t.deref ValBuf.values1).get 0 0))
          <$> Pde1DSolver.evalNode 1 2 sampleSolver.spprod_.payTimes 0 sampleSolver
          = .ok ([7, 90], .ok 7, .ok 90)
      ∧ (fun t : Pde1DSolver SampleOp => (t.deref ValBuf.values1).cols)
          <$> Pde1DSolver.evalProduct 2 sampleSolver = .ok [[90, 100, 110]]
      ∧ (90 : ℚ) ≠ 7 := by
  refine ⟨rfl, rfl, rfl, rfl, rfl, by norm_num⟩

/-- C8, amended. At a fixing event `e` (with the call defined) `evalProduct`
returns; the ascending scan over the payment times stops at the first index
`i` whose payment time is not earlier than the fixing time; the amount
written to each grid node `n` is entry `e` (the event index, not the scan
index) of the pay amounts the evaluator returned for that node; it is the
pay amount at the scan index when `i = e`. -/
theorem evalProduct_writes_event_amount {Op : Type} (s : Pde1DSolver Op) (stepIdx e : Nat)
    (p : ValBuf) (grax : GridAxis) (fixtime : ℚ) (col0 : Vector) (t : ℚ)
    (h : Pde1DSolver.EventReady s stepIdx e p grax fixtime col0)
    (hr : Pde1DSolver.RecordReady s stepIdx t) :
    ∃ s1 i, Pde1DSolver.evalProduct stepIdx s = .ok s1
      ∧ Pde1DSolver.payScan fixtime s.spprod_.payTimes 0 = .ok i
      ∧ (∃ tp, s.spprod_.payTimes[i]? = some tp ∧ fixtime ≤ tp)
      ∧ (∀ k tp, k < i → s.spprod_.payTimes[k]? = some tp → tp < fixtime)
      ∧ ∀ n, n ≤ grax.NX + 1 → ∃ a1 x,
          payAmountsBefore s.spprod_ e grax.Slevels col0 (n + 1) = .ok a1
          ∧ index a1 e = .ok x
          ∧ (s1.deref p).get n 0 = .ok x
          ∧ (i = e → index a1 i = .ok x) := by
  obtain ⟨s1, a, col, hrun, hprev, hderef, _, _, _, _, _, hlt, _⟩ :=
    Pde1DSolver.evalProduct_event s stepIdx e p grax fixtime col0 t h hr
  obtain ⟨i, hi⟩ := Pde1DSolver.payScan_total fixtime s.spprod_.payTimes 0 h.2.2.2.2.2.2.2.1
  obtain ⟨_, ⟨tp, htp, hnot⟩, hbefore⟩ := Pde1DSolver.payScan_spec fixtime _ 0 i hi
  have h0 := h.2.2.2.2.2.1
  have hcols : 0 < (s.deref p).cols.length := by
    cases hc : (s.deref p).cols with
    | nil => rw [hc] at h0; simp at h0
    | cons c cs => simp
  refine ⟨s1, i, hrun, hi, ⟨tp, by simpa using htp, not_lt.mp hnot⟩, ?_, ?_⟩
  · intro k tk hk hkt
    exact hbefore k tk (by simpa using hk) hkt
  · intro n hn
    obtain ⟨a0, spot, cv, a1, x, h1, h2, h3, h4, h5, h6⟩ := hlt n (by omega)
    have hx := index_of_getElem _ _ _ h5
    refine ⟨a1, x, payAmountsBefore_succ _ _ _ _ n a0 a1 spot cv h1 h2 h3 h4, hx, ?_, ?_⟩
    · rw [hderef, Pde1DSolver.get_column_zero _ col n
        (by simp [List.getElem?_set_self hcols])]
      exact index_of_getElem _ _ _ h6
    · intro hie
      rw [hie]
      exact hx

/-- Sample run of C8 as amended: the sample solver at fixing 1. -/
theorem evalProduct_writes_event_amount_witness :
    ∃ s1 i, Pde1DSolver.evalProduct 2 sampleSolver = .ok s1
      ∧ Pde1DSolver.payScan 2 sampleSolver.spprod_.payTimes 0 = .ok i
      ∧ ∀ n, n ≤ sampleAxis.NX + 1 → ∃ a1 x,
          payAmountsBefore sampleSolver.spprod_ 1 sampleAxis.Slevels [1, 2, 4] (n + 1) = .ok a1
          ∧ index a1 1 = .ok x
          ∧ (s1.deref ValBuf.values1).get n 0 = .ok x := by
  obtain ⟨s1, i, h1, h2, _, _, h5⟩ :=
    evalProduct_writes_event_amount sampleSolver 2 1 ValBuf.values1 sampleAxis 2 [1, 2, 4] 2
      sampleSolver_eventReady sampleSolver_recordReady
  refine ⟨s1, i, h1, h2, fun n hn => ?_⟩
  obtain ⟨a1, x, h6, h7, h8, _⟩ := h5 n hn
  exact ⟨a1, x, h6, h7, h8⟩

/-- C9. Whenever the call is defined (a time and a results slot for the step,
and at a fixing event what the evaluation of the nodes needs), `evalProduct`
returns; it records `results_.times[stepIdx] = timesteps_[stepIdx]` and leaves
every other entry of `results_.times` as it was, at event and non-event steps
alike; and at a step whose event index is negative it leaves both value
buffers unchanged. -/
theorem evalProduct_frame_effect {Op : Type} (s : Pde1DSolver Op) (stepIdx : Nat) (t : ℚ)
    (e : Int) (hr : Pde1DSolver.RecordReady s stepIdx t)
    (he : s.stepindex_[stepIdx]? = some e)
    (hev : 0 ≤ e → ∃ p grax fixtime col0,
      Pde1DSolver.EventReady s stepIdx e.toNat p grax fixtime col0) :
    ∃ s1, Pde1DSolver.evalProduct stepIdx s = .ok s1
      ∧ s.timesteps_[stepIdx]? = some t
      ∧ s1.results_.times[stepIdx]? = some t
      ∧ (∀ k, k ≠ stepIdx → s1.results_.times[k]? = s.results_.times[k]?)
      ∧ s1.results_.times.length = s.results_.times.length
      ∧ (e < 0 → s1.values1 = s.values1 ∧ s1.values2 = s.values2) := by
  have htimes : ∀ s1 : Pde1DSolver Op, s1.results_.times = s.results_.times.set stepIdx t →
      s1.results_.times[stepIdx]? = some t
      ∧ (∀ k, k ≠ stepIdx → s1.results_.times[k]? = s.results_.times[k]?)
      ∧ s1.results_.times.length = s.results_.times.length := by
    intro s1 h1
    rw [h1]
    refine ⟨List.getElem?_set_self hr.2.1, fun k hk => ?_, by simp⟩
    exact List.getElem?_set_ne (Ne.symm hk)
  by_cases hneg : e < 0
  · obtain ⟨s1, hrec, ht, hv1, hv2, _⟩ := Pde1DSolver.recordStep_spec s stepIdx t hr
    refine ⟨s1, ?_, hr.1, (htimes s1 ht).1, (htimes s1 ht).2.1, (htimes s1 ht).2.2,
      fun _ => ⟨hv1, hv2⟩⟩
    simp only [Pde1DSolver.evalProduct, Pde1DSolver.evalNodes_no_event s stepIdx e he hneg,
      bind, Except.bind]
    exact hrec
  · obtain ⟨p, grax, fixtime, col0, hready⟩ := hev (not_lt.mp hneg)
    obtain ⟨s1, a, col, hrun, _, _, _, ht, _⟩ :=
      Pde1DSolver.evalProduct_event s stepIdx e.toNat p grax fixtime col0 t hready hr
    exact ⟨s1, hrun, hr.1, (htimes s1 ht).1, (htimes s1 ht).2.1, (htimes s1 ht).2.2,
      fun h => absurd h hneg⟩

theorem sampleSolver_recordReady_zero : Pde1DSolver.RecordReady sampleSolver 0 0 := by
  refine ⟨rfl, by decide, ?_⟩
  intro h
  exact absurd h (by decide)

/-- Sample run of C9: the sample solver at step 0, which is not a fixing. -/
theorem evalProduct_frame_effect_witness :
    ∃ s1, Pde1DSolver.evalProduct 0 sampleSolver = .ok s1
      ∧ sampleSolver.timesteps_[0]? = some 0
      ∧ s1.results_.times[0]? = some 0
      ∧ (∀ k, k ≠ 0 → s1.results_.times[k]? = sampleSolver.results_.times[k]?)
      ∧ s1.results_.times.length = sampleSolver.results_.times.length
      ∧ ((-1 : Int) < 0 → s1.values1 = sampleSolver.values1
          ∧ s1.values2 = sampleSolver.values2) :=
  evalProduct_frame_effect sampleSolver 0 0 (-1) sampleSolver_recordReady_zero rfl
    (fun h => absurd h (by decide))

/-! ### Initialisation of the value layers -/

theorem resize_length {α : Type} (d : α) (n : Nat) (v : List α) : (resize d n v).length = n := by
  simp [resize]
  omega

theorem resize_of_length {α : Type} (d : α) (n : Nat) (v : List α) (h : v.length = n) :
    resize d n v = v := by
  unfold resize
  rw [List.take_of_length_le (le_of_eq h), h, Nat.sub_self]
  simp

namespace Matrix

theorem resize_shaped (m : Matrix) (r c : Nat) : Shaped r c (m.resize r c) := by
  refine ⟨rfl, by simp [resize], ?_⟩
  intro col hcol
  simp only [resize, List.mem_map] at hcol
  obtain ⟨j, _, rfl⟩ := hcol
  exact resize_length _ _ _

theorem set_shaped (r c : Nat) (m : Matrix) (i j : Nat) (x : ℚ) (hm : Shaped r c m)
    (hi : i < r) (hj : j < c) :
    ∃ m1, m.set i j x = .ok m1 ∧ Shaped r c m1
      ∧ m1.entry i j = some x
      ∧ ∀ i1 j1, (i1 ≠ i ∨ j1 ≠ j) → m1.entry i1 j1 = m.entry i1 j1 := by
  obtain ⟨hr, hc, hcols⟩ := hm
  have hjl : j < m.cols.length := by omega
  obtain ⟨col, hcol⟩ : ∃ col, m.cols[j]? = some col := ⟨_, List.getElem?_eq_getElem hjl⟩
  have hmem : col ∈ m.cols := List.getElem?_mem hcol
  have hlen : i < col.length := by rw [hcols col hmem]; exact hi
  refine ⟨⟨m.n_rows, m.cols.set j (col.set i x)⟩, ?_, ⟨hr, by simpa using hc, ?_⟩, ?_, ?_⟩
  · simp [Matrix.set, index, hcol, assignIndex, hlen, bind, Except.bind]
  · intro c1 hc1
    rcases List.mem_or_eq_of_mem_set hc1 with h | h
    · exact hcols c1 h
    · rw [h, List.length_set]; exact hcols col hmem
  · simp [entry, List.getElem?_set_self hjl, List.getElem?_set_self hlen]
  · intro i1 j1 hne
    by_cases hjj : j1 = j
    · subst hjj
      have hii : i1 ≠ i := by
        rcases hne with h | h
        · exact h
        · exact absurd rfl h
      simp [entry, List.getElem?_set_self hjl, hcol, List.getElem?_set_ne (Ne.symm hii)]
    · simp [entry, List.getElem?_set_ne (Ne.symm hjj)]

theorem eq_zeros_of_zeroBefore (r c : Nat) (m : Matrix) (hm : Shaped r c m)
    (hz : ZeroBefore r c m r 0) : m = zeros r c := by
  obtain ⟨hr, hc, hcols⟩ := hm
  have hcolsEq : m.cols = List.replicate c (List.replicate r 0) := by
    apply List.ext_getElem (by simp [hc])
    intro j h1 h2
    have hjc : j < c := by omega
    have hmem : m.cols[j] ∈ m.cols := List.getElem_mem h1
    have hlen := hcols _ hmem
    rw [List.getElem_replicate]
    apply List.ext_getElem (by simp [hlen])
    intro i h3 h4
    have hir : i < r := by omega
    have hz1 := hz i j hir hjc (Or.inl hir)
    simp only [entry, List.getElem?_eq_getElem h1, Option.some_bind,
      List.getElem?_eq_getElem h3] at hz1
    rw [List.getElem_replicate]
    exact Option.some.inj hz1
  cases m
  simp only [zeros] at *
  subst hr
  rw [hcolsEq]

end Matrix

namespace Matrix

theorem zeroBefore_step (r c : Nat) (m : Matrix) (i j : Nat) (hm : Shaped r c m)
    (hz : ZeroBefore r c m i j) (hi : i < r) (hj : j < c) :
    ∃ m1, m.set i j 0 = .ok m1 ∧ Shaped r c m1 ∧ ZeroBefore r c m1 i (j + 1) := by
  obtain ⟨m1, hset, hshape, hent, hother⟩ := set_shaped r c m i j 0 hm hi hj
  refine ⟨m1, hset, hshape, ?_⟩
  intro i1 j1 h1 h2 h3
  by_cases hsame : i1 = i ∧ j1 = j
  · rw [hsame.1, hsame.2]; exact hent
  · have hne : i1 ≠ i ∨ j1 ≠ j := by
      by_cases hii : i1 = i
      · exact Or.inr fun hjj => hsame ⟨hii, hjj⟩
      · exact Or.inl hii
    rw [hother i1 j1 hne]
    apply hz i1 j1 h1 h2
    rcases h3 with h | ⟨h, h4⟩
    · exact Or.inl h
    · refine Or.inr ⟨h, ?_⟩
      rcases hne with h5 | h5
      · exact absurd h h5
      · omega

theorem zeroBefore_next_row (r c : Nat) (m : Matrix) (i : Nat) (hz : ZeroBefore r c m i c) :
    ZeroBefore r c m (i + 1) 0 := by
  intro i1 j1 h1 h2 h3
  apply hz i1 j1 h1 h2
  rcases h3 with h | ⟨_, h⟩
  · rcases Nat.lt_succ_iff_lt_or_eq.mp h with h4 | h4
    · exact Or.inl h4
    · exact Or.inr ⟨h4, h2⟩
  · omega

end Matrix

namespace Pde1DSolver

variable {Op : Type}

theorem zeroRow_closed (s : Pde1DSolver Op) (r : Nat) (i : Nat) (hi : i < r) (m1 m2 : Matrix)
    (h1 : Matrix.Shaped r s.nLayers_ m1) (h2 : Matrix.Shaped r s.nLayers_ m2)
    (z1 : Matrix.ZeroBefore r s.nLayers_ m1 i 0) (z2 : Matrix.ZeroBefore r s.nLayers_ m2 i 0) :
    ∃ n1 n2, forLoop (fun j u => zeroEntry i j u) s.nLayers_
          ({ s with values1 := m1, values2 := m2 } : Pde1DSolver Op)
        = .ok { s with values1 := n1, values2 := n2 }
      ∧ Matrix.Shaped r s.nLayers_ n1 ∧ Matrix.Shaped r s.nLayers_ n2
      ∧ Matrix.ZeroBefore r s.nLayers_ n1 (i + 1) 0
      ∧ Matrix.ZeroBefore r s.nLayers_ n2 (i + 1) 0 := by
  obtain ⟨t, ht, n1, n2, rfl, hs1, hs2, hz1, hz2⟩ := forLoop_inv
    (fun j (t : Pde1DSolver Op) => ∃ n1 n2, t = { s with values1 := n1, values2 := n2 }
      ∧ Matrix.Shaped r s.nLayers_ n1 ∧ Matrix.Shaped r s.nLayers_ n2
      ∧ Matrix.ZeroBefore r s.nLayers_ n1 i j ∧ Matrix.ZeroBefore r s.nLayers_ n2 i j)
    (fun j u => zeroEntry i j u) s.nLayers_ { s with values1 := m1, values2 := m2 }
    ⟨m1, m2, rfl, h1, h2, z1, z2⟩
    (by
      rintro j t hj ⟨n1, n2, rfl, hs1, hs2, hz1, hz2⟩
      obtain ⟨k1, hk1, hks1, hkz1⟩ := Matrix.zeroBefore_step r _ n1 i j hs1 hz1 hi hj
      obtain ⟨k2, hk2, hks2, hkz2⟩ := Matrix.zeroBefore_step r _ n2 i j hs2 hz2 hi hj
      refine ⟨{ s with values1 := k1, values2 := k2 }, ?_, k1, k2, rfl, hks1, hks2, hkz1, hkz2⟩
      simp only [zeroEntry, hk1, hk2, bind, Except.bind])
  exact ⟨n1, n2, ht, hs1, hs2, Matrix.zeroBefore_next_row r _ n1 i hz1,
    Matrix.zeroBefore_next_row r _ n2 i hz2⟩

theorem zeroLoops_closed (s : Pde1DSolver Op) (r : Nat) (m1 m2 : Matrix)
    (h1 : Matrix.Shaped r s.nLayers_ m1) (h2 : Matrix.Shaped r s.nLayers_ m2) :
    forLoop (fun i (t : Pde1DSolver Op) => forLoop (fun j u => zeroEntry i j u) t.nLayers_ t) r
        ({ s with values1 := m1, values2 := m2 } : Pde1DSolver Op)
      = .ok { s with values1 := Matrix.zeros r s.nLayers_,
                     values2 := Matrix.zeros r s.nLayers_ } := by
  obtain ⟨t, ht, n1, n2, rfl, hs1, hs2, hz1, hz2⟩ := forLoop_inv
    (fun i (t : Pde1DSolver Op) => ∃ n1 n2, t = { s with values1 := n1, values2 := n2 }
      ∧ Matrix.Shaped r s.nLayers_ n1 ∧ Matrix.Shaped r s.nLayers_ n2
      ∧ Matrix.ZeroBefore r s.nLayers_ n1 i 0 ∧ Matrix.ZeroBefore r s.nLayers_ n2 i 0)
    (fun i (t : Pde1DSolver Op) => forLoop (fun j u => zeroEntry i j u) t.nLayers_ t) r
    { s with values1 := m1, values2 := m2 }
    ⟨m1, m2, rfl, h1, h2, fun i1 j1 _ _ h => by omega, fun i1 j1 _ _ h => by omega⟩
    (by
      rintro i t hi ⟨n1, n2, rfl, hs1, hs2, hz1, hz2⟩
      obtain ⟨k1, k2, hrun, hks1, hks2, hkz1, hkz2⟩ :=
        zeroRow_closed s r i hi n1 n2 hs1 hs2 hz1 hz2
      exact ⟨_, hrun, k1, k2, rfl, hks1, hks2, hkz1, hkz2⟩)
  rw [ht, Matrix.eq_zeros_of_zeroBefore r _ n1 hs1 hz1,
    Matrix.eq_zeros_of_zeroBefore r _ n2 hs2 hz2]

end Pde1DSolver

namespace Matrix

theorem zeros_get (r c i j : Nat) (hi : i < r) (hj : j < c) : (zeros r c).get i j = .ok 0 := by
  simp [zeros, Matrix.get, index, hi, hj, bind, Except.bind]

end Matrix

namespace Pde1DSolver

variable {Op : Type}

/-- Closed form of `initValLayers` on a one-factor solver with a grid axis. -/
theorem initValLayers_closed (env : Collaborators Op) (s : Pde1DSolver Op) (grax : GridAxis)
    (hf : env.nFactors s.toPdeBase = 1) (hg : s.gridAxes_[0]? = some grax) :
    initValLayers env s
      = .ok { s with
          values1 := Matrix.zeros (grax.NX + 2) s.nLayers_
          values2 := Matrix.zeros (grax.NX + 2) s.nLayers_
          prevValues := some ValBuf.values1
          currValues := some ValBuf.values2
          results_ := { s.results_ with
            times := resize 0 s.nSteps_ s.results_.times
            values := resize Matrix.empty s.nSteps_ s.results_.values } } := by
  have hloop := zeroLoops_closed s (grax.NX + 2)
    (s.values1.resize (grax.NX + 2) s.nLayers_) (s.values2.resize (grax.NX + 2) s.nLayers_)
    (Matrix.resize_shaped _ _ _) (Matrix.resize_shaped _ _ _)
  have hres : resize Matrix.empty s.nSteps_ (resize Matrix.empty s.nSteps_ s.results_.values)
      = resize Matrix.empty s.nSteps_ s.results_.values :=
    resize_of_length _ _ _ (resize_length Matrix.empty s.nSteps_ s.results_.values)
  unfold initValLayers initValLayersBody
  simp only [hf, ne_eq, not_true_eq_false, if_false, gridAxis0, index_of_getElem _ _ _ hg,
    bind, Except.bind, pure, Except.pure]
  erw [hloop]
  cases hb : s.storeAllResults_
  · simp [hb]
  · simp [hb, hres]

end Pde1DSolver

/-- C10. For a solver with exactly one factor (and a grid axis `gridAxes_[0]`),
`initValLayers` returns; afterwards both value buffers have `NX + 2` rows and
`nLayers_` columns with every entry 0, `prevValues` designates `values1` and
`currValues` designates `values2`, and `results_.times` and `results_.values`
both have length `nSteps_`. -/
theorem initValLayers_zeroed {Op : Type} (env : Collaborators Op) (s : Pde1DSolver Op)
    (grax : GridAxis) (hf : env.nFactors s.toPdeBase = 1)
    (hg : s.gridAxes_[0]? = some grax) :
    ∃ s1, Pde1DSolver.initValLayers env s = .ok s1
      ∧ s1.values1 = Matrix.zeros (grax.NX + 2) s.nLayers_
      ∧ s1.values2 = Matrix.zeros (grax.NX + 2) s.nLayers_
      ∧ s1.values1.n_rows = grax.NX + 2 ∧ s1.values1.n_cols = s.nLayers_
      ∧ s1.values2.n_rows = grax.NX + 2 ∧ s1.values2.n_cols = s.nLayers_
      ∧ (∀ i j, i < grax.NX + 2 → j < s.nLayers_ →
          s1.values1.get i j = .ok 0 ∧ s1.values2.get i j = .ok 0)
      ∧ s1.prevValues = some ValBuf.values1
      ∧ s1.currValues = some ValBuf.values2
      ∧ s1.results_.times.length = s.nSteps_
      ∧ s1.results_.values.length = s.nSteps_ := by
  refine ⟨_, Pde1DSolver.initValLayers_closed env s grax hf hg, rfl, rfl, rfl, ?_, rfl, ?_, ?_,
    rfl, rfl, resize_length _ _ _, resize_length _ _ _⟩
  · simp [Matrix.n_cols, Matrix.zeros]
  · simp [Matrix.n_cols, Matrix.zeros]
  · intro i j hi hj
    exact ⟨Matrix.zeros_get _ _ i j hi hj, Matrix.zeros_get _ _ i j hi hj⟩

/-- Sample run of C10: the sample solver (one asset, `NX = 1`, one layer,
three time steps) is initialised again. -/
theorem initValLayers_zeroed_witness :
    ∃ s1, Pde1DSolver.initValLayers sampleEnv sampleSolver = .ok s1
      ∧ s1.values1 = Matrix.zeros (sampleAxis.NX + 2) sampleSolver.nLayers_
      ∧ s1.values2 = Matrix.zeros (sampleAxis.NX + 2) sampleSolver.nLayers_
      ∧ s1.prevValues = some ValBuf.values1
      ∧ s1.currValues = some ValBuf.values2
      ∧ s1.results_.times.length = sampleSolver.nSteps_
      ∧ s1.results_.values.length = sampleSolver.nSteps_ := by
  obtain ⟨s1, h1, h2, h3, _, _, _, _, _, h9, h10, h11, h12⟩ :=
    initValLayers_zeroed sampleEnv sampleSolver sampleAxis rfl rfl
  exact ⟨s1, h1, h2, h3, h9, h10, h11, h12⟩

/-! ### Failure of the initialisation -/

namespace Pde1DSolver

variable {Op : Type}

theorem initValLayersBody_closed (s : Pde1DSolver Op) (grax : GridAxis)
    (hg : s.gridAxes_[0]? = some grax) :
    initValLayersBody s
      = .ok { s with
          values1 := Matrix.zeros (grax.NX + 2) s.nLayers_
          values2 := Matrix.zeros (grax.NX + 2) s.nLayers_
          prevValues := some ValBuf.values1
          currValues := some ValBuf.values2
          results_ := { s.results_ with
            times := resize 0 s.nSteps_ s.results_.times
            values := resize Matrix.empty s.nSteps_ s.results_.values } } := by
  have hloop := zeroLoops_closed s (grax.NX + 2)
    (s.values1.resize (grax.NX + 2) s.nLayers_) (s.values2.resize (grax.NX + 2) s.nLayers_)
    (Matrix.resize_shaped _ _ _) (Matrix.resize_shaped _ _ _)
  have hres : resize Matrix.empty s.nSteps_ (resize Matrix.empty s.nSteps_ s.results_.values)
      = resize Matrix.empty s.nSteps_ s.results_.values :=
    resize_of_length _ _ _ (resize_length Matrix.empty s.nSteps_ s.results_.values)
  unfold initValLayersBody
  simp only [gridAxis0, index_of_getElem _ _ _ hg, bind, Except.bind]
  erw [hloop]
  cases hb : s.storeAllResults_
  · simp [hb]
  · simp [hb, hres]

/-- Lines 47-60 of `initValLayers` fail only by an access without meaning,
namely when there is no grid axis. -/
theorem initValLayersBody_error (s : Pde1DSolver Op) (e : Fault)
    (h : initValLayersBody s = .error e) : e = Fault.undefined ∧ s.gridAxes_[0]? = none := by
  cases hg : s.gridAxes_[0]? with
  | some grax => rw [initValLayersBody_closed s grax hg] at h; cases h
  | none =>
    refine ⟨?_, rfl⟩
    simp only [initValLayersBody, gridAxis0, index, hg, bind, Except.bind] at h
    cases h
    rfl

theorem initValLayers_of_one_factor (env : Collaborators Op) (s : Pde1DSolver Op)
    (hf : env.nFactors s.toPdeBase = 1) : initValLayers env s = initValLayersBody s := by
  simp [initValLayers, hf, bind, Except.bind, pure, Except.pure]

theorem initValLayers_of_other_factors (env : Collaborators Op) (s : Pde1DSolver Op)
    (hf : env.nFactors s.toPdeBase ≠ 1) :
    initValLayers env s = .error (.raised "1D PDE is handles 1 asset only!") := by
  simp [initValLayers, hf, bind, Except.bind, throw, throwThe, MonadExceptOf.throw]

end Pde1DSolver

/-- C11. `initValLayers` raises an error (throws its assertion) if and only if
the solver's factor count differs from 1; the call and the call with its end
state `initValLayersOutcome` agree on how the call ends; and when the call
throws, the state at the throw is the state the call started in: neither
value buffer, neither buffer role and no results container has been
modified. -/
theorem initValLayers_raises_iff {Op : Type} (env : Collaborators Op) (s : Pde1DSolver Op) :
    ((∃ msg, Pde1DSolver.initValLayers env s = .error (.raised msg))
        ↔ env.nFactors s.toPdeBase ≠ 1)
      ∧ ((∃ t e, Pde1DSolver.initValLayersOutcome env s = .threw t e)
        ↔ env.nFactors s.toPdeBase ≠ 1)
      ∧ (∀ s1, Pde1DSolver.initValLayers env s = .ok s1
        ↔ Pde1DSolver.initValLayersOutcome env s = .returned s1)
      ∧ (∀ t e, Pde1DSolver.initValLayersOutcome env s = .threw t e →
          Pde1DSolver.initValLayers env s = .error e
          ∧ e = .raised "1D PDE is handles 1 asset only!"
          ∧ t = s
          ∧ t.values1 = s.values1 ∧ t.values2 = s.values2
          ∧ t.prevValues = s.prevValues ∧ t.currValues = s.currValues
          ∧ t.results_ = s.results_) := by
  by_cases hf : env.nFactors s.toPdeBase = 1
  · have hrun := Pde1DSolver.initValLayers_of_one_factor env s hf
    refine ⟨⟨?_, fun h => absurd hf h⟩, ⟨?_, fun h => absurd hf h⟩, ?_, ?_⟩
    · rintro ⟨msg, h⟩
      rw [hrun] at h
      have := (Pde1DSolver.initValLayersBody_error s _ h).1
      cases this
    · rintro ⟨t, e, h⟩
      simp only [Pde1DSolver.initValLayersOutcome, hf, ne_eq, not_true_eq_false, if_false] at h
      cases hb : Pde1DSolver.initValLayersBody s <;> rw [hb] at h <;> cases h
    · intro s1
      rw [hrun]
      simp only [Pde1DSolver.initValLayersOutcome, hf, ne_eq, not_true_eq_false, if_false]
      cases hb : Pde1DSolver.initValLayersBody s with
      | error e => exact ⟨fun h => (by cases h), fun h => (by cases h)⟩
      | ok u => exact ⟨fun h => (by cases h; rfl), fun h => (by cases h; rfl)⟩
    · intro t e h
      simp only [Pde1DSolver.initValLayersOutcome, hf, ne_eq, not_true_eq_false, if_false] at h
      cases hb : Pde1DSolver.initValLayersBody s <;> rw [hb] at h <;> cases h
  · have hrun := Pde1DSolver.initValLayers_of_other_factors env s hf
    have hout : Pde1DSolver.initValLayersOutcome env s
        = .threw s (.raised "1D PDE is handles 1 asset only!") := by
      simp [Pde1DSolver.initValLayersOutcome, hf]
    refine ⟨⟨fun _ => hf, fun _ => ⟨_, hrun⟩⟩, ⟨fun _ => hf, fun _ => ⟨_, _, hout⟩⟩, ?_, ?_⟩
    · intro s1
      rw [hrun, hout]
      exact ⟨fun h => (by cases h), fun h => (by cases h)⟩
    · intro t e h
      rw [hout] at h
      cases h
      exact ⟨hrun, rfl, rfl, rfl, rfl, rfl, rfl, rfl⟩

/-! ### Discounting -/

namespace Matrix

theorem scale_entry (m : Matrix) (df : ℚ) (i j : Nat) :
    (m.scale df).entry i j = (m.entry i j).map fun x => x * df := by
  simp only [entry, scale, List.getElem?_map]
  cases m.cols[j]? with
  | none => rfl
  | some col => simp [List.getElem?_map]

end Matrix

namespace Pde1DSolver

variable {Op : Type}

theorem store_store (s : Pde1DSolver Op) (p : ValBuf) (m1 m2 : Matrix) :
    (s.store p m1).store p m2 = s.store p m2 := by
  cases p <;> rfl

theorem store_prevValues (s : Pde1DSolver Op) (p : ValBuf) (m : Matrix) :
    (s.store p m).prevValues = s.prevValues := by
  cases p <;> rfl

end Pde1DSolver

namespace Matrix

theorem scaleWith_mul (m : Matrix) (df : ℚ) :
    m.scaleWith (fun x y => x * y) df = m.scale df := rfl

end Matrix

namespace Pde1DSolver

variable {Op : Type}

theorem discountFromStepToStepWith_closed (mul : ℚ → ℚ → ℚ) (df : ℚ) (s : Pde1DSolver Op)
    (p : ValBuf) (hp : s.prevValues = some p) :
    discountFromStepToStepWith mul df s = .ok (s.store p ((s.deref p).scaleWith mul df)) := by
  simp [discountFromStepToStepWith, prevPtr, hp, bind, Except.bind]

theorem discountFromStepToStepWith_twice (mul : ℚ → ℚ → ℚ) (df1 df2 : ℚ)
    (s : Pde1DSolver Op) (p : ValBuf) (hp : s.prevValues = some p) :
    (discountFromStepToStepWith mul df1 s >>= discountFromStepToStepWith mul df2)
      = .ok (s.store p (((s.deref p).scaleWith mul df1).scaleWith mul df2)) := by
  rw [discountFromStepToStepWith_closed mul df1 s p hp]
  show discountFromStepToStepWith mul df2 _ = _
  rw [discountFromStepToStepWith_closed mul df2 _ p (by rw [store_prevValues]; exact hp),
    store_deref_same, store_store]

end Pde1DSolver

/-! ### Rounded products -/

theorem roundDouble_eq (x : ℚ) (p q m : Nat) (k : Int) (hp : 0 < p) (hq : 0 < q)
    (h : Nat.Coprime p q) (hx : x = (p : ℚ) / (q : ℚ)) (hk : ulpExponent p q = k)
    (hm : significand p q = m) : roundDouble x = (m : ℚ) * (2 : ℚ) ^ k := by
  have hpos : (0 : ℚ) < (p : ℚ) / (q : ℚ) := by positivity
  have hnum : ((p : ℚ) / (q : ℚ)).num = (p : Int) := by
    have := @Rat.num_div_eq_of_coprime (p : Int) (q : Int)
      (by exact_mod_cast hq) (by simpa using h)
    simpa using this
  have hden : ((p : ℚ) / (q : ℚ)).den = q := by
    have := @Rat.den_div_eq_of_coprime (p : Int) (q : Int)
      (by exact_mod_cast hq) (by simpa using h)
    simpa using this
  rw [hx]
  simp only [roundDouble, ne_of_gt hpos, not_lt.mpr hpos.le, if_false, hnum, hden,
    Int.natAbs_ofNat, roundPos, hk, hm]

/-- The product of two doubles whose exact product is `p / q` in lowest terms. -/
theorem mulDouble_eq (x y : ℚ) (p q m : Nat) (k : Int) (hp : 0 < p) (hq : 0 < q)
    (h : Nat.Coprime p q) (hxy : x * y = (p : ℚ) / (q : ℚ)) (hk : ulpExponent p q = k)
    (hm : significand p q = m) : mulDouble x y = (m : ℚ) * (2 : ℚ) ^ k :=
  roundDouble_eq (x * y) p q m k hp hq h hxy hk hm

/-- The literal `0.99` denotes `sampleDiscount`. -/
theorem roundDouble_sampleDiscount : roundDouble (99 / 100) = sampleDiscount := by
  rw [roundDouble_eq (99 / 100) 99 100 8917127262193582 (-53) (by decide) (by decide)
    (by norm_num) (by norm_num) (by rfl) (by rfl)]
  norm_num [sampleDiscount]

/-- The number 100 is a `double`. -/
theorem roundDouble_hundred : roundDouble 100 = 100 := by
  rw [roundDouble_eq 100 100 1 7036874417766400 (-46) (by decide) (by decide)
    (by norm_num) (by norm_num) (by rfl) (by rfl)]
  norm_num

/-- In doubles `100.0 * 0.99` is 99. -/
theorem mulDouble_hundred : mulDouble 100 sampleDiscount = 99 := by
  rw [mulDouble_eq 100 sampleDiscount 111464090777419775 1125899906842624 6966505673588736
    (-46) (by decide) (by decide) (by norm_num) (by norm_num [sampleDiscount]) (by rfl) (by rfl)]
  norm_num

/-- In doubles `99.0 * 0.99` is the double printed `98.01`. -/
theorem mulDouble_ninetynine :
    mulDouble 99 sampleDiscount = 6896840616852849 / 70368744177664 := by
  rw [mulDouble_eq 99 sampleDiscount 441397799478582309 4503599627370496 6896840616852849
    (-46) (by decide) (by decide) (by norm_num) (by norm_num [sampleDiscount]) (by rfl) (by rfl)]
  norm_num

set_option maxRecDepth 8192 in
/-- In doubles `0.99 * 0.99` is the double printed `0.9801`. -/
theorem mulDouble_square :
    mulDouble sampleDiscount sampleDiscount = 4413977994785823 / 4503599627370496 := by
  rw [mulDouble_eq sampleDiscount sampleDiscount 19878789652539001825825610497681
    20282409603651670423947251286016 8827955989571646
    (-53) (by decide) (by decide) (by norm_num) (by norm_num [sampleDiscount]) (by rfl) (by rfl)]
  norm_num

/-- In doubles `100.0 * 0.9801` is the double printed `98.00999999999999`. -/
theorem mulDouble_hundred_square :
    mulDouble 100 (4413977994785823 / 4503599627370496) = 6896840616852848 / 70368744177664 := by
  rw [mulDouble_eq 100 (4413977994785823 / 4503599627370496) 110349449869645575
    1125899906842624 6896840616852848
    (-46) (by decide) (by decide) (by norm_num) (by norm_num) (by rfl) (by rfl)]
  norm_num

/-- C12, counterexample. In double arithmetic, discounting by `0.99` and then
by `0.99` is not discounting once by `0.99 * 0.99`: on the sample solver whose
previous-values buffer holds `100.0` at every node, the two calls leave
`(100.0 * 0.99) * 0.99`, the double printed `98.01`, and the single call
leaves `100.0 * (0.99 * 0.99)`, the double printed `98.00999999999999`, one
unit of the last place below. -/
theorem discount_twice_differs :
    roundDouble (99 / 100) = sampleDiscount ∧ roundDouble 100 = 100
      ∧ (Pde1DSolver.discountFromStepToStepWith mulDouble sampleDiscount sampleDoubleSolver
            >>= Pde1DSolver.discountFromStepToStepWith mulDouble sampleDiscount)
          = .ok { sampleDoubleSolver with values1 := ⟨3, [[6896840616852849 / 70368744177664,
              6896840616852849 / 70368744177664, 6896840616852849 / 70368744177664]]⟩ }
      ∧ Pde1DSolver.discountFromStepToStepWith mulDouble
            (mulDouble sampleDiscount sampleDiscount) sampleDoubleSolver
          = .ok { sampleDoubleSolver with values1 := ⟨3, [[6896840616852848 / 70368744177664,
              6896840616852848 / 70368744177664, 6896840616852848 / 70368744177664]]⟩ }
      ∧ (Pde1DSolver.discountFromStepToStepWith mulDouble sampleDiscount sampleDoubleSolver
            >>= Pde1DSolver.discountFromStepToStepWith mulDouble sampleDiscount)
          ≠ Pde1DSolver.discountFromStepToStepWith mulDouble
              (mulDouble sampleDiscount sampleDiscount) sampleDoubleSolver := by
  have h2 : (Pde1DSolver.discountFromStepToStepWith mulDouble sampleDiscount sampleDoubleSolver
        >>= Pde1DSolver.discountFromStepToStepWith mulDouble sampleDiscount)
      = .ok { sampleDoubleSolver with values1 := ⟨3, [[6896840616852849 / 70368744177664,
          6896840616852849 / 70368744177664, 6896840616852849 / 70368744177664]]⟩ } := by
    rw [Pde1DSolver.discountFromStepToStepWith_twice mulDouble sampleDiscount sampleDiscount
      sampleDoubleSolver ValBuf.values1 rfl]
    have hm : ((sampleDoubleSolver.deref ValBuf.values1).scaleWith mulDouble
          sampleDiscount).scaleWith mulDouble sampleDiscount
        = ⟨3, [[mulDouble (mulDouble 100 sampleDiscount) sampleDiscount,
            mulDouble (mulDouble 100 sampleDiscount) sampleDiscount,
            mulDouble (mulDouble 100 sampleDiscount) sampleDiscount]]⟩ := by rfl
    rw [hm, mulDouble_hundred, mulDouble_ninetynine]
    rfl
  have h1 : Pde1DSolver.discountFromStepToStepWith mulDouble
        (mulDouble sampleDiscount sampleDiscount) sampleDoubleSolver
      = .ok { sampleDoubleSolver with values1 := ⟨3, [[6896840616852848 / 70368744177664,
          6896840616852848 / 70368744177664, 6896840616852848 / 70368744177664]]⟩ } := by
    rw [Pde1DSolver.discountFromStepToStepWith_closed mulDouble _ sampleDoubleSolver
      ValBuf.values1 rfl]
    have hm : (sampleDoubleSolver.deref ValBuf.values1).scaleWith mulDouble
          (mulDouble sampleDiscount sampleDiscount)
        = ⟨3, [[mulDouble 100 (mulDouble sampleDiscount sampleDiscount),
            mulDouble 100 (mulDouble sampleDiscount sampleDiscount),
            mulDouble 100 (mulDouble sampleDiscount sampleDiscount)]]⟩ := by rfl
    rw [hm, mulDouble_square, mulDouble_hundred_square]
    rfl
  refine ⟨roundDouble_sampleDiscount, roundDouble_hundred, h2, h1, ?_⟩
  rw [h2, h1]
  intro h
  have hcols := congrArg (fun s => s.values1.cols) (Except.ok.inj h)
  norm_num at hcols

namespace Pde1DSolver

variable {Op : Type}

/-- Closed form of `storeResults`. -/
theorem storeResults_closed (env : Collaborators Op) (s : Pde1DSolver Op) (p : ValBuf)
    (grax : GridAxis) (spot : ℚ) (h : StoreReady env s p grax spot) :
    ∃ prices : Vector,
      storeResults env s
        = .ok { s with results_ := { s.results_ with
            gridAxes := s.gridAxes_, prices := prices } }
      ∧ prices.length = s.nLayers_
      ∧ ∀ j, j < s.nLayers_ → ∃ col y, (s.deref p).cols[j]? = some col
          ∧ env.interpolate grax.Xlevels col
              (grax.coordinateChange.fromRealToDiffused spot) = .ok y
          ∧ prices[j]? = some y := by
  obtain ⟨hg, hspot, hp, hcols, hinterp⟩ := h
  obtain ⟨t, ht, prices, rfl, hlen, hlt⟩ := forLoop_inv
    (fun k (t : Pde1DSolver Op) => ∃ prices : Vector,
      t = { s with results_ := { s.results_ with gridAxes := s.gridAxes_, prices := prices } }
      ∧ prices.length = s.nLayers_
      ∧ ∀ j, j < k → ∃ col y, (s.deref p).cols[j]? = some col
          ∧ env.interpolate grax.Xlevels col
              (grax.coordinateChange.fromRealToDiffused spot) = .ok y
          ∧ prices[j]? = some y)
    (storeLayer env) s.nLayers_
    { s with results_ := { s.results_ with
        gridAxes := s.gridAxes_, prices := resize 0 s.nLayers_ s.results_.prices } }
    ⟨_, rfl, resize_length _ _ _, fun j hj => absurd hj (Nat.not_lt_zero j)⟩
    (by
      rintro k t hk ⟨prices, rfl, hlen, hlt⟩
      obtain ⟨col, hcol⟩ : ∃ col, (s.deref p).cols[k]? = some col :=
        ⟨_, List.getElem?_eq_getElem (by omega)⟩
      obtain ⟨y, hy⟩ := hinterp k col hk hcol
      have hkl : k < prices.length := by omega
      refine ⟨{ s with results_ := { s.results_ with
          gridAxes := s.gridAxes_, prices := prices.set k y } }, ?_, prices.set k y, rfl,
        by simp [hlen], ?_⟩
      · cases p
        · simp only [deref] at hcol
          simp [storeLayer, gridAxis0, index, hg, hspot, prevPtr, hp, deref, Matrix.col, hcol,
            hy, assignIndex, hkl, bind, Except.bind]
        · simp only [deref] at hcol
          simp [storeLayer, gridAxis0, index, hg, hspot, prevPtr, hp, deref, Matrix.col, hcol,
            hy, assignIndex, hkl, bind, Except.bind]
      · intro j hj
        rcases Nat.lt_succ_iff_lt_or_eq.mp hj with hlt1 | rfl
        · obtain ⟨c1, y1, h1, h2, h3⟩ := hlt j hlt1
          refine ⟨c1, y1, h1, h2, ?_⟩
          rw [List.getElem?_set_ne (by omega)]
          exact h3
        · exact ⟨col, y, hcol, hy, List.getElem?_set_self hkl⟩)
  exact ⟨prices, ht, hlen, hlt⟩

end Pde1DSolver

/-- C13. With the call defined (`StoreReady`), `storeResults` returns;
afterwards `results_.prices` has exactly `nLayers_` entries, and for every
layer `j` the entry `prices[j]` is the value at
`X0 = fromRealToDiffused(spots_[0])` of the interpolation through the points
`(Xlevels[i], prevValues(i, j))` over all grid nodes `i`, that is of
`LinearInterpolation1D(Xlevels, column j of prevValues)`. -/
theorem storeResults_prices {Op : Type} (env : Collaborators Op) (s : Pde1DSolver Op)
    (p : ValBuf) (grax : GridAxis) (spot : ℚ)
    (h : Pde1DSolver.StoreReady env s p grax spot) :
    ∃ s1, Pde1DSolver.storeResults env s = .ok s1
      ∧ s1.results_.prices.length = s.nLayers_
      ∧ (∀ j, j < s.nLayers_ → ∃ col y, (s.deref p).col j = .ok col
          ∧ env.interpolate grax.Xlevels col
              (grax.coordinateChange.fromRealToDiffused spot) = .ok y
          ∧ index s1.results_.prices j = .ok y)
      ∧ s1.values1 = s.values1 ∧ s1.values2 = s.values2
      ∧ s1.prevValues = s.prevValues := by
  obtain ⟨prices, hrun, hlen, hlt⟩ := Pde1DSolver.storeResults_closed env s p grax spot h
  refine ⟨_, hrun, hlen, ?_, rfl, rfl, rfl⟩
  intro j hj
  obtain ⟨col, y, h1, h2, h3⟩ := hlt j hj
  exact ⟨col, y, index_of_getElem _ _ _ h1, h2, index_of_getElem _ _ _ h3⟩

theorem sampleSolver_storeReady :
    Pde1DSolver.StoreReady sampleEnv sampleSolver ValBuf.values1 sampleAxis 100 := by
  refine ⟨rfl, rfl, rfl, by decide, ?_⟩
  intro j col hj hcol
  have hj0 : j = 0 := by
    have : j < 1 := hj
    omega
  subst hj0
  have hc : col = [1, 2, 4] := by
    have h1 : (sampleSolver.deref ValBuf.values1).cols[0]? = some [1, 2, 4] := rfl
    rw [h1] at hcol
    exact (Option.some.inj hcol).symm
  subst hc
  refine ⟨2, ?_⟩
  show sampleInterpolate [-1, 0, 1] [1, 2, 4] ((100 - 100) / 10) = .ok 2
  norm_num [sampleInterpolate]

/-- Sample run of C13 on the sample solver (one layer, spot 100). -/
theorem storeResults_prices_witness :
    ∃ s1, Pde1DSolver.storeResults sampleEnv sampleSolver = .ok s1
      ∧ s1.results_.prices.length = sampleSolver.nLayers_
      ∧ (∀ j, j < sampleSolver.nLayers_ → ∃ col y,
          (sampleSolver.deref ValBuf.values1).col j = .ok col
          ∧ sampleEnv.interpolate sampleAxis.Xlevels col
              (sampleAxis.coordinateChange.fromRealToDiffused 100) = .ok y
          ∧ index s1.results_.prices j = .ok y) := by
  obtain ⟨s1, h1, h2, h3, _⟩ :=
    storeResults_prices sampleEnv sampleSolver ValBuf.values1 sampleAxis 100
      sampleSolver_storeReady
  exact ⟨s1, h1, h2, h3⟩

/-! ### What each member function leaves in the results -/

namespace Pde1DSolver

variable {Op : Type}

theorem evalNode_frame (e : Nat) (fixtime : ℚ) (payTms : Vector) (k : Nat)
    (t t1 : Pde1DSolver Op) (h : evalNode e fixtime payTms k t = .ok t1) :
    t1.results_ = t.results_ ∧ t1.storeAllResults_ = t.storeAllResults_ := by
  unfold evalNode at h
  obtain ⟨grax, _, h⟩ := bind_ok _ _ _ h
  obtain ⟨spot, _, h⟩ := bind_ok _ _ _ h
  obtain ⟨p, _, h⟩ := bind_ok _ _ _ h
  obtain ⟨cv, _, h⟩ := bind_ok _ _ _ h
  obtain ⟨prod, _, h⟩ := bind_ok _ _ _ h
  obtain ⟨i, _, h⟩ := bind_ok _ _ _ h
  obtain ⟨x, _, h⟩ := bind_ok _ _ _ h
  obtain ⟨m, _, h⟩ := bind_ok _ _ _ h
  cases h
  cases p <;> exact ⟨rfl, rfl⟩

theorem evalNodes_frame (stepIdx : Nat) (s s1 : Pde1DSolver Op)
    (h : evalNodes stepIdx s = .ok s1) :
    s1.results_ = s.results_ ∧ s1.storeAllResults_ = s.storeAllResults_ := by
  unfold evalNodes at h
  obtain ⟨e, _, h⟩ := bind_ok _ _ _ h
  by_cases he : e ≥ 0
  · rw [if_pos he] at h
    obtain ⟨fixtime, _, h⟩ := bind_ok _ _ _ h
    obtain ⟨grax, _, h⟩ := bind_ok _ _ _ h
    exact forLoop_inv_of_ok
      (fun _ t => t.results_ = s.results_ ∧ t.storeAllResults_ = s.storeAllResults_)
      _ _ s s1 ⟨rfl, rfl⟩
      (fun k t t1 _ hI ht => by
        obtain ⟨h1, h2⟩ := evalNode_frame _ _ _ k t t1 ht
        exact ⟨h1.trans hI.1, h2.trans hI.2⟩) h
  · rw [if_neg he] at h
    cases h
    exact ⟨rfl, rfl⟩

theorem recordStep_frame (stepIdx : Nat) (s s1 : Pde1DSolver Op)
    (h : recordStep stepIdx s = .ok s1) :
    s1.storeAllResults_ = s.storeAllResults_
      ∧ s1.results_.gridAxes = s.results_.gridAxes
      ∧ s1.values1 = s.values1 ∧ s1.values2 = s.values2
      ∧ s1.prevValues = s.prevValues
      ∧ (s.storeAllResults_ = false → s1.results_.values = s.results_.values)
      ∧ (s.storeAllResults_ = true → ∃ q, s1.prevValues = some q
          ∧ stepIdx < s.results_.values.length
          ∧ s1.results_.values = s.results_.values.set stepIdx (s1.deref q)) := by
  unfold recordStep at h
  obtain ⟨t, _, h⟩ := bind_ok _ _ _ h
  obtain ⟨times, _, h⟩ := bind_ok _ _ _ h
  cases hb : s.storeAllResults_
  · simp only [hb] at h
    cases h
    exact ⟨rfl, rfl, rfl, rfl, rfl, fun _ => rfl, fun h => absurd h (by simp)⟩
  · simp only [hb, if_true] at h
    obtain ⟨q, hq, h⟩ := bind_ok _ _ _ h
    obtain ⟨values, hv, h⟩ := bind_ok _ _ _ h
    cases h
    have hq1 : s.prevValues = some q := by
      simp only [prevPtr] at hq
      cases hp : s.prevValues with
      | none => rw [hp] at hq; cases hq
      | some b => rw [hp] at hq; cases hq; rfl
    simp only [assignIndex] at hv
    by_cases hlen : stepIdx < s.results_.values.length
    · rw [if_pos hlen] at hv
      cases hv
      refine ⟨rfl, rfl, rfl, rfl, rfl, fun h => absurd h (by simp), fun _ => ⟨q, hq1, hlen, ?_⟩⟩
      cases q <;> rfl
    · rw [if_neg hlen] at hv
      cases hv

/-- What `evalProduct` leaves in the results, whenever it returns. -/
theorem evalProduct_results (stepIdx : Nat) (s s1 : Pde1DSolver Op)
    (h : evalProduct stepIdx s = .ok s1) :
    s1.storeAllResults_ = s.storeAllResults_
      ∧ s1.results_.gridAxes = s.results_.gridAxes
      ∧ (s.storeAllResults_ = false → s1.results_.values = s.results_.values)
      ∧ (s.storeAllResults_ = true → ∃ q, s1.prevValues = some q
          ∧ stepIdx < s.results_.values.length
          ∧ s1.results_.values = s.results_.values.set stepIdx (s1.deref q)) := by
  unfold evalProduct at h
  obtain ⟨t, ht, h⟩ := bind_ok _ _ _ h
  obtain ⟨hres, hflag⟩ := evalNodes_frame stepIdx s t ht
  obtain ⟨h1, h2, _, _, _, h6, h7⟩ := recordStep_frame stepIdx t s1 h
  rw [hflag] at h1 h6 h7
  rw [hres] at h2 h6 h7
  exact ⟨h1, h2, h6, h7⟩

theorem storeLayer_frame (env : Collaborators Op) (j : Nat) (t t1 : Pde1DSolver Op)
    (h : storeLayer env j t = .ok t1) :
    t1.storeAllResults_ = t.storeAllResults_ ∧ t1.results_.values = t.results_.values
      ∧ t1.results_.gridAxes = t.results_.gridAxes ∧ t1.results_.times = t.results_.times := by
  unfold storeLayer at h
  obtain ⟨grax, _, h⟩ := bind_ok _ _ _ h
  obtain ⟨spot, _, h⟩ := bind_ok _ _ _ h
  obtain ⟨p, _, h⟩ := bind_ok _ _ _ h
  obtain ⟨temp, _, h⟩ := bind_ok _ _ _ h
  obtain ⟨price, _, h⟩ := bind_ok _ _ _ h
  obtain ⟨prices, _, h⟩ := bind_ok _ _ _ h
  cases h
  exact ⟨rfl, rfl, rfl, rfl⟩

/-- What `storeResults` leaves in the results, whenever it returns. -/
theorem storeResults_results (env : Collaborators Op) (s s1 : Pde1DSolver Op)
    (h : storeResults env s = .ok s1) :
    s1.storeAllResults_ = s.storeAllResults_ ∧ s1.results_.values = s.results_.values
      ∧ s1.results_.gridAxes = s.gridAxes_ ∧ s1.results_.times = s.results_.times := by
  unfold storeResults at h
  exact forLoop_inv_of_ok
    (fun _ t => t.storeAllResults_ = s.storeAllResults_ ∧ t.results_.values = s.results_.values
      ∧ t.results_.gridAxes = s.gridAxes_ ∧ t.results_.times = s.results_.times)
    _ _ _ s1 ⟨rfl, rfl, rfl, rfl⟩
    (fun k t t1 _ hI ht => by
      obtain ⟨h1, h2, h3, h4⟩ := storeLayer_frame env k t t1 ht
      exact ⟨h1.trans hI.1, h2.trans hI.2.1, h3.trans hI.2.2.1, h4.trans hI.2.2.2⟩) h

/-- The call `evalProduct(stepIdx)` returns whenever it is defined. -/
theorem evalProduct_returns (s : Pde1DSolver Op) (stepIdx : Nat) (t : ℚ) (e : Int)
    (hr : RecordReady s stepIdx t) (he : s.stepindex_[stepIdx]? = some e)
    (hev : 0 ≤ e → ∃ p grax fixtime col0, EventReady s stepIdx e.toNat p grax fixtime col0) :
    ∃ s1, evalProduct stepIdx s = .ok s1 := by
  by_cases hneg : e < 0
  · obtain ⟨s1, hrec, _⟩ := recordStep_spec s stepIdx t hr
    refine ⟨s1, ?_⟩
    simp only [evalProduct, evalNodes_no_event s stepIdx e he hneg, bind, Except.bind]
    exact hrec
  · obtain ⟨p, grax, fixtime, col0, hready⟩ := hev (not_lt.mp hneg)
    obtain ⟨s1, _, _, hrun, _⟩ := evalProduct_event s stepIdx e.toNat p grax fixtime col0 t
      hready hr
    exact ⟨s1, hrun⟩

end Pde1DSolver

/-- C14, counterexample. The sample solver has `storeAllResults_ = false` and
a results object without grid axes; `storeResults` returns and the results
then hold the solver's grid axis (one axis, with `NX = 1`). -/
theorem storeResults_stores_axes_without_flag :
    sampleSolver.storeAllResults_ = false
      ∧ sampleSolver.results_.gridAxes.length = 0
      ∧ ∃ s1, Pde1DSolver.storeResults sampleEnv sampleSolver = .ok s1
          ∧ s1.results_.gridAxes.length = 1
          ∧ s1.results_.gridAxes.map (fun g => g.NX) = [1] := by
  obtain ⟨prices, hrun, _⟩ := Pde1DSolver.storeResults_closed sampleEnv sampleSolver
    ValBuf.values1 sampleAxis 100 sampleSolver_storeReady
  exact ⟨rfl, rfl, _, hrun, rfl, rfl⟩

/-- C14, amended. With the calls defined: `evalProduct` writes the snapshot of
the previous-values buffer into `results_.values[stepIdx]` when
`storeAllResults_` is true and leaves `results_.values` as it was when it is
false, and never touches the grid axes of the results; `storeResults` writes
the solver's grid axes into the results whatever the flag, and leaves
`results_.values` as it was; `initValLayers` sizes `results_.values` to the
step count whatever the flag. -/
theorem results_retention {Op : Type} (env : Collaborators Op) (s : Pde1DSolver Op)
    (stepIdx : Nat) (t : ℚ) (e : Int) (p : ValBuf) (grax : GridAxis) (spot : ℚ)
    (hr : Pde1DSolver.RecordReady s stepIdx t)
    (he : s.stepindex_[stepIdx]? = some e)
    (hev : 0 ≤ e → ∃ p grax fixtime col0,
      Pde1DSolver.EventReady s stepIdx e.toNat p grax fixtime col0)
    (hst : Pde1DSolver.StoreReady env s p grax spot)
    (hf : env.nFactors s.toPdeBase = 1) :
    (∃ s1, Pde1DSolver.evalProduct stepIdx s = .ok s1
        ∧ s1.results_.gridAxes = s.results_.gridAxes
        ∧ (s.storeAllResults_ = false → s1.results_.values = s.results_.values)
        ∧ (s.storeAllResults_ = true → ∃ q, s1.prevValues = some q
            ∧ s1.results_.values = s.results_.values.set stepIdx (s1.deref q)))
      ∧ (∃ s2, Pde1DSolver.storeResults env s = .ok s2
        ∧ s2.results_.gridAxes = s.gridAxes_
        ∧ s2.results_.values = s.results_.values)
      ∧ (∃ s3, Pde1DSolver.initValLayers env s = .ok s3
        ∧ s3.results_.values.length = s.nSteps_
        ∧ s3.results_.values = resize Matrix.empty s.nSteps_ s.results_.values
        ∧ s3.results_.gridAxes = s.results_.gridAxes) := by
  refine ⟨?_, ?_, ?_⟩
  · obtain ⟨s1, hrun⟩ := Pde1DSolver.evalProduct_returns s stepIdx t e hr he hev
    obtain ⟨_, h2, h3, h4⟩ := Pde1DSolver.evalProduct_results stepIdx s s1 hrun
    refine ⟨s1, hrun, h2, h3, fun hb => ?_⟩
    obtain ⟨q, hq, _, hv⟩ := h4 hb
    exact ⟨q, hq, hv⟩
  · obtain ⟨prices, hrun, _⟩ := Pde1DSolver.storeResults_closed env s p grax spot hst
    exact ⟨_, hrun, rfl, rfl⟩
  · exact ⟨_, Pde1DSolver.initValLayers_closed env s grax hf hst.1, resize_length _ _ _, rfl,
      rfl⟩

/-- Sample run of C14 as amended: the sample solver (flag false) at its last
time step. -/
theorem results_retention_witness :
    (∃ s1, Pde1DSolver.evalProduct 2 sampleSolver = .ok s1
        ∧ s1.results_.gridAxes = sampleSolver.results_.gridAxes
        ∧ (sampleSolver.storeAllResults_ = false →
            s1.results_.values = sampleSolver.results_.values))
      ∧ (∃ s2, Pde1DSolver.storeResults sampleEnv sampleSolver = .ok s2
        ∧ s2.results_.gridAxes = sampleSolver.gridAxes_
        ∧ s2.results_.values = sampleSolver.results_.values) := by
  obtain ⟨⟨s1, h1, h2, h3, _⟩, h4, _⟩ :=
    results_retention sampleEnv sampleSolver 2 2 1 ValBuf.values1 sampleAxis 100
      sampleSolver_recordReady rfl
      (fun _ => ⟨ValBuf.values1, sampleAxis, 2, [1, 2, 4], sampleSolver_eventReady⟩)
      sampleSolver_storeReady rfl
  exact ⟨⟨s1, h1, h2, h3⟩, h4⟩

namespace Pde1DSolver

variable {Op : Type}

theorem stepLayer_frame (env : Collaborators Op) (j : Nat) (t t1 : Pde1DSolver Op)
    (h : stepLayer env j t = .ok t1) :
    t1.results_ = t.results_ ∧ t1.storeAllResults_ = t.storeAllResults_ := by
  unfold stepLayer at h
  obtain ⟨p, _, h⟩ := bind_ok _ _ _ h
  obtain ⟨c, _, h⟩ := bind_ok _ _ _ h
  obtain ⟨v1, _, h⟩ := bind_ok _ _ _ h
  obtain ⟨w, _, h⟩ := bind_ok _ _ _ h
  obtain ⟨m2, _, h⟩ := bind_ok _ _ _ h
  obtain ⟨v2, _, h⟩ := bind_ok _ _ _ h
  obtain ⟨m1, _, h⟩ := bind_ok _ _ _ h
  cases h
  cases p <;> cases c <;> exact ⟨rfl, rfl⟩

theorem solveFromStepToStep_frame (env : Collaborators Op) (step : Int) (DT : ℚ)
    (s s1 : Pde1DSolver Op) (h : solveFromStepToStep env step DT s = .ok s1) :
    s1.results_ = s.results_ ∧ s1.storeAllResults_ = s.storeAllResults_ := by
  unfold solveFromStepToStep at h
  obtain ⟨t1, h1, h⟩ := bind_ok _ _ _ h
  obtain ⟨t2, h2, h⟩ := bind_ok _ _ _ h
  obtain ⟨t3, h3, h⟩ := bind_ok _ _ _ h
  have f1 : t1.results_ = s.results_ ∧ t1.storeAllResults_ = s.storeAllResults_ := by
    unfold buildOperators at h1
    obtain ⟨grax, _, h1⟩ := bind_ok _ _ _ h1
    cases h1
    exact ⟨rfl, rfl⟩
  have f2 : t2.results_ = t1.results_ ∧ t2.storeAllResults_ = t1.storeAllResults_ := by
    unfold adjustOperators at h2
    obtain ⟨grax, _, h2⟩ := bind_ok _ _ _ h2
    cases h2
    exact ⟨rfl, rfl⟩
  have f3 : t3.results_ = t2.results_ ∧ t3.storeAllResults_ = t2.storeAllResults_ :=
    forLoop_inv_of_ok
      (fun _ t => t.results_ = t2.results_ ∧ t.storeAllResults_ = t2.storeAllResults_)
      _ _ t2 t3 ⟨rfl, rfl⟩
      (fun k t u _ hI ht => by
        obtain ⟨g1, g2⟩ := stepLayer_frame env k t u ht
        exact ⟨g1.trans hI.1, g2.trans hI.2⟩) h3
  have f4 : s1.results_ = t3.results_ ∧ s1.storeAllResults_ = t3.storeAllResults_ := by
    unfold boundaryStep at h
    obtain ⟨p, _, h⟩ := bind_ok _ _ _ h
    cases h
    cases p <;> exact ⟨rfl, rfl⟩
  exact ⟨f4.1.trans (f3.1.trans (f2.1.trans f1.1)), f4.2.trans (f3.2.trans (f2.2.trans f1.2))⟩

theorem discountFromStepToStep_frame (df : ℚ) (s s1 : Pde1DSolver Op)
    (h : discountFromStepToStep df s = .ok s1) :
    s1.results_ = s.results_ ∧ s1.storeAllResults_ = s.storeAllResults_ := by
  unfold discountFromStepToStep at h
  obtain ⟨p, _, h⟩ := bind_ok _ _ _ h
  cases h
  cases p <;> exact ⟨rfl, rfl⟩

theorem initValLayers_frame (env : Collaborators Op) (s s1 : Pde1DSolver Op)
    (h : initValLayers env s = .ok s1) :
    s1.storeAllResults_ = s.storeAllResults_
      ∧ s1.results_.values = resize Matrix.empty s.nSteps_ s.results_.values := by
  by_cases hf : env.nFactors s.toPdeBase = 1
  · rw [initValLayers_of_one_factor env s hf] at h
    cases hg : s.gridAxes_[0]? with
    | none =>
      simp only [initValLayersBody, gridAxis0, index, hg, bind, Except.bind] at h
      cases h
    | some grax =>
      rw [initValLayersBody_closed s grax hg] at h
      cases h
      exact ⟨rfl, rfl⟩
  · rw [initValLayers_of_other_factors env s hf] at h
    cases h

/-- Without the store-all flag, no member function puts a value grid into the
results: if every entry of `results_.values` is an empty matrix, it stays so. -/
theorem reachable_values_empty (env : Collaborators Op) (s0 s : Pde1DSolver Op)
    (hreach : Reachable env s0 s) (hflag : s0.storeAllResults_ = false)
    (hvals : ∀ m ∈ s0.results_.values, m = Matrix.empty) :
    s.storeAllResults_ = false ∧ ∀ m ∈ s.results_.values, m = Matrix.empty := by
  induction hreach with
  | start => exact ⟨hflag, hvals⟩
  | base t b _ ih => exact ih
  | initValLayers t u _ hrun ih =>
    obtain ⟨h1, h2⟩ := initValLayers_frame env t u hrun
    refine ⟨h1.trans ih.1, ?_⟩
    intro m hm
    rw [h2] at hm
    simp only [resize, List.mem_append] at hm
    rcases hm with hm | hm
    · exact ih.2 m (List.mem_of_mem_take hm)
    · exact (List.mem_replicate.mp hm).2
  | evalProduct t u stepIdx _ hrun ih =>
    obtain ⟨h1, _, h3, _⟩ := evalProduct_results stepIdx t u hrun
    refine ⟨h1.trans ih.1, ?_⟩
    rw [h3 ih.1]
    exact ih.2
  | solveFromStepToStep t u step DT _ hrun ih =>
    obtain ⟨h1, h2⟩ := solveFromStepToStep_frame env step DT t u hrun
    rw [h1]
    exact ⟨h2.trans ih.1, ih.2⟩
  | discountFromStepToStep t u df _ hrun ih =>
    obtain ⟨h1, h2⟩ := discountFromStepToStep_frame df t u hrun
    rw [h1]
    exact ⟨h2.trans ih.1, ih.2⟩
  | storeResults t u _ hrun ih =>
    obtain ⟨h1, h2, _⟩ := storeResults_results env t u hrun
    rw [h2]
    exact ⟨h1.trans ih.1, ih.2⟩

end Pde1DSolver

/-- When the first stored matrix is empty, the assembled grid has one row per
recorded time and no column. -/
theorem valuesGrid_of_empty_front (results : Pde1DResults)
    (h : results.values[0]? = some Matrix.empty) :
    valuesGrid results = .ok ⟨results.times.length, []⟩ := by
  have hloop : ∀ n (v : Matrix), forLoop (fun i v => forLoop (fun j w => do
      let m ← index results.values i
      let x ← m.get j 0
      w.set i j x) 0 v) n v = .ok v := by
    intro n v
    induction n with
    | zero => rfl
    | succ n ih => rw [forLoop_succ, ih]; rfl
  simp only [valuesGrid, index_of_getElem _ _ _ h, bind, Except.bind]
  exact hloop _ _

/-- C15 (code defect). `pyQfEuroBSPDE` builds its solver with the 6-argument
constructor, hence with `storeAllResults_ = false`, on a default-constructed
results object. In every state the induction driver can reach from there,
`results_.values` holds only empty matrices, so the `Values` grid assembled
under the all-results flag, whenever it is defined, has one row per recorded
time and no column at all, instead of one column per grid node. -/
theorem euro_values_grid_has_no_columns {Op : Type} (env : Collaborators Op)
    (product : Product) (discountYieldCurve : YieldCurve) (spot divyield : ℚ)
    (svol : VolatilityTermStructure) (s : Pde1DSolver Op)
    (hreach : Pde1DSolver.Reachable env
      (Pde1DSolver.standard6 env product discountYieldCurve spot divyield svol emptyResults) s) :
    (Pde1DSolver.standard6 env product discountYieldCurve spot divyield svol
        emptyResults).storeAllResults_ = false
      ∧ s.storeAllResults_ = false
      ∧ (∀ m ∈ s.results_.values, m = Matrix.empty)
      ∧ (∀ grid, valuesGrid s.results_ = .ok grid →
          grid.n_rows = s.results_.times.length ∧ grid.n_cols = 0)
      ∧ (s.results_.values ≠ [] →
          valuesGrid s.results_ = .ok ⟨s.results_.times.length, []⟩) := by
  obtain ⟨hflag, hvals⟩ := Pde1DSolver.reachable_values_empty env _ s hreach rfl
    (fun m hm => by
      have : (Pde1DSolver.standard6 env product discountYieldCurve spot divyield svol
        emptyResults).results_.values = [] := rfl
      rw [this] at hm
      cases hm)
  have hgrid : s.results_.values ≠ [] →
      valuesGrid s.results_ = .ok ⟨s.results_.times.length, []⟩ := by
    intro hne
    cases hv : s.results_.values with
    | nil => exact absurd hv hne
    | cons m rest =>
      apply valuesGrid_of_empty_front
      rw [hv]
      have hm := hvals m (by rw [hv]; exact List.mem_cons_self m rest)
      rw [hm]
      simp
  refine ⟨rfl, hflag, hvals, ?_, hgrid⟩
  intro grid hg
  by_cases hne : s.results_.values = []
  · simp only [valuesGrid, index, hne, List.getElem?_nil, bind, Except.bind] at hg
    cases hg
  · rw [hgrid hne] at hg
    cases hg
    exact ⟨rfl, rfl⟩

/-- Sample run of C15: the solver built by the 6-argument constructor, given
the grid and the three time steps of the sample solver, initialised, and step
0 evaluated: the grid axis has 3 nodes and 3 times are recorded, and the
assembled `Values` grid has 3 rows and no column. -/
theorem euro_values_grid_has_no_columns_witness :
    ∃ s, Pde1DSolver.Reachable sampleEnv
          (Pde1DSolver.standard6 sampleEnv sampleProduct (flatCurve (1/20)) 100 0
            ⟨⟨[1], [1/5], 0⟩⟩ emptyResults) s
      ∧ s.gridAxes_.map (fun g => g.NX + 2) = [3]
      ∧ s.results_.times.length = 3
      ∧ valuesGrid s.results_ = .ok ⟨3, []⟩ := by
  have hinit : Pde1DSolver.initValLayers sampleEnv sampleEuroSolver
      = .ok sampleEuroInitialised :=
    Pde1DSolver.initValLayers_closed sampleEnv sampleEuroSolver sampleAxis rfl rfl
  have hr1 : Pde1DSolver.Reachable sampleEnv _ sampleEuroInitialised :=
    Pde1DSolver.Reachable.initValLayers _ _
      (Pde1DSolver.Reachable.base _ sampleSolver.toPdeBase Pde1DSolver.Reachable.start) hinit
  have hready : Pde1DSolver.RecordReady sampleEuroInitialised 0 0 :=
    ⟨rfl, by decide, fun h => absurd h (by decide)⟩
  obtain ⟨s1, hrec, htimes, _, _, _, _, hbase, hv, _⟩ :=
    Pde1DSolver.recordStep_spec sampleEuroInitialised 0 0 hready
  have hrun : Pde1DSolver.evalProduct 0 sampleEuroInitialised = .ok s1 := by
    simp only [Pde1DSolver.evalProduct,
      Pde1DSolver.evalNodes_no_event sampleEuroInitialised 0 (-1) (by decide) (by decide), bind,
      Except.bind]
    exact hrec
  have hr2 := Pde1DSolver.Reachable.evalProduct _ s1 0 hr1 hrun
  obtain ⟨_, _, _, _, hgrid⟩ := euro_values_grid_has_no_columns sampleEnv sampleProduct
    (flatCurve (1/20)) 100 0 ⟨⟨[1], [1/5], 0⟩⟩ s1 hr2
  have hlen : s1.results_.times.length = 3 := by
    rw [htimes]
    rfl
  have hne : s1.results_.values ≠ [] := by
    rw [hv rfl]
    decide
  refine ⟨s1, hr2, ?_, hlen, ?_⟩
  · have : s1.gridAxes_ = [sampleAxis] := by
      rw [show s1.gridAxes_ = s1.toPdeBase.gridAxes_ from rfl, hbase]
      rfl
    rw [this]
    rfl
  · rw [hgrid hne, hlen]
/-! ### Construction with a negative volatility -/

/-- The quanto constructor returns exactly when the flat vol structure can be
initialised and the product has a fixing time. -/
theorem quanto_returns_iff {Op : Type} (env : Collaborators Op) (product : Product)
    (discountYieldCurve growthYieldCurve : YieldCurve)
    (spot divyield assetVol fxVol correl : ℚ) (results : Pde1DResults)
    (storeAllResults : Bool) :
    (∃ s, Pde1DSolver.quanto env product discountYieldCurve growthYieldCurve spot divyield
          assetVol fxVol correl results storeAllResults = .ok s)
      ↔ (∃ f, env.initFromSpotVols ⟨[1], [assetVol], 0⟩ = .ok f) ∧ product.fixTimes ≠ [] := by
  constructor
  · rintro ⟨s, h⟩
    unfold Pde1DSolver.quanto at h
    obtain ⟨svol, hvol, h⟩ := bind_ok _ _ _ h
    obtain ⟨tLast, hlast, h⟩ := bind_ok _ _ _ h
    rw [create_flat] at hvol
    refine ⟨?_, ?_⟩
    · cases hf : env.initFromSpotVols ⟨[1], [assetVol], 0⟩ with
      | error e => rw [hf] at hvol; cases hvol
      | ok f => exact ⟨f, rfl⟩
    · intro hnil
      rw [hnil] at hlast
      cases hlast
  · rintro ⟨⟨f, hf⟩, hne⟩
    have hvol : VolatilityTermStructure.create env [1] [assetVol] VolType.SPOTVOL
        = .ok ⟨f⟩ := by
      rw [create_flat, hf]
      rfl
    obtain ⟨tLast, hlast⟩ : ∃ tLast, product.fixTimes.getLast? = some tLast := by
      cases hl : product.fixTimes.getLast? with
      | none => exact absurd (List.getLast?_eq_none_iff.mp hl) hne
      | some x => exact ⟨x, rfl⟩
    exact ⟨_, quanto_eq env product discountYieldCurve growthYieldCurve spot divyield assetVol
      fxVol correl results storeAllResults ⟨f⟩ tLast hvol hlast⟩

/-- C16 (code defect). The quanto constructor contains no check of its
volatilities: it returns exactly when the flat vol structure for `assetVol`
can be initialised and the product has a fixing time, whatever the FX
volatility; a negative FX volatility is stored and enters the adjusted
dividend yield. For the sample inputs with FX volatility -10% a solver is
produced, with dividend yield 5% - 2% + 0 - (1/2)(20%)(-10%) = 4%. -/
theorem quanto_accepts_negative_volatility {Op : Type} (env : Collaborators Op)
    (product : Product) (discountYieldCurve growthYieldCurve : YieldCurve)
    (spot divyield assetVol fxVol correl : ℚ) (results : Pde1DResults)
    (storeAllResults : Bool) :
    ((∃ s, Pde1DSolver.quanto env product discountYieldCurve growthYieldCurve spot divyield
          assetVol fxVol correl results storeAllResults = .ok s)
        ↔ (∃ f, env.initFromSpotVols ⟨[1], [assetVol], 0⟩ = .ok f) ∧ product.fixTimes ≠ [])
      ∧ (∀ fxVol2 : ℚ,
          (∃ s, Pde1DSolver.quanto env product discountYieldCurve growthYieldCurve spot
            divyield assetVol fxVol correl results storeAllResults = .ok s)
          ↔ (∃ s, Pde1DSolver.quanto env product discountYieldCurve growthYieldCurve spot
            divyield assetVol fxVol2 correl results storeAllResults = .ok s))
      ∧ (∃ s, Pde1DSolver.quanto sampleEnv sampleProduct (flatCurve (1/20))
            (flatCurve (1/50)) 100 0 (1/5) (-1/10) (1/2) emptyResults false = .ok s
          ∧ s.fxVol_ = some (-1/10)
          ∧ s.divyields_ = [1/25]) := by
  refine ⟨quanto_returns_iff env product discountYieldCurve growthYieldCurve spot divyield
    assetVol fxVol correl results storeAllResults, fun fxVol2 => ?_, ?_⟩
  · rw [quanto_returns_iff, quanto_returns_iff]
  · refine ⟨_, quanto_eq_standard sampleEnv sampleProduct (flatCurve (1/20))
      (flatCurve (1/50)) 100 0 (1/5) (-1/10) (1/2) emptyResults false ⟨⟨[1], [1/5], 0⟩⟩ 2 rfl
      (create_sample (1/5)) rfl, rfl, ?_⟩
    simp only [Pde1DSolver.withQuanto, Pde1DSolver.standard, Pde1DSolver.commonBody,
      Pde1DSolver.membersAfterBase, sampleEnv, flatCurve]
    norm_num

/-! ### Default parameters and the digital option -/

/-- C17. For every axis count `n`, `PdeParams(n)` has time-step count 1 (at
least 1), exactly `n` spot-node counts, each equal to 10 (at least 1), exactly
`n` standard-deviation spans, each equal to 4 (positive), and theta 0 (within
`[0, 1]`). -/
theorem pdeParams_default_valid (n : Nat) :
    (PdeParams.defaultCtor n).nTimeSteps = 1
      ∧ 1 ≤ (PdeParams.defaultCtor n).nTimeSteps
      ∧ (PdeParams.defaultCtor n).nSpotNodes.length = n
      ∧ (∀ k ∈ (PdeParams.defaultCtor n).nSpotNodes, k = 10 ∧ 1 ≤ k)
      ∧ (PdeParams.defaultCtor n).nStdDevs.length = n
      ∧ (∀ x ∈ (PdeParams.defaultCtor n).nStdDevs, x = 4 ∧ 0 < x)
      ∧ (PdeParams.defaultCtor n).theta = 0
      ∧ 0 ≤ (PdeParams.defaultCtor n).theta ∧ (PdeParams.defaultCtor n).theta ≤ 1 := by
  refine ⟨rfl, le_refl _, by simp [PdeParams.defaultCtor], ?_, by simp [PdeParams.defaultCtor],
    ?_, rfl, ?_, ?_⟩
  · intro k hk
    have := (List.mem_replicate.mp hk).2
    subst this
    exact ⟨rfl, by decide⟩
  · intro x hx
    have := (List.mem_replicate.mp hx).2
    subst this
    exact ⟨rfl, by norm_num⟩
  · simp [PdeParams.defaultCtor]
  · simp [PdeParams.defaultCtor]

namespace DigitalCallPut

theorem ctor_closed (payoffType : Int) (strike timeToExp : ℚ)
    (htype : payoffType = 1 ∨ payoffType = -1) (hK : strike > 0) (hT : timeToExp > 0) :
    ctor payoffType strike timeToExp
      = .ok { payoffType_ := payoffType, strike_ := strike, timeToExp_ := timeToExp,
              fixTimes_ := [timeToExp], payTimes_ := [timeToExp], payAmounts_ := [0] } := by
  simp [ctor, htype, hK, hT, assignIndex, resize, bind, Except.bind, pure, Except.pure]

end DigitalCallPut

/-- C18. For every strike `K > 0` (and expiry `T > 0`) the digital call
(`payoffType` 1) and the digital put (`payoffType` -1) can be constructed,
and for every spot level `S`: the path evaluator, on a path whose entry
`(0, 0)` is `S`, and the event evaluator, at event index 0 on spots whose
entry 0 is `S` and for any continuation value, both leave the pay amount
1 if `S >= K` and 0 otherwise for the call, 1 if `S <= K` and 0 otherwise for
the put; the event evaluator returns the same for any two continuation
values, and it rejects every event index other than 0. -/
theorem digital_pays_indicator (payoffType : Int) (K T S : ℚ)
    (htype : payoffType = 1 ∨ payoffType = -1) (hK : K > 0) (hT : T > 0) :
    ∃ d, DigitalCallPut.ctor payoffType K T = .ok d
      ∧ (∀ pricePath : Matrix, pricePath.get 0 0 = .ok S →
          ∃ d1, d.evalPath pricePath = .ok d1
            ∧ (payoffType = 1 → d1.payAmounts_ = [if S ≥ K then 1 else 0])
            ∧ (payoffType = -1 → d1.payAmounts_ = [if S ≤ K then 1 else 0]))
      ∧ (∀ (spots : Vector) (contValue : ℚ), spots[0]? = some S →
          ∃ d1, d.evalEvent 0 spots contValue = .ok d1
            ∧ (payoffType = 1 → d1.payAmounts_ = [if S ≥ K then 1 else 0])
            ∧ (payoffType = -1 → d1.payAmounts_ = [if S ≤ K then 1 else 0]))
      ∧ (∀ (spots : Vector) (c1 c2 : ℚ), d.evalEvent 0 spots c1 = d.evalEvent 0 spots c2)
      ∧ (∀ (idx : Nat) (spots : Vector) (contValue : ℚ), idx ≠ 0 →
          d.evalEvent idx spots contValue
            = .error (.raised "DigitalCallPut: wrong fixing time index!")) := by
  refine ⟨_, DigitalCallPut.ctor_closed payoffType K T htype hK hT, ?_, ?_, ?_, ?_⟩
  · intro pricePath hS
    rcases htype with h | h
    · subst h
      refine ⟨{ payoffType_ := 1, strike_ := K, timeToExp_ := T, fixTimes_ := [T],
                payTimes_ := [T], payAmounts_ := [if S ≥ K then 1 else 0] }, ?_, fun _ => rfl,
        fun h => absurd h (by decide)⟩
      simp [DigitalCallPut.evalPath, hS, assignIndex, bind, Except.bind]
    · subst h
      refine ⟨{ payoffType_ := -1, strike_ := K, timeToExp_ := T, fixTimes_ := [T],
                payTimes_ := [T], payAmounts_ := [if S ≤ K then 1 else 0] },
        ?_, fun h => absurd h (by decide), fun _ => rfl⟩
      simp [DigitalCallPut.evalPath, hS, assignIndex, bind, Except.bind]
  · intro spots contValue hS
    rcases htype with h | h
    · subst h
      refine ⟨{ payoffType_ := 1, strike_ := K, timeToExp_ := T, fixTimes_ := [T],
                payTimes_ := [T], payAmounts_ := [if S ≥ K then 1 else 0] }, ?_, fun _ => rfl,
        fun h => absurd h (by decide)⟩
      simp [DigitalCallPut.evalEvent, index, hS, assignIndex, bind, Except.bind, pure,
        Except.pure]
    · subst h
      refine ⟨{ payoffType_ := -1, strike_ := K, timeToExp_ := T, fixTimes_ := [T],
                payTimes_ := [T], payAmounts_ := [if S ≤ K then 1 else 0] },
        ?_, fun h => absurd h (by decide), fun _ => rfl⟩
      simp [DigitalCallPut.evalEvent, index, hS, assignIndex, bind, Except.bind, pure,
        Except.pure]
  · intro spots c1 c2
    rfl
  · intro idx spots contValue hidx
    simp [DigitalCallPut.evalEvent, hidx, bind, Except.bind, throw, throwThe,
      MonadExceptOf.throw]

/-- Sample run of C18: the digital call struck at 100, at spot 120. -/
theorem digital_pays_indicator_witness :
    ∃ d, DigitalCallPut.ctor 1 100 1 = .ok d
      ∧ (∀ (spots : Vector) (contValue : ℚ), spots[0]? = some 120 →
          ∃ d1, d.evalEvent 0 spots contValue = .ok d1
            ∧ ((1 : Int) = 1 → d1.payAmounts_ = [if (120 : ℚ) ≥ 100 then 1 else 0])) := by
  obtain ⟨d, h1, _, h3, _⟩ :=
    digital_pays_indicator 1 100 1 120 (Or.inl rfl) (by norm_num) (by norm_num)
  refine ⟨d, h1, fun spots cv hs => ?_⟩
  obtain ⟨d1, h4, h5, _⟩ := h3 spots cv hs
  exact ⟨d1, h4, h5⟩

/-! ### Rate conversions -/

theorem toContCmpd_of_pos {α : Type} [Field α] (m : CMath α) (rate : α) (n : Nat)
    (hn : 1 ≤ n) :
    toContCmpd m rate n = .ok (m.log (m.pow (1 + rate / (n : α)) (n : α))) := by
  simp [toContCmpd, hn, bind, Except.bind, pure, Except.pure]

theorem fromContCmpd_of_pos {α : Type} [Field α] (m : CMath α) (rate : α) (n : Nat)
    (hn : 1 ≤ n) :
    fromContCmpd m rate n = .ok ((m.exp (rate / (n : α)) - 1) * (n : α)) := by
  simp [fromContCmpd, hn, bind, Except.bind, pure, Except.pure]

/-- C19. Over the reals (`exp`, `log` and `pow` being the real exponential,
logarithm and power), for every compounding frequency `n >= 1`: for every
periodic rate `r` with `1 + r/n > 0`, `toContCmpd(r, n)` returns a rate that
`fromContCmpd(., n)` maps back to `r`; for every continuous rate `c`,
`fromContCmpd(c, n)` returns a rate that `toContCmpd(., n)` maps back to `c`;
and both functions raise an error when `n = 0`. -/
theorem compounding_conversions_inverse (n : Nat) (r c : ℝ) (hn : 1 ≤ n)
    (hr : 0 < 1 + r / (n : ℝ)) :
    (∃ y, toContCmpd (⟨Real.exp, Real.log, fun x y => x ^ y⟩ : CMath ℝ) r n = .ok y
        ∧ fromContCmpd (⟨Real.exp, Real.log, fun x y => x ^ y⟩ : CMath ℝ) y n = .ok r)
      ∧ (∃ y, fromContCmpd (⟨Real.exp, Real.log, fun x y => x ^ y⟩ : CMath ℝ) c n = .ok y
        ∧ toContCmpd (⟨Real.exp, Real.log, fun x y => x ^ y⟩ : CMath ℝ) y n = .ok c)
      ∧ (∀ x : ℝ, toContCmpd (⟨Real.exp, Real.log, fun x y => x ^ y⟩ : CMath ℝ) x 0
          = .error (.raised "compounding frequency less than 1 not allowed"))
      ∧ (∀ x : ℝ, fromContCmpd (⟨Real.exp, Real.log, fun x y => x ^ y⟩ : CMath ℝ) x 0
          = .error (.raised "compounding frequency less than 1 not allowed")) := by
  have hn0 : (n : ℝ) ≠ 0 := by
    have : (0 : ℝ) < n := by exact_mod_cast hn
    exact ne_of_gt this
  refine ⟨⟨_, toContCmpd_of_pos _ r n hn, ?_⟩, ⟨_, fromContCmpd_of_pos _ c n hn, ?_⟩, ?_, ?_⟩
  · rw [fromContCmpd_of_pos _ _ n hn]
    congr 1
    show (Real.exp (Real.log ((1 + r / (n : ℝ)) ^ (n : ℝ)) / (n : ℝ)) - 1) * (n : ℝ) = r
    have h1 : (n : ℝ) * Real.log (1 + r / (n : ℝ)) / (n : ℝ) = Real.log (1 + r / (n : ℝ)) := by
      field_simp
    rw [Real.rpow_natCast, Real.log_pow, h1, Real.exp_log hr]
    field_simp
  · rw [toContCmpd_of_pos _ _ n hn]
    congr 1
    show Real.log ((1 + (Real.exp (c / (n : ℝ)) - 1) * (n : ℝ) / (n : ℝ)) ^ (n : ℝ)) = c
    have h1 : 1 + (Real.exp (c / (n : ℝ)) - 1) * (n : ℝ) / (n : ℝ) = Real.exp (c / (n : ℝ)) := by
      field_simp
    rw [h1, Real.rpow_natCast, Real.log_pow, Real.log_exp]
    field_simp
  · intro x
    simp [toContCmpd, bind, Except.bind, throw, throwThe, MonadExceptOf.throw]
  · intro x
    simp [fromContCmpd, bind, Except.bind, throw, throwThe, MonadExceptOf.throw]

/-- Sample run of C19: semi-annual compounding, rate 5%. -/
theorem compounding_conversions_inverse_witness :
    (∃ y, toContCmpd (⟨Real.exp, Real.log, fun x y => x ^ y⟩ : CMath ℝ) (1/20) 2 = .ok y
        ∧ fromContCmpd (⟨Real.exp, Real.log, fun x y => x ^ y⟩ : CMath ℝ) y 2 = .ok (1/20))
      ∧ (∃ y, fromContCmpd (⟨Real.exp, Real.log, fun x y => x ^ y⟩ : CMath ℝ) (1/20) 2 = .ok y
        ∧ toContCmpd (⟨Real.exp, Real.log, fun x y => x ^ y⟩ : CMath ℝ) y 2 = .ok (1/20)) := by
  obtain ⟨h1, h2, _⟩ := compounding_conversions_inverse 2 (1/20) (1/20) (by norm_num)
    (by norm_num)
  exact ⟨h1, h2⟩

/-! ### Product of two polynomials -/

theorem addAt_spec (prod : Vector) (k : Nat) (x : ℚ) (hk : k < prod.length) :
    ∃ prod1, addAt prod k x = .ok prod1 ∧ prod1.length = prod.length
      ∧ ∀ k1, prod1.getD k1 0 = prod.getD k1 0 + (if k = k1 then x else 0) := by
  refine ⟨prod.set k (prod[k] + x), ?_, by simp, ?_⟩
  · simp [addAt, index, assignIndex, hk, List.getElem?_eq_getElem hk, bind, Except.bind]
  · intro k1
    by_cases h : k = k1
    · subst h
      simp [List.getD_eq_getElem?_getD, hk, List.getElem?_eq_getElem hk]
    · simp [List.getD_eq_getElem?_getD, List.getElem?_set_ne h, h]

theorem sum_range_succ_map (f : Nat → ℚ) (n : Nat) :
    ((List.range (n + 1)).map f).sum = ((List.range n).map f).sum + f n := by
  simp [List.range_succ]

/-- Inner loop of the accumulation, for a fixed `i`. -/
theorem polyInner_spec (pvec qvec : Vector) (i : Nat) (hi : i < pvec.length) (c : Nat)
    (hc : c ≤ qvec.length) (acc : Vector) (hacc : i + qvec.length ≤ acc.length) :
    ∃ acc1, forLoop (fun j acc1 => do
          let a ← index pvec i
          let b ← index qvec j
          addAt acc1 (i + j) (a * b)) c acc = .ok acc1
      ∧ acc1.length = acc.length
      ∧ ∀ k, acc1.getD k 0 = acc.getD k 0
          + ((List.range c).map fun j =>
              if i + j = k then pvec.getD i 0 * qvec.getD j 0 else 0).sum := by
  induction c with
  | zero => exact ⟨acc, rfl, rfl, fun k => by simp⟩
  | succ c ih =>
    obtain ⟨acc1, hrun, hlen, hval⟩ := ih (by omega)
    have hcq : c < qvec.length := by omega
    obtain ⟨acc2, hadd, hlen2, hval2⟩ := addAt_spec acc1 (i + c) (pvec[i] * qvec[c])
      (by omega)
    refine ⟨acc2, ?_, by omega, ?_⟩
    · rw [forLoop_succ, hrun]
      simp [index, List.getElem?_eq_getElem hi, List.getElem?_eq_getElem hcq, bind,
        Except.bind, hadd]
    · intro k
      rw [hval2 k, hval k, sum_range_succ_map, add_assoc]
      simp [List.getD_eq_getElem?_getD, List.getElem?_eq_getElem hi,
        List.getElem?_eq_getElem hcq]

/-- The accumulation loops compute the convolution. -/
theorem polyAccumulate_spec (pvec qvec : Vector) (acc : Vector)
    (hacc : pvec.length + qvec.length ≤ acc.length + 1) (c : Nat) (hc : c ≤ pvec.length) :
    ∃ acc1, forLoop (fun i acc => forLoop (fun j acc1 => do
          let a ← index pvec i
          let b ← index qvec j
          addAt acc1 (i + j) (a * b)) qvec.length acc) c acc = .ok acc1
      ∧ acc1.length = acc.length
      ∧ ∀ k, acc1.getD k 0 = acc.getD k 0
          + ((List.range c).map fun i =>
              ((List.range qvec.length).map fun j =>
                if i + j = k then pvec.getD i 0 * qvec.getD j 0 else 0).sum).sum := by
  induction c with
  | zero => exact ⟨acc, rfl, rfl, fun k => by simp⟩
  | succ c ih =>
    obtain ⟨acc1, hrun, hlen, hval⟩ := ih (by omega)
    obtain ⟨acc2, hrun2, hlen2, hval2⟩ := polyInner_spec pvec qvec c (by omega) qvec.length
      (le_refl _) acc1 (by omega)
    refine ⟨acc2, ?_, by omega, ?_⟩
    · rw [forLoop_succ, hrun]
      exact hrun2
    · intro k
      rw [hval2 k, hval k, sum_range_succ_map, add_assoc]

theorem lastNonZero_spec (prod : Vector) (k0 : Nat) (h : k0 < prod.length) :
    ∃ k, lastNonZero prod k0 = .ok k ∧ k ≤ k0
      ∧ (∀ k1, k < k1 → k1 ≤ k0 → prod.getD k1 0 = 0)
      ∧ (0 < k → prod.getD k 0 ≠ 0) := by
  induction k0 with
  | zero => exact ⟨0, rfl, le_refl _, fun k1 h1 h2 => by omega, fun h0 => absurd h0 (by omega)⟩
  | succ k0 ih =>
    have hget : prod[k0 + 1]? = some prod[k0 + 1] := List.getElem?_eq_getElem h
    have hD : prod.getD (k0 + 1) 0 = prod[k0 + 1] := by
      simp [List.getD_eq_getElem?_getD, hget]
    by_cases hz : prod[k0 + 1] = 0
    · obtain ⟨k, hrun, hle, hzero, hne⟩ := ih (by omega)
      refine ⟨k, ?_, by omega, ?_, hne⟩
      · simp [lastNonZero, index, hget, hz, bind, Except.bind, hrun]
      · intro k1 h1 h2
        rcases Nat.lt_or_ge k1 (k0 + 1) with h3 | h3
        · exact hzero k1 h1 (by omega)
        · have : k1 = k0 + 1 := by omega
          rw [this, hD, hz]
    · refine ⟨k0 + 1, ?_, le_refl _, fun k1 h1 h2 => by omega, fun _ => by rw [hD]; exact hz⟩
      simp [lastNonZero, index, hget, hz, bind, Except.bind]

theorem polyCopy_spec (prod : Vector) (k : Nat) (h : k < prod.length) :
    ∃ out, polyCopy prod k = .ok out ∧ out.length = k + 1
      ∧ ∀ i, i < k + 1 → out[i]? = prod[i]? := by
  obtain ⟨out, hrun, hlen, hval⟩ := forLoop_inv
    (fun c (out : Vector) => out.length = k + 1 ∧ ∀ i, i < c → out[i]? = prod[i]?)
    (fun i out => do
      let y ← index prod i
      assignIndex out i y) (k + 1) (List.replicate (k + 1) 0)
    ⟨by simp, fun i hi => absurd hi (Nat.not_lt_zero i)⟩
    (by
      rintro c out hc ⟨hlen, hval⟩
      have hcp : c < prod.length := by omega
      have hco : c < out.length := by omega
      refine ⟨out.set c prod[c], ?_, by simp [hlen], ?_⟩
      · simp [index, List.getElem?_eq_getElem hcp, assignIndex, hco, bind, Except.bind]
      · intro i hi
        rcases Nat.lt_succ_iff_lt_or_eq.mp hi with h1 | rfl
        · rw [List.getElem?_set_ne (by omega)]
          exact hval i h1
        · rw [List.getElem?_set_self hco, List.getElem?_eq_getElem hcp])
  exact ⟨out, hrun, hlen, hval⟩

theorem getD_replicate_zero (n k : Nat) : (List.replicate n (0 : ℚ)).getD k 0 = 0 := by
  simp only [List.getD_eq_getElem?_getD, List.getElem?_replicate]
  split <;> rfl

/-- C20. For non-empty coefficient lists `p` (length `m`) and `q` (length `n`),
`polyProd` returns a list `r` with at least 1 and at most `m + n - 1` entries,
whose entry `k` is the sum of `p[i] * q[j]` over `i + j = k`; every such sum
for `k` beyond the last entry of `r` is zero; the last entry of `r` is
non-zero unless `r` has length 1; and an empty `p`, or an empty `q`, is
rejected with an invalid-argument error. -/
theorem polyProd_convolution (p q : Vector) (hp : p ≠ []) (hq : q ≠ []) :
    (∃ r, pyQfPolyProd p q = .ok r
        ∧ 1 ≤ r.length ∧ r.length ≤ p.length + q.length - 1
        ∧ (∀ k, k < r.length → r[k]? = some (convCoeff p q k))
        ∧ (∀ k, r.length ≤ k → convCoeff p q k = 0)
        ∧ (1 < r.length → r[r.length - 1]? = some (convCoeff p q (r.length - 1))
            ∧ convCoeff p q (r.length - 1) ≠ 0))
      ∧ (∀ q1 : Vector, pyQfPolyProd [] q1 = .error (.invalidArgument "p vector is empty"))
      ∧ (∀ p1 : Vector, p1 ≠ [] →
          pyQfPolyProd p1 [] = .error (.invalidArgument "q vector is empty")) := by
  have hm : 0 < p.length := List.length_pos.mpr hp
  have hn : 0 < q.length := List.length_pos.mpr hq
  obtain ⟨prod, hacc, hlen, hval⟩ := polyAccumulate_spec p q
    (List.replicate (p.length + q.length - 1) 0) (by simp; omega) p.length (le_refl _)
  have hlen1 : prod.length = p.length + q.length - 1 := by simpa using hlen
  have hconv : ∀ k, prod.getD k 0 = convCoeff p q k := by
    intro k
    rw [hval k, getD_replicate_zero, zero_add]
    rfl
  obtain ⟨k, hscan, hle, hzero, hne⟩ := lastNonZero_spec prod (p.length + q.length - 1 - 1)
    (by omega)
  obtain ⟨out, hcopy, holen, hout⟩ := polyCopy_spec prod k (by omega)
  have hentry : ∀ i, i < out.length → out[i]? = some (convCoeff p q i) := by
    intro i hi
    rw [hout i (by omega), ← hconv i]
    have : i < prod.length := by omega
    simp [List.getD_eq_getElem?_getD, List.getElem?_eq_getElem this]
  refine ⟨⟨out, ?_, by omega, by omega, hentry, ?_, ?_⟩, ?_, ?_⟩
  · have h1 : p.length ≠ 0 := by omega
    have h2 : q.length ≠ 0 := by omega
    have hacc1 : polyAccumulate p q (List.replicate (p.length + q.length - 1) 0) = .ok prod :=
      hacc
    have hunfold : pyQfPolyProd p q
        = (polyAccumulate p q (List.replicate (p.length + q.length - 1) 0) >>= fun prod =>
            lastNonZero prod (p.length + q.length - 1 - 1) >>= fun k => polyCopy prod k) := by
      simp only [pyQfPolyProd, h1, h2, if_false]
      rfl
    rw [hunfold, hacc1]
    show (lastNonZero prod (p.length + q.length - 1 - 1) >>= fun k => polyCopy prod k) = _
    rw [hscan]
    exact hcopy
  · intro i hi
    rw [← hconv i]
    rcases Nat.lt_or_ge i prod.length with h1 | h1
    · exact hzero i (by omega) (by omega)
    · simp [List.getD_eq_getElem?_getD, List.getElem?_eq_none h1]
  · intro h1
    have hk : out.length - 1 = k := by omega
    rw [hk]
    refine ⟨hentry k (by omega), ?_⟩
    rw [← hconv k]
    exact hne (by omega)
  · intro q1
    simp [pyQfPolyProd, bind, Except.bind, throw, throwThe, MonadExceptOf.throw]
  · intro p1 hp1
    have : p1.length ≠ 0 := fun h => hp1 (List.length_eq_zero.mp h)
    simp [pyQfPolyProd, this, bind, Except.bind, throw, throwThe, MonadExceptOf.throw, pure,
      Except.pure]

/-- Sample runs of C20: `(1 + x)(1 - x) = 1 - x^2`, and the product of the zero
polynomial with `1 + 2x`, trimmed to the single coefficient 0. -/
theorem polyProd_convolution_witness :
    (∃ r, pyQfPolyProd [1, 1] [1, -1] = .ok r
        ∧ 1 ≤ r.length ∧ r.length ≤ 3
        ∧ (∀ k, k < r.length → r[k]? = some (convCoeff [1, 1] [1, -1] k)))
      ∧ pyQfPolyProd [1, 1] [1, -1] = .ok [1, 0, -1]
      ∧ pyQfPolyProd [0] [1, 2] = .ok [0] := by
  obtain ⟨⟨r, h1, h2, h3, h4, _⟩, _⟩ := polyProd_convolution [1, 1] [1, -1] (by simp) (by simp)
  refine ⟨⟨r, h1, h2, h3, h4⟩, ?_, ?_⟩
  · norm_num [pyQfPolyProd, polyAccumulate, forLoop, addAt, index, assignIndex, lastNonZero,
      polyCopy, bind, Except.bind, pure, Except.pure]
    rfl
  · norm_num [pyQfPolyProd, polyAccumulate, forLoop, addAt, index, assignIndex, lastNonZero,
      polyCopy, bind, Except.bind, pure, Except.pure]

/-! ### Closed-form pricers -/

theorem index_cons_zero {α : Type} (x : α) (l : List α) : index (x :: l) 0 = .ok x := by
  simp [index]

theorem fwdPrice_ok {α : Type} [LinearOrderedField α] (m : CMath α)
    (spot timeToExp intRate divYield : α) (hS : 0 ≤ spot) (hT : 0 ≤ timeToExp)
    (hr : 0 ≤ intRate) (hq : 0 ≤ divYield) :
    fwdPrice m spot timeToExp intRate divYield
      = .ok (spot * m.exp ((intRate - divYield) * timeToExp)) := by
  simp [fwdPrice, hS, hT, hr, hq]

/-- Closed form of the price entry of `europeanOptionBS` on inputs passing its assertions. -/
theorem europeanOptionBS_price {α : Type} [LinearOrderedField α] (m : CMath α) (sqrt : α → α)
    (normal : NormalDistribution α) (payoffType : Int)
    (spot strike timeToExp intRate divYield volatility : α)
    (hphi : payoffType = 1 ∨ payoffType = -1)
    (hS : 0 ≤ spot) (hK : 0 ≤ strike) (hT : 0 ≤ timeToExp)
    (hr : 0 ≤ intRate) (hq : 0 ≤ divYield) (hv : 0 ≤ volatility) :
    ∃ greeks, europeanOptionBS m sqrt normal payoffType spot strike timeToExp intRate divYield
          volatility
      = .ok (((payoffType : α) * m.exp (-intRate * timeToExp)
          * (spot * m.exp ((intRate - divYield) * timeToExp)
              * normal.cdf ((payoffType : α)
                  * (m.log (spot * m.exp ((intRate - divYield) * timeToExp) / strike)
                      / (volatility * sqrt timeToExp) + 1 / 2 * (volatility * sqrt timeToExp)))
            - strike * normal.cdf ((payoffType : α)
                  * (m.log (spot * m.exp ((intRate - divYield) * timeToExp) / strike)
                      / (volatility * sqrt timeToExp) + 1 / 2 * (volatility * sqrt timeToExp)
                      - volatility * sqrt timeToExp)))) :: greeks)
        ∧ greeks.length = 4 := by
  have hf := fwdPrice_ok m spot timeToExp intRate divYield hS hT hr hq
  exact ⟨_, by
    simp only [europeanOptionBS, hf, hphi, hK, hv, ge_iff_le, not_true_eq_false, if_false,
      bind, Except.bind, pure, Except.pure]
    rfl, by rfl⟩

/-- Closed form of `quantoEuropeanOptionBS` on inputs passing its assertions. -/
theorem quantoEuropeanOptionBS_price {α : Type} [LinearOrderedField α] (m : CMath α)
    (sqrt : α → α) (normal : NormalDistribution α) (payoffType : Int)
    (spot strike timeToExp discRate growthRate divYield assetVol fxVol correl : α)
    (hphi : payoffType = 1 ∨ payoffType = -1)
    (hS : 0 ≤ spot) (hK : 0 ≤ strike) (hT : 0 ≤ timeToExp)
    (hv : 0 ≤ assetVol) (hfx : 0 ≤ fxVol) (hc1 : -1 ≤ correl) (hc2 : correl ≤ 1) :
    quantoEuropeanOptionBS m sqrt normal payoffType spot strike timeToExp discRate growthRate
        divYield assetVol fxVol correl
      = .ok ((payoffType : α) * m.exp (-discRate * timeToExp)
          * (spot * m.exp (quantoDrift growthRate divYield correl assetVol fxVol * timeToExp)
              * normal.cdf ((payoffType : α)
                  * (m.log (spot * m.exp (quantoDrift growthRate divYield correl assetVol fxVol
                        * timeToExp) / strike)
                      / (assetVol * sqrt timeToExp) + 1 / 2 * (assetVol * sqrt timeToExp)))
            - strike * normal.cdf ((payoffType : α)
                  * (m.log (spot * m.exp (quantoDrift growthRate divYield correl assetVol fxVol
                        * timeToExp) / strike)
                      / (assetVol * sqrt timeToExp) + 1 / 2 * (assetVol * sqrt timeToExp)
                      - assetVol * sqrt timeToExp)))) := by
  simp only [quantoEuropeanOptionBS, hphi, hS, hK, hT, hv, hfx, hc1, hc2, ge_iff_le,
    and_self, not_true_eq_false, if_false, bind, Except.bind, pure, Except.pure]

/-- C25. For payoff type 1 or -1 and non-negative spot, strike, time to expiry,
rate, dividend yield, asset volatility and FX volatility, both closed-form
pricers return, and the quanto price with correlation 0 and growth rate equal
to the discount rate is entry 0 of the vector `europeanOptionBS` returns. -/
theorem quanto_closed_form_reduces_to_bs {α : Type} [LinearOrderedField α] (m : CMath α)
    (sqrt : α → α) (normal : NormalDistribution α) (payoffType : Int)
    (S K T r q vol fxVol : α)
    (hphi : payoffType = 1 ∨ payoffType = -1)
    (hS : 0 ≤ S) (hK : 0 ≤ K) (hT : 0 ≤ T) (hr : 0 ≤ r) (hq : 0 ≤ q)
    (hv : 0 ≤ vol) (hfx : 0 ≤ fxVol) :
    ∃ price v, quantoEuropeanOptionBS m sqrt normal payoffType S K T r r q vol fxVol 0
          = .ok price
      ∧ europeanOptionBS m sqrt normal payoffType S K T r q vol = .ok v
      ∧ index v 0 = .ok price := by
  obtain ⟨greeks, hv1, _⟩ := europeanOptionBS_price m sqrt normal payoffType S K T r q vol
    hphi hS hK hT hr hq hv
  refine ⟨_, _, quantoEuropeanOptionBS_price m sqrt normal payoffType S K T r r q vol fxVol 0
    hphi hS hK hT hv hfx (by norm_num) (by norm_num), hv1, ?_⟩
  simp [index, quantoDrift]

/-- Sample run of C25 over the reals: a call with spot 100, strike 90, one
year, rate 5%, dividend yield 2%, volatility 20%, FX volatility 10%. -/
theorem quanto_closed_form_reduces_to_bs_witness :
    ∃ price v, quantoEuropeanOptionBS (⟨Real.exp, Real.log, fun x y => x ^ y⟩ : CMath ℝ)
          Real.sqrt sampleNormal 1 100 90 1 (1/20) (1/20) (1/50) (1/5) (1/10) 0 = .ok price
      ∧ europeanOptionBS (⟨Real.exp, Real.log, fun x y => x ^ y⟩ : CMath ℝ)
          Real.sqrt sampleNormal 1 100 90 1 (1/20) (1/50) (1/5) = .ok v
      ∧ index v 0 = .ok price :=
  quanto_closed_form_reduces_to_bs _ _ _ 1 100 90 1 (1/20) (1/50) (1/5) (1/10)
    (by decide) (by norm_num) (by norm_num) (by norm_num) (by norm_num) (by norm_num)
    (by norm_num) (by norm_num)

theorem sampleNormal_symm {α : Type} [LinearOrderedField α] (x : α) :
    (sampleNormal : NormalDistribution α).cdf x + (sampleNormal : NormalDistribution α).cdf (-x)
      = 1 := by
  simp only [sampleNormal, abs_neg]
  ring

/-- C26. Over the reals, with a distribution function satisfying
`cdf x + cdf (-x) = 1`: for spot > 0, strike > 0, non-negative time to expiry,
rate, dividend yield and volatility, and `volatility * sqrt T > 0`, the call
and the put of `europeanOptionBS` and `fwdPrice` return, and the call price
minus the put price is `exp (-r T) * (fwdPrice - K)`, which is
`S * exp (-q T) - K * exp (-r T)`. -/
theorem put_call_parity (normal : NormalDistribution ℝ) (S K T r q vol : ℝ)
    (hsymm : ∀ x, normal.cdf x + normal.cdf (-x) = 1)
    (hS : 0 < S) (hK : 0 < K) (hT : 0 ≤ T) (hr : 0 ≤ r) (hq : 0 ≤ q) (hv : 0 ≤ vol)
    (_hsig : 0 < vol * Real.sqrt T) :
    ∃ c p fwd call put,
      europeanOptionBS (⟨Real.exp, Real.log, fun x y => x ^ y⟩ : CMath ℝ) Real.sqrt normal
          1 S K T r q vol = .ok c
      ∧ europeanOptionBS (⟨Real.exp, Real.log, fun x y => x ^ y⟩ : CMath ℝ) Real.sqrt normal
          (-1) S K T r q vol = .ok p
      ∧ fwdPrice (⟨Real.exp, Real.log, fun x y => x ^ y⟩ : CMath ℝ) S T r q = .ok fwd
      ∧ index c 0 = .ok call ∧ index p 0 = .ok put
      ∧ call - put = Real.exp (-r * T) * (fwd - K)
      ∧ call - put = S * Real.exp (-q * T) - K * Real.exp (-r * T) := by
  obtain ⟨gc, hc, _⟩ := europeanOptionBS_price (⟨Real.exp, Real.log, fun x y => x ^ y⟩ : CMath ℝ)
    Real.sqrt normal 1 S K T r q vol (Or.inl rfl) hS.le hK.le hT hr hq hv
  obtain ⟨gp, hp, _⟩ := europeanOptionBS_price (⟨Real.exp, Real.log, fun x y => x ^ y⟩ : CMath ℝ)
    Real.sqrt normal (-1) S K T r q vol (Or.inr rfl) hS.le hK.le hT hr hq hv
  refine ⟨_, _, _, _, _, hc, hp, fwdPrice_ok _ S T r q hS.le hT hr hq,
    index_cons_zero _ _, index_cons_zero _ _, ?_, ?_⟩
  · have h1 := hsymm (Real.log (S * Real.exp ((r - q) * T) / K) / (vol * Real.sqrt T)
      + 1 / 2 * (vol * Real.sqrt T))
    have h2 := hsymm (Real.log (S * Real.exp ((r - q) * T) / K) / (vol * Real.sqrt T)
      + 1 / 2 * (vol * Real.sqrt T) - vol * Real.sqrt T)
    push_cast
    simp only [one_mul, neg_one_mul]
    linear_combination (Real.exp (-r * T) * (S * Real.exp ((r - q) * T))) * h1
      - (Real.exp (-r * T) * K) * h2
  · have h1 := hsymm (Real.log (S * Real.exp ((r - q) * T) / K) / (vol * Real.sqrt T)
      + 1 / 2 * (vol * Real.sqrt T))
    have h2 := hsymm (Real.log (S * Real.exp ((r - q) * T) / K) / (vol * Real.sqrt T)
      + 1 / 2 * (vol * Real.sqrt T) - vol * Real.sqrt T)
    have h3 : Real.exp (-r * T) * Real.exp ((r - q) * T) = Real.exp (-q * T) := by
      rw [← Real.exp_add]
      congr 1
      ring
    push_cast
    simp only [one_mul, neg_one_mul]
    linear_combination (Real.exp (-r * T) * (S * Real.exp ((r - q) * T))) * h1
      - (Real.exp (-r * T) * K) * h2 + S * h3

/-- Sample run of C26: spot 100, strike 90, one year, rate 5%, dividend yield
2%, volatility 20%, with the sample distribution function. -/
theorem put_call_parity_witness :
    ∃ c p fwd call put,
      europeanOptionBS (⟨Real.exp, Real.log, fun x y => x ^ y⟩ : CMath ℝ) Real.sqrt sampleNormal
          1 100 90 1 (1/20) (1/50) (1/5) = .ok c
      ∧ europeanOptionBS (⟨Real.exp, Real.log, fun x y => x ^ y⟩ : CMath ℝ) Real.sqrt
          sampleNormal (-1) 100 90 1 (1/20) (1/50) (1/5) = .ok p
      ∧ fwdPrice (⟨Real.exp, Real.log, fun x y => x ^ y⟩ : CMath ℝ) 100 1 (1/20) (1/50) = .ok fwd
      ∧ index c 0 = .ok call ∧ index p 0 = .ok put
      ∧ call - put = Real.exp (-(1/20) * 1) * (fwd - 90)
      ∧ call - put = 100 * Real.exp (-(1/50) * 1) - 90 * Real.exp (-(1/20) * 1) :=
  put_call_parity sampleNormal 100 90 1 (1/20) (1/50) (1/5) sampleNormal_symm
    (by norm_num) (by norm_num) (by norm_num) (by norm_num) (by norm_num) (by norm_num)
    (by rw [Real.sqrt_one]; norm_num)

/-! ### The credit default swap -/

theorem index_of_lt {α : Type} (v : List α) (i : Nat) (h : i < v.length) :
    index v i = .ok v[i] := by
  simp [index, List.getElem?_eq_getElem h]

theorem assignIndex_of_lt {α : Type} (v : List α) (i : Nat) (x : α) (h : i < v.length) :
    assignIndex v i x = .ok (v.set i x) := by
  simp [assignIndex, h]

theorem index_set_self {α : Type} (v : List α) (i : Nat) (x : α) (h : i < v.length) :
    index (v.set i x) i = .ok x := by
  simp [index, List.getElem?_set_self h]

/-- The pay times after the first loop of `cdsPV`: entry `k` is the maturity
less `npay - 1 - k` periods. -/
theorem cdsPayTimes_spec {α : Type} [LinearOrderedField α] (npay : Nat) (DeltaT T : α) :
    ∃ pt, cdsPayTimes npay DeltaT (List.replicate npay T) = .ok pt ∧ pt.length = npay
      ∧ ∀ k, k < npay → pt[k]? = some (T - ((npay - 1 - k : Nat) : α) * DeltaT) := by
  obtain ⟨pt, hrun, hlen, hval⟩ := forLoop_inv
    (fun c (pt : List α) => pt.length = npay ∧ ∀ k, k < npay →
      pt[k]? = some (if npay - 1 - k < c then T - ((npay - 1 - k : Nat) : α) * DeltaT else T))
    (fun i pt => do
      let x ← index pt (npay - i - 1)
      assignIndex pt (npay - i - 1) (x - (i : α) * DeltaT)) npay (List.replicate npay T)
    ⟨by simp, fun k hk => by simp [hk]⟩
    (by
      rintro c pt hc ⟨hlen, hval⟩
      have hj : npay - c - 1 < pt.length := by omega
      have hx : pt[npay - c - 1]? = some T := by
        rw [hval _ (by omega), if_neg (by omega)]
      have hx1 : pt[npay - c - 1] = T := by
        rw [List.getElem?_eq_getElem hj] at hx
        exact Option.some.inj hx
      refine ⟨pt.set (npay - c - 1) (T - (c : α) * DeltaT), ?_, by simp [hlen], ?_⟩
      · simp [index, hx, assignIndex, hj, bind, Except.bind]
      · intro k hk
        by_cases hkc : k = npay - c - 1
        · subst hkc
          rw [List.getElem?_set_self hj, if_pos (by omega)]
          have : npay - 1 - (npay - c - 1) = c := by omega
          rw [this]
        · rw [List.getElem?_set_ne (fun h => hkc h.symm), hval k hk]
          by_cases h1 : npay - 1 - k < c
          · rw [if_pos h1, if_pos (by omega)]
          · rw [if_neg h1, if_neg (by omega)])
  refine ⟨pt, hrun, hlen, fun k hk => ?_⟩
  rw [hval k hk, if_pos (by omega)]

theorem cdsSurvProb_total {α : Type} [LinearOrderedField α] (m : CMath α)
    (credSprd recov epsilon : α) (paytimes : List α) (npay : Nat) (survprob : List α)
    (hp : paytimes.length = npay) (hs : survprob.length = npay) :
    ∃ sp, cdsSurvProb m credSprd recov epsilon paytimes npay survprob = .ok sp
      ∧ sp.length = npay := by
  refine forLoop_inv (fun _ (sp : List α) => sp.length = npay) _ npay survprob hs ?_
  intro c sp hc hlen
  have h1 : c < paytimes.length := by omega
  have h2 : c < sp.length := by omega
  have h3 : ∀ a : α, c < (sp.set c a).length := fun a => by simpa using h2
  have h4 : ∀ a b : α, c < ((sp.set c a).set c b).length := fun a b => by simpa using h2
  exact ⟨_, by
    simp only [index_of_lt _ _ h1, assignIndex_of_lt _ _ _ h2, assignIndex_of_lt _ _ _ (h3 _),
      assignIndex_of_lt _ _ _ (h4 _ _), index_set_self _ _ _ h2, index_set_self _ _ _ (h3 _),
      bind, Except.bind]
    rfl, by simp [hlen]⟩

theorem cdsLegs_total {α : Type} [LinearOrderedField α] (discount : α → Result α)
    (cdsRate recov : α) (paytimes survprob : List α) (npay : Nat)
    (hp : paytimes.length = npay) (hs : survprob.length = npay)
    (hd : ∀ t ∈ paytimes, ∃ d, discount t = .ok d) :
    ∃ legs, cdsLegs discount cdsRate recov paytimes survprob npay = .ok legs := by
  obtain ⟨legs, hrun, _⟩ := forLoop_inv (fun _ (_ : α × α) => True)
    (fun i acc => do
      let t ← index paytimes i
      let df ← discount t
      let DeltaT ← if i = 0 then index paytimes i else do
        let a ← index paytimes i
        let b ← index paytimes (i - 1)
        pure (a - b)
      let sp ← index survprob i
      let pvpl := acc.1 + cdsRate * DeltaT * sp * df
      let defprob ← if i = 0 then do
          let a ← index survprob i
          pure (1 - a)
        else do
          let a ← index survprob (i - 1)
          let b ← index survprob i
          pure (a - b)
      let pvdl := acc.2 + (1 - recov) * defprob * df
      pure (pvpl, pvdl)) npay (0, 0) trivial
    (by
      intro c acc hc _
      have h1 : c < paytimes.length := by omega
      have h2 : c < survprob.length := by omega
      have h3 : c - 1 < paytimes.length := by omega
      have h4 : c - 1 < survprob.length := by omega
      obtain ⟨d, hdd⟩ := hd paytimes[c] (List.getElem_mem h1)
      by_cases h0 : c = 0
      · subst h0
        exact ⟨_, by
          simp only [index_of_lt _ _ h1, index_of_lt _ _ h2, hdd, if_true, bind, Except.bind,
            pure, Except.pure]
          rfl, trivial⟩
      · exact ⟨_, by
          simp only [index_of_lt _ _ h1, index_of_lt _ _ h2, index_of_lt _ _ h3,
            index_of_lt _ _ h4, hdd, h0, if_false, bind, Except.bind, pure, Except.pure]
          rfl, trivial⟩)
  exact ⟨legs, hrun⟩

/-- Every pay time of `cdsPV` is positive: the number of periods is the ceiling
of `timeToMat * payFreq`. -/
theorem cds_paytime_pos {α : Type} [LinearOrderedField α] [FloorRing α] (T : α) (payFreq : Nat)
    (hf : 1 ≤ payFreq) (k : Nat) (hk : k < Nat.ceil (T * (payFreq : α))) :
    0 < T - ((Nat.ceil (T * (payFreq : α)) - 1 - k : Nat) : α) * (1 / (payFreq : α)) := by
  have hfp : (0 : α) < (payFreq : α) := by exact_mod_cast hf
  have h1 : Nat.ceil (T * (payFreq : α)) - 1 < Nat.ceil (T * (payFreq : α)) := by omega
  have h2 : ((Nat.ceil (T * (payFreq : α)) - 1 : Nat) : α) < T * (payFreq : α) :=
    Nat.lt_ceil.mp h1
  have h3 : ((Nat.ceil (T * (payFreq : α)) - 1 - k : Nat) : α)
      ≤ ((Nat.ceil (T * (payFreq : α)) - 1 : Nat) : α) := by
    exact_mod_cast Nat.sub_le _ _
  have h4 : ((Nat.ceil (T * (payFreq : α)) - 1 - k : Nat) : α) * (1 / (payFreq : α)) < T := by
    rw [mul_one_div, div_lt_iff₀ hfp]
    exact lt_of_le_of_lt h3 h2
  linarith

/-- The function `cdsPV` returns a vector of two entries on every input that
passes its assertions, as long as the curve discounts every positive time. -/
theorem cdsPV_returns {α : Type} [LinearOrderedField α] [FloorRing α] (m : CMath α)
    (discount : α → Result α) (credSprd cdsRate recov timeToMat : α) (payFreq : Nat)
    (hdisc : ∀ t, 0 < t → ∃ d, discount t = .ok d)
    (hs : 0 < credSprd) (hrate : 0 ≤ cdsRate) (hrec : 0 ≤ recov ∧ recov ≤ 1)
    (hT : 0 ≤ timeToMat) (hf : 1 ≤ payFreq) :
    ∃ v, cdsPV m discount credSprd cdsRate recov timeToMat payFreq = .ok v ∧ v.length = 2 := by
  by_cases hn : Nat.ceil (timeToMat * (payFreq : α)) = 0
  · refine ⟨[0, 0], ?_, rfl⟩
    simp only [cdsPV, hs, hrate, hrec, hT, hf, hn, gt_iff_lt, ge_iff_le, and_self,
      not_true_eq_false, if_false, if_true, bind, Except.bind, pure, Except.pure]
  · obtain ⟨pt, hpt, hlen, hval⟩ := cdsPayTimes_spec (Nat.ceil (timeToMat * (payFreq : α)))
      (1 / (payFreq : α)) timeToMat
    obtain ⟨sp, hsp, hslen⟩ := cdsSurvProb_total m credSprd recov (1 / 10 ^ 12) pt
      (Nat.ceil (timeToMat * (payFreq : α)))
      (List.replicate (Nat.ceil (timeToMat * (payFreq : α))) 1) hlen (by simp)
    obtain ⟨legs, hlegs⟩ := cdsLegs_total discount cdsRate recov pt sp
      (Nat.ceil (timeToMat * (payFreq : α))) hlen hslen (by
        intro t ht
        obtain ⟨k, hk, rfl⟩ := List.getElem_of_mem ht
        have hk1 : k < Nat.ceil (timeToMat * (payFreq : α)) := by omega
        have := hval k hk1
        rw [List.getElem?_eq_getElem hk] at this
        rw [Option.some.inj this]
        exact hdisc _ (cds_paytime_pos timeToMat payFreq hf k hk1))
    refine ⟨[legs.2, legs.1], ?_, rfl⟩
    simp only [cdsPV, hs, hrate, hrec, hT, hf, hn, gt_iff_lt, ge_iff_le, and_self,
      not_true_eq_false, if_false, bind, Except.bind, pure, Except.pure, hpt, hsp, hlegs]

/-- C21. The function `cdsPV` raises on every credit spread that is not
strictly positive, a spread of exactly 0 included, whatever the other
arguments; on a positive spread with the other arguments valid (and a curve
that discounts every positive time) it returns its two present values. -/
theorem cdsPV_spread_assertion {α : Type} [LinearOrderedField α] [FloorRing α] (m : CMath α)
    (discount : α → Result α) (credSprd cdsRate recov timeToMat : α) (payFreq : Nat)
    (hdisc : ∀ t, 0 < t → ∃ d, discount t = .ok d)
    (hrate : 0 ≤ cdsRate) (hrec : 0 ≤ recov ∧ recov ≤ 1)
    (hT : 0 ≤ timeToMat) (hf : 1 ≤ payFreq) :
    (credSprd ≤ 0 → cdsPV m discount credSprd cdsRate recov timeToMat payFreq
        = .error (.raised "credit spread must be non-negative"))
      ∧ (0 < credSprd →
          ∃ v, cdsPV m discount credSprd cdsRate recov timeToMat payFreq = .ok v
            ∧ v.length = 2) := by
  refine ⟨fun h => ?_, fun h => cdsPV_returns m discount credSprd cdsRate recov timeToMat
    payFreq hdisc h hrate hrec hT hf⟩
  have : ¬ (0 < credSprd) := not_lt.mpr h
  simp [cdsPV, this, bind, Except.bind, throw, throwThe, MonadExceptOf.throw]

/-- The failing input of C21: a credit spread of exactly 0 with a 5% flat
curve, CDS rate 1%, recovery 40%, five years, quarterly payments. -/
theorem cdsPV_spread_assertion_witness :
    cdsPV (⟨Real.exp, Real.log, fun x y => x ^ y⟩ : CMath ℝ)
        (fun t => .ok (Real.exp (-(1/20) * t))) 0 (1/100) (2/5) 5 4
      = .error (.raised "credit spread must be non-negative") :=
  (cdsPV_spread_assertion (⟨Real.exp, Real.log, fun x y => x ^ y⟩ : CMath ℝ)
    (fun t => .ok (Real.exp (-(1/20) * t))) 0 (1/100) (2/5) 5 4
    (fun t _ => ⟨_, rfl⟩) (by norm_num) (by norm_num) (by norm_num) (by norm_num)).1 (le_refl 0)

/-! ### Spectral truncation -/

namespace MatrixOf

theorem get_of_lt {α : Type} (m : MatrixOf α) (i j : Nat) (hi : i < m.n_rows)
    (hj : j < m.n_cols) : m.get i j = .ok (m.entry i j) := by
  simp [get, hi, hj]

theorem set_of_lt {α : Type} (m : MatrixOf α) (i j : Nat) (x : α) (hi : i < m.n_rows)
    (hj : j < m.n_cols) :
    m.set i j x = .ok { m with entry := fun a b => if a = i ∧ b = j then x else m.entry a b } := by
  simp [set, hi, hj]

end MatrixOf

/-- After column `j` has been scaled down to row `i`, the accumulated squares
of the rows above `i` include column `j`, those of the other rows do not. -/
theorem scaleColumn_spec {α : Type} [LinearOrderedField α] (tmp : α) (j n : Nat)
    (w : SpectralWork α) (hj : j < n)
    (hr : w.myEigenvectors.n_rows = n) (hc : w.myEigenvectors.n_cols = n)
    (hv : w.myEigenvalues.length = n) (hl : w.coeffcorrection.length = n)
    (hsum : ∀ a, a < n → w.coeffcorrection[a]?
      = some (∑ k in Finset.range j, w.myEigenvectors.entry a k ^ 2)) :
    ∃ w1, scaleColumn tmp j n w = .ok w1
      ∧ w1.myEigenvectors.n_rows = n ∧ w1.myEigenvectors.n_cols = n
      ∧ w1.myEigenvalues.length = n ∧ w1.coeffcorrection.length = n
      ∧ ∀ a, a < n → w1.coeffcorrection[a]?
          = some (∑ k in Finset.range (j + 1), w1.myEigenvectors.entry a k ^ 2) := by
  obtain ⟨w1, hrun, hr1, hc1, hv1, hl1, hlow, _⟩ := forLoop_inv
    (fun i (w1 : SpectralWork α) =>
      w1.myEigenvectors.n_rows = n ∧ w1.myEigenvectors.n_cols = n
      ∧ w1.myEigenvalues.length = n ∧ w1.coeffcorrection.length = n
      ∧ (∀ a, a < i → w1.coeffcorrection[a]?
          = some (∑ k in Finset.range (j + 1), w1.myEigenvectors.entry a k ^ 2))
      ∧ (∀ a, i ≤ a → a < n → w1.coeffcorrection[a]?
          = some (∑ k in Finset.range j, w1.myEigenvectors.entry a k ^ 2)))
    (fun i w1 => do
      let v ← w1.myEigenvectors.get i j
      let tmp2 := v * tmp
      let vecs ← w1.myEigenvectors.set i j tmp2
      let c ← index w1.coeffcorrection i
      let coeff ← assignIndex w1.coeffcorrection i (c + tmp2 * tmp2)
      pure { w1 with myEigenvectors := vecs, coeffcorrection := coeff }) n w
    ⟨hr, hc, hv, hl, fun a ha => absurd ha (Nat.not_lt_zero a), fun a _ ha => hsum a ha⟩
    (by
      rintro i t hi ⟨hr1, hc1, hv1, hl1, hlow, hhigh⟩
      have hi1 : i < t.myEigenvectors.n_rows := by omega
      have hj1 : j < t.myEigenvectors.n_cols := by omega
      have hi2 : i < t.coeffcorrection.length := by omega
      have hci := hhigh i (le_refl i) hi
      have hidx : index t.coeffcorrection i
          = .ok (∑ k in Finset.range j, t.myEigenvectors.entry i k ^ 2) := by
        simp [index, hci]
      refine ⟨{ t with
          myEigenvectors := { t.myEigenvectors with
            entry := fun a b => if a = i ∧ b = j then t.myEigenvectors.entry i j * tmp
              else t.myEigenvectors.entry a b }
          coeffcorrection := t.coeffcorrection.set i
            ((∑ k in Finset.range j, t.myEigenvectors.entry i k ^ 2)
              + t.myEigenvectors.entry i j * tmp * (t.myEigenvectors.entry i j * tmp)) },
        ?_, hr1, hc1, hv1, by simp [hl1], ?_, ?_⟩
      · simp only [MatrixOf.get_of_lt _ _ _ hi1 hj1, MatrixOf.set_of_lt _ _ _ _ hi1 hj1, hidx,
          assignIndex_of_lt _ _ _ hi2, bind, Except.bind, pure, Except.pure]
      · intro a ha
        rcases Nat.lt_succ_iff_lt_or_eq.mp ha with h1 | rfl
        · rw [List.getElem?_set_ne (by omega), hlow a h1]
          congr 1
          refine Finset.sum_congr rfl fun k _ => ?_
          have : ¬ (a = i ∧ k = j) := fun h => by omega
          simp only [this, if_false]
        · rw [List.getElem?_set_self hi2, Finset.sum_range_succ]
          congr 1
          have hsame : ∑ k in Finset.range j,
              (if a = a ∧ k = j then t.myEigenvectors.entry a j * tmp
                else t.myEigenvectors.entry a k) ^ 2
              = ∑ k in Finset.range j, t.myEigenvectors.entry a k ^ 2 := by
            refine Finset.sum_congr rfl fun k hk => ?_
            have : ¬ (a = a ∧ k = j) := fun h => by
              have := Finset.mem_range.mp hk
              omega
            rw [if_neg this]
          dsimp only
          rw [hsame, if_pos ⟨rfl, rfl⟩]
          ring
      · intro a ha1 ha2
        rw [List.getElem?_set_ne (by omega), hhigh a (by omega) ha2]
        congr 1
        refine Finset.sum_congr rfl fun k _ => ?_
        have : ¬ (a = i ∧ k = j) := fun h => by omega
        simp only [this, if_false])
  exact ⟨w1, hrun, hr1, hc1, hv1, hl1, fun a ha => hlow a ha⟩

/-- After the scaling loop, `coeffcorrection[a]` is the squared norm of row `a`
of the scaled eigenvectors. -/
theorem scaleEigenvectors_spec {α : Type} [LinearOrderedField α] (sqrt : α → α) (tol : α)
    (n : Nat) (w : SpectralWork α)
    (hr : w.myEigenvectors.n_rows = n) (hc : w.myEigenvectors.n_cols = n)
    (hv : w.myEigenvalues.length = n) (hz : w.coeffcorrection = List.replicate n 0) :
    ∃ w1, scaleEigenvectors sqrt tol n w = .ok w1
      ∧ w1.myEigenvectors.n_rows = n ∧ w1.myEigenvectors.n_cols = n
      ∧ w1.coeffcorrection.length = n
      ∧ ∀ a, a < n → w1.coeffcorrection[a]?
          = some (∑ k in Finset.range n, w1.myEigenvectors.entry a k ^ 2) := by
  obtain ⟨w1, hrun, hr1, hc1, _, hl1, hsum⟩ := forLoop_inv
    (fun j (w1 : SpectralWork α) =>
      w1.myEigenvectors.n_rows = n ∧ w1.myEigenvectors.n_cols = n
      ∧ w1.myEigenvalues.length = n ∧ w1.coeffcorrection.length = n
      ∧ ∀ a, a < n → w1.coeffcorrection[a]?
          = some (∑ k in Finset.range j, w1.myEigenvectors.entry a k ^ 2))
    (fun j w => do
      let lam ← index w.myEigenvalues j
      let root := sqrt (max lam 0)
      let vals ← assignIndex w.myEigenvalues j root
      let tmp := max root (sqrt tol)
      scaleColumn tmp j n { w with myEigenvalues := vals }) n w
    ⟨hr, hc, hv, by simp [hz], fun a ha => by simp [hz, ha]⟩
    (by
      rintro j t hj ⟨hr1, hc1, hv1, hl1, hsum⟩
      have hj1 : j < t.myEigenvalues.length := by omega
      obtain ⟨w2, hrun2, h2⟩ := scaleColumn_spec
        (max (sqrt (max t.myEigenvalues[j] 0)) (sqrt tol)) j n
        { t with myEigenvalues := t.myEigenvalues.set j (sqrt (max t.myEigenvalues[j] 0)) }
        hj hr1 hc1 (by simp [hv1]) hl1 hsum
      refine ⟨w2, ?_, h2⟩
      simp only [index_of_lt _ _ hj1, assignIndex_of_lt _ _ _ hj1, bind, Except.bind]
      exact hrun2)
  exact ⟨w1, hrun, hr1, hc1, hl1, hsum⟩

/-- Loop rule for a body that either returns, carrying the invariant, or fails with `e`. -/
theorem forLoop_inv_or {σ : Type} (I : Nat → σ → Prop) (body : Nat → σ → Result σ) (n : Nat)
    (s : σ) (e : Fault) (h0 : I 0 s)
    (hstep : ∀ k t, k < n → I k t →
      body k t = .error e ∨ ∃ t1, body k t = .ok t1 ∧ I (k + 1) t1) :
    forLoop body n s = .error e ∨ ∃ s1, forLoop body n s = .ok s1 ∧ I n s1 := by
  induction n with
  | zero => exact Or.inr ⟨s, rfl, h0⟩
  | succ n ih =>
    rcases ih (fun k t hk => hstep k t (Nat.lt_succ_of_lt hk)) with herr | ⟨t, ht, hI⟩
    · left
      rw [forLoop_succ, herr]
      rfl
    · rw [forLoop_succ, ht]
      exact hstep n t (Nat.lt_succ_self n) hI

/-- Dividing row `i`: its entries are divided by `coeffcorrection[i]`, the other rows are kept. -/
theorem divideRow_spec {α : Type} [LinearOrderedField α] (i n : Nat) (w : SpectralWork α)
    (d : α) (hi : i < n)
    (hr : w.myEigenvectors.n_rows = n) (hc : w.myEigenvectors.n_cols = n)
    (hd : w.coeffcorrection[i]? = some d) :
    ∃ w1, divideRow i n w = .ok w1
      ∧ w1.myEigenvectors.n_rows = n ∧ w1.myEigenvectors.n_cols = n
      ∧ w1.coeffcorrection = w.coeffcorrection
      ∧ (∀ k, k < n → w1.myEigenvectors.entry i k = w.myEigenvectors.entry i k / d)
      ∧ (∀ a k, a ≠ i → w1.myEigenvectors.entry a k = w.myEigenvectors.entry a k) := by
  obtain ⟨w1, hrun, hr1, hc1, hco, hlow, _, hrest⟩ := forLoop_inv
    (fun j (w1 : SpectralWork α) =>
      w1.myEigenvectors.n_rows = n ∧ w1.myEigenvectors.n_cols = n
      ∧ w1.coeffcorrection = w.coeffcorrection
      ∧ (∀ k, k < j → w1.myEigenvectors.entry i k = w.myEigenvectors.entry i k / d)
      ∧ (∀ k, j ≤ k → w1.myEigenvectors.entry i k = w.myEigenvectors.entry i k)
      ∧ (∀ a k, a ≠ i → w1.myEigenvectors.entry a k = w.myEigenvectors.entry a k))
    (fun j w1 => do
      let v ← w1.myEigenvectors.get i j
      let d ← index w1.coeffcorrection i
      let vecs ← w1.myEigenvectors.set i j (v / d)
      pure { w1 with myEigenvectors := vecs }) n w
    ⟨hr, hc, rfl, fun k hk => absurd hk (Nat.not_lt_zero k), fun _ _ => rfl, fun _ _ _ => rfl⟩
    (by
      rintro j t hj ⟨hr1, hc1, hco, hlow, hhigh, hrest⟩
      have hi1 : i < t.myEigenvectors.n_rows := by omega
      have hj1 : j < t.myEigenvectors.n_cols := by omega
      have hidx : index t.coeffcorrection i = .ok d := by
        simp [index, hco, hd]
      refine ⟨{ t with
          myEigenvectors := { t.myEigenvectors with
            entry := fun a b => if a = i ∧ b = j then t.myEigenvectors.entry i j / d
              else t.myEigenvectors.entry a b } },
        ?_, hr1, hc1, hco, ?_, ?_, ?_⟩
      · simp only [MatrixOf.get_of_lt _ _ _ hi1 hj1, MatrixOf.set_of_lt _ _ _ _ hi1 hj1, hidx,
          bind, Except.bind, pure, Except.pure]
      · intro k hk
        dsimp only
        rcases Nat.lt_succ_iff_lt_or_eq.mp hk with h1 | rfl
        · rw [if_neg (fun h => by omega), hlow k h1]
        · rw [if_pos ⟨rfl, rfl⟩, hhigh k (le_refl k)]
      · intro k hk
        dsimp only
        rw [if_neg (fun h => by omega), hhigh k (by omega)]
      · intro a k ha
        dsimp only
        rw [if_neg (fun h => ha h.1), hrest a k ha])
  exact ⟨w1, hrun, hr1, hc1, hco, hlow, hrest⟩

/-- The normalising loop either raises its assertion or leaves every row of
the eigenvectors with squared norm 1. -/
theorem normaliseRows_spec {α : Type} [LinearOrderedField α] (sqrt : α → α)
    (hsqrt : ∀ x, 0 ≤ x → sqrt x * sqrt x = x) (n : Nat) (w : SpectralWork α)
    (hr : w.myEigenvectors.n_rows = n) (hc : w.myEigenvectors.n_cols = n)
    (hl : w.coeffcorrection.length = n)
    (hsum : ∀ a, a < n → w.coeffcorrection[a]?
      = some (∑ k in Finset.range n, w.myEigenvectors.entry a k ^ 2)) :
    normaliseRows sqrt n w
        = .error (.raised "spectrunc: zero eigenvector in correlation matrix!")
      ∨ ∃ w1, normaliseRows sqrt n w = .ok w1
        ∧ w1.myEigenvectors.n_rows = n ∧ w1.myEigenvectors.n_cols = n
        ∧ ∀ a, a < n → ∑ k in Finset.range n, w1.myEigenvectors.entry a k ^ 2 = 1 := by
  have key := forLoop_inv_or
    (fun i (w1 : SpectralWork α) =>
      w1.myEigenvectors.n_rows = n ∧ w1.myEigenvectors.n_cols = n
      ∧ w1.coeffcorrection.length = n
      ∧ (∀ a, a < i → ∑ k in Finset.range n, w1.myEigenvectors.entry a k ^ 2 = 1)
      ∧ (∀ a, i ≤ a → a < n → w1.coeffcorrection[a]?
          = some (∑ k in Finset.range n, w1.myEigenvectors.entry a k ^ 2)))
    (fun i w => do
      let c ← index w.coeffcorrection i
      let coeff ← assignIndex w.coeffcorrection i (sqrt c)
      let ci ← index coeff i
      if ¬ (ci ≠ 0) then
        throw (.raised "spectrunc: zero eigenvector in correlation matrix!")
      divideRow i n { w with coeffcorrection := coeff }) n w
    (.raised "spectrunc: zero eigenvector in correlation matrix!")
    ⟨hr, hc, hl, fun a ha => absurd ha (Nat.not_lt_zero a), fun a _ ha => hsum a ha⟩
    (by
      rintro i t hi ⟨hr1, hc1, hl1, hlow, hhigh⟩
      have hi2 : i < t.coeffcorrection.length := by omega
      obtain ⟨q, hq⟩ : ∃ q, q = ∑ k in Finset.range n, t.myEigenvectors.entry i k ^ 2 :=
        ⟨_, rfl⟩
      have hci := hhigh i (le_refl i) hi
      rw [← hq] at hci
      have hidx : index t.coeffcorrection i = .ok q := by
        simp [index, hci]
      by_cases hz : sqrt q = 0
      · left
        simp only [hidx, assignIndex_of_lt _ _ _ hi2, index_set_self _ _ _ hi2, hz, bind,
          Except.bind, ne_eq, not_true_eq_false, not_false_eq_true, if_true]
      · right
        obtain ⟨w2, hrun2, hr2, hc2, hco2, hrow, hrest⟩ := divideRow_spec i n
          { t with coeffcorrection := t.coeffcorrection.set i (sqrt q) }
          (sqrt q) hi hr1 hc1 (List.getElem?_set_self hi2)
        have hnn : 0 ≤ q := by
          rw [hq]
          exact Finset.sum_nonneg fun k _ => sq_nonneg _
        refine ⟨w2, ?_, hr2, hc2, by simp [hco2, hl1], ?_, ?_⟩
        · simp only [hidx, assignIndex_of_lt _ _ _ hi2, index_set_self _ _ _ hi2, hz, bind,
            Except.bind, ne_eq, not_false_eq_true, not_true_eq_false, if_false]
          exact hrun2
        · intro a ha
          rcases Nat.lt_succ_iff_lt_or_eq.mp ha with h1 | rfl
          · rw [← hlow a h1]
            exact Finset.sum_congr rfl fun k _ => by rw [hrest a k (by omega)]
          · have h1 : ∑ k in Finset.range n, w2.myEigenvectors.entry a k ^ 2
                = (∑ k in Finset.range n, t.myEigenvectors.entry a k ^ 2)
                  / (sqrt q * sqrt q) := by
              rw [Finset.sum_div]
              refine Finset.sum_congr rfl fun k hk => ?_
              rw [hrow k (Finset.mem_range.mp hk), div_pow, sq (sqrt q)]
            rw [h1, ← hq, hsqrt _ hnn]
            exact div_self fun h0 => hz (mul_self_eq_zero.mp ((hsqrt _ hnn).trans h0))
        · intro a ha1 ha2
          rw [hco2]
          dsimp only
          rw [List.getElem?_set_ne (by omega), hhigh a (by omega) ha2]
          congr 1
          exact Finset.sum_congr rfl fun k _ => by rw [hrest a k (by omega)])
  rcases key with herr | ⟨w1, hrun, hr1, hc1, _, hlow, _⟩
  · exact Or.inl herr
  · exact Or.inr ⟨w1, hrun, hr1, hc1, fun a ha => hlow a ha⟩

/-- The inner product of rows `i` and `j` of a matrix, over the first `n` columns. -/
theorem rowProduct_spec {α : Type} [LinearOrderedField α] (i j n : Nat) (m : MatrixOf α)
    (hi : i < m.n_rows) (hj : j < m.n_rows) (hn : n ≤ m.n_cols) :
    rowProduct i j n m = .ok (∑ k in Finset.range n, m.entry i k * m.entry j k) := by
  obtain ⟨tmp, hrun, htmp⟩ := forLoop_inv
    (fun c (tmp : α) => tmp = ∑ k in Finset.range c, m.entry i k * m.entry j k)
    (fun k tmp => do
      let a ← m.get i k
      let b ← m.get j k
      pure (tmp + a * b)) n 0 (by simp)
    (by
      intro c t hc ht
      have hc1 : c < m.n_cols := by omega
      refine ⟨t + m.entry i c * m.entry j c, ?_, ?_⟩
      · simp only [MatrixOf.get_of_lt _ _ _ hi hc1, MatrixOf.get_of_lt _ _ _ hj hc1, bind,
          Except.bind, pure, Except.pure]
      · dsimp only
        rw [Finset.sum_range_succ, ← ht])
  rw [← htmp]
  exact hrun

/-- With every row of squared norm 1, `tolcorrection` is 1 (0 for the empty matrix). -/
theorem maxRowNorm_spec {α : Type} [LinearOrderedField α] (n : Nat) (m : MatrixOf α)
    (hr : m.n_rows = n) (hc : m.n_cols = n)
    (hunit : ∀ a, a < n → ∑ k in Finset.range n, m.entry a k ^ 2 = 1) :
    maxRowNorm n m = .ok (if n = 0 then 0 else 1) := by
  obtain ⟨tol, hrun, htol⟩ := forLoop_inv
    (fun i (tol : α) => tol = if i = 0 then 0 else 1)
    (fun i tolcorrection => do
      let tmp ← rowProduct i i n m
      pure (max tolcorrection tmp)) n 0 (by simp)
    (by
      intro i t hi ht
      have h1 : ∑ k in Finset.range n, m.entry i k * m.entry i k = 1 := by
        rw [← hunit i hi]
        exact Finset.sum_congr rfl fun k _ => (sq _).symm
      refine ⟨max t 1, ?_, ?_⟩
      · simp only [rowProduct_spec i i n m (by omega) (by omega) (by omega), h1, bind,
          Except.bind, pure, Except.pure]
      · dsimp only
        rw [ht, if_neg (Nat.succ_ne_zero i)]
        split <;> simp)
  rw [← htol]
  exact hrun

/-- Row `i` after its rebuilding loop: the entries left of the diagonal and
their mirror images hold the scaled inner products, everything else is kept. -/
theorem rebuildRow_spec {α : Type} [LinearOrderedField α] (i n : Nat) (m : MatrixOf α)
    (tolcorrection : α) (cm : MatrixOf α) (hi : i < n)
    (hr : m.n_rows = n) (hc : m.n_cols = n) (hcr : cm.n_rows = n) (hcc : cm.n_cols = n) :
    ∃ cm1, rebuildRow i n m tolcorrection cm = .ok cm1
      ∧ cm1.n_rows = n ∧ cm1.n_cols = n
      ∧ (∀ b, b < i → cm1.entry i b
            = (∑ k in Finset.range n, m.entry i k * m.entry b k) / tolcorrection
          ∧ cm1.entry b i
            = (∑ k in Finset.range n, m.entry i k * m.entry b k) / tolcorrection)
      ∧ (∀ a b, ¬ (a = i ∧ b < i) → ¬ (b = i ∧ a < i) → cm1.entry a b = cm.entry a b) := by
  obtain ⟨cm1, hrun, hr1, hc1, hval, hframe⟩ := forLoop_inv
    (fun j (cm1 : MatrixOf α) =>
      cm1.n_rows = n ∧ cm1.n_cols = n
      ∧ (∀ b, b < j → cm1.entry i b
            = (∑ k in Finset.range n, m.entry i k * m.entry b k) / tolcorrection
          ∧ cm1.entry b i
            = (∑ k in Finset.range n, m.entry i k * m.entry b k) / tolcorrection)
      ∧ (∀ a b, ¬ (a = i ∧ b < j) → ¬ (b = i ∧ a < j) → cm1.entry a b = cm.entry a b))
    (fun j cm => do
      let tmp ← rowProduct i j n m
      let cm1 ← cm.set j i (tmp / tolcorrection)
      cm1.set i j (tmp / tolcorrection)) i cm
    ⟨hcr, hcc, fun b hb => absurd hb (Nat.not_lt_zero b), fun _ _ _ _ => rfl⟩
    (by
      rintro j t hj ⟨hr1, hc1, hval, hframe⟩
      obtain ⟨g, hg⟩ : ∃ g, g = (∑ k in Finset.range n, m.entry i k * m.entry j k)
          / tolcorrection := ⟨_, rfl⟩
      refine ⟨{ t with entry := fun a b => if a = i ∧ b = j then g
          else if a = j ∧ b = i then g else t.entry a b }, ?_, hr1, hc1, ?_, ?_⟩
      · simp only [rowProduct_spec i j n m (by omega) (by omega) (by omega), ← hg,
          MatrixOf.set_of_lt t j i g (by omega) (by omega), bind, Except.bind]
        rw [MatrixOf.set_of_lt _ i j g (by simpa using (by omega : i < t.n_rows))
          (by simpa using (by omega : j < t.n_cols))]
      · intro b hb
        dsimp only
        rcases Nat.lt_succ_iff_lt_or_eq.mp hb with h1 | rfl
        · rw [if_neg (fun h => by omega), if_neg (fun h => by omega),
            if_neg (fun h => by omega), if_neg (fun h => by omega)]
          exact hval b h1
        · rw [if_pos ⟨rfl, rfl⟩, if_neg (fun h => by omega), if_pos ⟨rfl, rfl⟩]
          exact ⟨hg, hg⟩
      · intro a b h1 h2
        dsimp only
        have h3 : ¬ (a = i ∧ b = j) := fun h => h1 ⟨h.1, by omega⟩
        have h4 : ¬ (a = j ∧ b = i) := fun h => h2 ⟨h.2, by omega⟩
        rw [if_neg h3, if_neg h4]
        exact hframe a b (fun h => h1 ⟨h.1, by omega⟩) (fun h => h2 ⟨h.1, by omega⟩))
  exact ⟨cm1, hrun, hr1, hc1, hval, hframe⟩

/-- The rebuilt matrix: ones on the diagonal, and off the diagonal the inner
products of the rows divided by `tolcorrection`, in both triangles. -/
theorem rebuildCorrelation_spec {α : Type} [LinearOrderedField α] (n : Nat) (m : MatrixOf α)
    (tolcorrection : α) (cm : MatrixOf α)
    (hr : m.n_rows = n) (hc : m.n_cols = n) (hcr : cm.n_rows = n) (hcc : cm.n_cols = n) :
    ∃ cm1, rebuildCorrelation n m tolcorrection cm = .ok cm1
      ∧ cm1.n_rows = n ∧ cm1.n_cols = n
      ∧ ∀ a, a < n → cm1.entry a a = 1
          ∧ ∀ b, b < a → cm1.entry a b
                = (∑ k in Finset.range n, m.entry a k * m.entry b k) / tolcorrection
              ∧ cm1.entry b a
                = (∑ k in Finset.range n, m.entry a k * m.entry b k) / tolcorrection := by
  refine forLoop_inv
    (fun i (cm1 : MatrixOf α) =>
      cm1.n_rows = n ∧ cm1.n_cols = n
      ∧ ∀ a, a < i → cm1.entry a a = 1
          ∧ ∀ b, b < a → cm1.entry a b
                = (∑ k in Finset.range n, m.entry a k * m.entry b k) / tolcorrection
              ∧ cm1.entry b a
                = (∑ k in Finset.range n, m.entry a k * m.entry b k) / tolcorrection)
    _ n cm ⟨hcr, hcc, fun a ha => absurd ha (Nat.not_lt_zero a)⟩ ?_
  rintro i t hi ⟨hr1, hc1, hval⟩
  obtain ⟨cm2, hrun2, hr2, hc2, hrow, hframe⟩ := rebuildRow_spec i n m tolcorrection
    { t with entry := fun a b => if a = i ∧ b = i then 1 else t.entry a b } hi hr hc hr1 hc1
  refine ⟨cm2, ?_, hr2, hc2, ?_⟩
  · simp only [MatrixOf.set_of_lt t i i 1 (by omega) (by omega), bind, Except.bind]
    exact hrun2
  · intro a ha
    rcases Nat.lt_succ_iff_lt_or_eq.mp ha with h1 | rfl
    · obtain ⟨hd, hoff⟩ := hval a h1
      refine ⟨?_, fun b hb => ?_⟩
      · rw [hframe a a (fun h => by omega) (fun h => by omega)]
        dsimp only
        rw [if_neg (fun h => by omega), hd]
      · rw [hframe a b (fun h => by omega) (fun h => by omega),
          hframe b a (fun h => by omega) (fun h => by omega)]
        dsimp only
        rw [if_neg (fun h => by omega), if_neg (fun h => by omega)]
        exact hoff b hb
    · refine ⟨?_, fun b hb => hrow b hb⟩
      rw [hframe a a (fun h => by omega) (fun h => by omega)]
      dsimp only
      rw [if_pos ⟨rfl, rfl⟩]

/-- A matrix of inner products of vectors of norm 1 is a valid correlation matrix. -/
theorem gram_isCorrelation {α : Type} [LinearOrderedField α] (m : MatrixOf α) (p : Nat)
    (W : Nat → Nat → α) (hsq : m.n_cols = m.n_rows)
    (hgram : ∀ i j, i < m.n_rows → j < m.n_rows →
      m.entry i j = ∑ k in Finset.range p, W i k * W j k)
    (hdiag : ∀ i, i < m.n_rows → m.entry i i = 1) : IsCorrelation m := by
  have hbound : ∀ i j, i < m.n_rows → j < m.n_rows → m.entry i j ^ 2 ≤ 1 := by
    intro i j hi hj
    have h1 := Finset.sum_mul_sq_le_sq_mul_sq (Finset.range p) (W i) (W j)
    have h2 : ∑ k in Finset.range p, W i k ^ 2 = 1 := by
      rw [← hdiag i hi, hgram i i hi hi]
      exact Finset.sum_congr rfl fun k _ => sq _
    have h3 : ∑ k in Finset.range p, W j k ^ 2 = 1 := by
      rw [← hdiag j hj, hgram j j hj hj]
      exact Finset.sum_congr rfl fun k _ => sq _
    rw [h2, h3, ← hgram i j hi hj, mul_one] at h1
    exact h1
  refine ⟨hsq, ?_, hdiag, ?_, ?_⟩
  · intro i j hi hj
    rw [hgram i j hi hj, hgram j i hj hi]
    exact Finset.sum_congr rfl fun k _ => mul_comm _ _
  · intro i j hi hj
    exact abs_le.mp (abs_le_one_iff_mul_self_le_one.mpr (by
      rw [← sq]
      exact hbound i j hi hj))
  · intro x
    have h2 : ∀ k, (∑ i in Finset.range m.n_rows, x i * W i k) ^ 2
        = ∑ i in Finset.range m.n_rows, ∑ j in Finset.range m.n_rows,
            x i * (W i k * W j k) * x j := by
      intro k
      rw [sq, Finset.sum_mul_sum]
      exact Finset.sum_congr rfl fun i _ => Finset.sum_congr rfl fun j _ => by ring
    have h3 : ∑ i in Finset.range m.n_rows, ∑ j in Finset.range m.n_rows,
          x i * m.entry i j * x j
        = ∑ i in Finset.range m.n_rows, ∑ j in Finset.range m.n_rows,
            ∑ k in Finset.range p, x i * (W i k * W j k) * x j :=
      Finset.sum_congr rfl fun i hi => Finset.sum_congr rfl fun j hj => by
        rw [hgram i j (Finset.mem_range.mp hi) (Finset.mem_range.mp hj), Finset.mul_sum,
          Finset.sum_mul]
    have h4 : ∑ i in Finset.range m.n_rows, ∑ j in Finset.range m.n_rows,
          ∑ k in Finset.range p, x i * (W i k * W j k) * x j
        = ∑ k in Finset.range p, ∑ i in Finset.range m.n_rows,
            ∑ j in Finset.range m.n_rows, x i * (W i k * W j k) * x j :=
      (Finset.sum_congr rfl fun i _ => Finset.sum_comm).trans Finset.sum_comm
    rw [h3, h4]
    refine Finset.sum_nonneg fun k _ => ?_
    rw [← h2 k]
    exact sq_nonneg _

/-- On a matrix large enough, the diagonal check passes when every diagonal entry is 1. -/
theorem assertUnitDiagonal_ok {α : Type} [LinearOrderedField α] (cm : MatrixOf α) (n : Nat)
    (hr : n ≤ cm.n_rows) (hc : n ≤ cm.n_cols) (hdiag : ∀ i, i < n → cm.entry i i = 1) :
    assertUnitDiagonal cm n = .ok () := by
  obtain ⟨u, hrun, _⟩ := forLoop_inv (fun _ (_ : Unit) => True)
    (fun i _ => do
      let d ← cm.get i i
      if ¬ (d = 1) then
        throw (.raised
          "spectrunc: input correlation matrix does not have all ones in the diagonal!")
      pure ()) n () trivial
    (by
      intro i t hi _
      refine ⟨(), ?_, trivial⟩
      simp only [MatrixOf.get_of_lt cm i i (by omega) (by omega), hdiag i hi, bind,
        Except.bind, not_true_eq_false, if_false, pure, Except.pure])
  exact hrun

/-- On a matrix large enough, the diagonal check either passes, every diagonal
entry being 1, or raises its assertion. -/
theorem assertUnitDiagonal_spec {α : Type} [LinearOrderedField α] (cm : MatrixOf α) (n : Nat)
    (hr : n ≤ cm.n_rows) (hc : n ≤ cm.n_cols) :
    (assertUnitDiagonal cm n = .error (.raised
        "spectrunc: input correlation matrix does not have all ones in the diagonal!")
      ∧ ∃ i, i < n ∧ cm.entry i i ≠ 1)
    ∨ (assertUnitDiagonal cm n = .ok () ∧ ∀ i, i < n → cm.entry i i = 1) := by
  by_cases h : ∀ i, i < n → cm.entry i i = 1
  · exact Or.inr ⟨assertUnitDiagonal_ok cm n hr hc h, h⟩
  · left
    push_neg at h
    refine ⟨?_, h⟩
    rcases forLoop_inv_or (fun k (_ : Unit) => ∀ i, i < k → cm.entry i i = 1)
      (fun i _ => do
        let d ← cm.get i i
        if ¬ (d = 1) then
          throw (.raised
            "spectrunc: input correlation matrix does not have all ones in the diagonal!")
        pure ()) n ()
      (.raised "spectrunc: input correlation matrix does not have all ones in the diagonal!")
      (fun i hi => absurd hi (Nat.not_lt_zero i))
      (by
        intro k t hk hI
        by_cases h1 : cm.entry k k = 1
        · right
          refine ⟨(), ?_, fun i hi => ?_⟩
          · simp only [MatrixOf.get_of_lt cm k k (by omega) (by omega), h1, bind,
              Except.bind, not_true_eq_false, if_false, pure, Except.pure]
          · rcases Nat.lt_succ_iff_lt_or_eq.mp hi with h2 | rfl
            · exact hI i h2
            · exact h1
        · left
          simp only [MatrixOf.get_of_lt cm k k (by omega) (by omega), h1, bind,
            Except.bind, not_false_eq_true, if_true]) with herr | ⟨_, _, hall⟩
    · exact herr
    · obtain ⟨i, hi, hne⟩ := h
      exact absurd (hall i hi) hne

theorem spectrunc_not_square {α : Type} [LinearOrderedField α] (sqrt : α → α)
    (eig_sym : MatrixOf α → Option (List α × MatrixOf α)) (corrmat : MatrixOf α) (tolerance : α)
    (hsq : corrmat.n_rows ≠ corrmat.n_cols) :
    spectrunc sqrt eig_sym corrmat tolerance
      = .error (.raised "spectrunc: input correlation matrix is not square!") := by
  simp [spectrunc, MatrixOf.is_square, hsq, bind, Except.bind, throw, throwThe,
    MonadExceptOf.throw]

theorem spectrunc_bad_diagonal {α : Type} [LinearOrderedField α] (sqrt : α → α)
    (eig_sym : MatrixOf α → Option (List α × MatrixOf α)) (corrmat : MatrixOf α) (tolerance : α)
    (hsq : corrmat.n_rows = corrmat.n_cols)
    (hd : assertUnitDiagonal corrmat corrmat.n_rows = .error (.raised
      "spectrunc: input correlation matrix does not have all ones in the diagonal!")) :
    spectrunc sqrt eig_sym corrmat tolerance = .error (.raised
      "spectrunc: input correlation matrix does not have all ones in the diagonal!") := by
  have hb : (corrmat.n_rows == corrmat.n_cols) = true := by simp [hsq]
  simp [spectrunc, MatrixOf.is_square, hb, hd, bind, Except.bind, pure, Except.pure]

theorem spectrunc_eig_fails {α : Type} [LinearOrderedField α] (sqrt : α → α)
    (eig_sym : MatrixOf α → Option (List α × MatrixOf α)) (corrmat : MatrixOf α) (tolerance : α)
    (hsq : corrmat.n_rows = corrmat.n_cols)
    (hd : assertUnitDiagonal corrmat corrmat.n_rows = .ok ())
    (heig : eig_sym corrmat = none) :
    spectrunc sqrt eig_sym corrmat tolerance
      = .error (.raised "spectrunc: failed to diagonalize the correlation matrix!") := by
  have hb : (corrmat.n_rows == corrmat.n_cols) = true := by simp [hsq]
  simp [spectrunc, MatrixOf.is_square, hb, hd, heig, bind, Except.bind, pure, Except.pure,
    throw, throwThe, MonadExceptOf.throw]

/-- With every eigenvalue above the tolerance, `spectrunc` returns its argument unchanged. -/
theorem spectrunc_early {α : Type} [LinearOrderedField α] (sqrt : α → α)
    (eig_sym : MatrixOf α → Option (List α × MatrixOf α)) (corrmat : MatrixOf α) (tolerance : α)
    (vals : List α) (vecs : MatrixOf α)
    (hsq : corrmat.n_rows = corrmat.n_cols)
    (hd : assertUnitDiagonal corrmat corrmat.n_rows = .ok ())
    (heig : eig_sym corrmat = some (vals, vecs))
    (hall : ∀ x, x ∈ vals → tolerance < x) :
    spectrunc sqrt eig_sym corrmat tolerance = .ok corrmat := by
  have h : (vals.all fun x => decide (x > tolerance)) = true := by
    simpa [List.all_eq_true] using hall
  have hb : (corrmat.n_rows == corrmat.n_cols) = true := by simp [hsq]
  simp [spectrunc, MatrixOf.is_square, hb, hd, heig, h, bind, Except.bind, pure, Except.pure]

/-- With an eigenvalue at or below the tolerance, `spectrunc` runs its four loops. -/
theorem spectrunc_correction {α : Type} [LinearOrderedField α] (sqrt : α → α)
    (eig_sym : MatrixOf α → Option (List α × MatrixOf α)) (corrmat : MatrixOf α) (tolerance : α)
    (vals : List α) (vecs : MatrixOf α)
    (hsq : corrmat.n_rows = corrmat.n_cols)
    (hd : assertUnitDiagonal corrmat corrmat.n_rows = .ok ())
    (heig : eig_sym corrmat = some (vals, vecs))
    (hnot : ¬ ∀ x, x ∈ vals → tolerance < x) :
    spectrunc sqrt eig_sym corrmat tolerance
      = (scaleEigenvectors sqrt tolerance corrmat.n_rows
            ⟨vals, vecs, List.replicate corrmat.n_rows 0⟩ >>= fun w =>
          normaliseRows sqrt corrmat.n_rows w >>= fun w1 =>
          maxRowNorm corrmat.n_rows w1.myEigenvectors >>= fun tolcorrection =>
          rebuildCorrelation corrmat.n_rows w1.myEigenvectors tolcorrection corrmat) := by
  have h : ¬ (vals.all fun x => decide (x > tolerance)) = true := by
    simpa [List.all_eq_true] using hnot
  have hb : (corrmat.n_rows == corrmat.n_cols) = true := by simp [hsq]
  simp only [spectrunc, MatrixOf.is_square, hb, hd, heig, h, bind, Except.bind, pure,
    Except.pure, beq_self_eq_true, not_true_eq_false, if_false, Bool.false_eq_true]

/-- C22. Over the reals, for every tolerance >= 0 and every input on which the
eigen-decomposition, when it returns, is a correct one: whatever matrix
`spectrunc` returns is a valid correlation matrix (square, symmetric, ones on
the diagonal, every entry in `[-1, 1]`, positive semi-definite). The symmetry
and the unit diagonal of the input are not assumed: `spectrunc` checks the
diagonal itself, and a matrix with a correct decomposition is symmetric. -/
theorem spectrunc_valid_correlation (eig_sym : MatrixOf ℝ → Option (List ℝ × MatrixOf ℝ))
    (corrmat result : MatrixOf ℝ) (tolerance : ℝ) (htol : 0 ≤ tolerance)
    (heig : ∀ vals vecs, eig_sym corrmat = some (vals, vecs) →
      IsEigenDecomposition corrmat vals vecs)
    (hrun : spectrunc Real.sqrt eig_sym corrmat tolerance = .ok result) :
    IsCorrelation result := by
  have hsqrt : ∀ x : ℝ, 0 ≤ x → Real.sqrt x * Real.sqrt x = x := fun x hx =>
    Real.mul_self_sqrt hx
  by_cases hsq : corrmat.n_rows = corrmat.n_cols
  swap
  · rw [spectrunc_not_square _ _ _ _ hsq] at hrun
    cases hrun
  rcases assertUnitDiagonal_spec corrmat corrmat.n_rows (le_refl _) (le_of_eq hsq)
    with ⟨hd, _⟩ | ⟨hd, hdiag⟩
  · rw [spectrunc_bad_diagonal _ _ _ _ hsq hd] at hrun
    cases hrun
  cases hE : eig_sym corrmat with
  | none =>
    rw [spectrunc_eig_fails _ _ _ _ hsq hd hE] at hrun
    cases hrun
  | some pr =>
    obtain ⟨vals, vecs⟩ := pr
    obtain ⟨hlen, hvr, hvc, hrec⟩ := heig vals vecs hE
    by_cases hall : ∀ x, x ∈ vals → tolerance < x
    · rw [spectrunc_early _ _ _ _ vals vecs hsq hd hE hall] at hrun
      cases hrun
      refine gram_isCorrelation corrmat corrmat.n_rows
        (fun i k => vecs.entry i k * Real.sqrt (vals.getD k 0)) hsq.symm ?_ hdiag
      intro i j hi hj
      rw [hrec i j hi hj]
      refine Finset.sum_congr rfl fun k hk => ?_
      have hk1 : k < vals.length := by
        rw [hlen]
        exact Finset.mem_range.mp hk
      have hpos : 0 ≤ vals.getD k 0 := by
        rw [List.getD_eq_getElem _ _ hk1]
        exact le_of_lt (lt_of_le_of_lt htol (hall _ (List.getElem_mem hk1)))
      calc vecs.entry i k * vals.getD k 0 * vecs.entry j k
          = vecs.entry i k * (Real.sqrt (vals.getD k 0) * Real.sqrt (vals.getD k 0))
              * vecs.entry j k := by rw [hsqrt _ hpos]
        _ = vecs.entry i k * Real.sqrt (vals.getD k 0)
              * (vecs.entry j k * Real.sqrt (vals.getD k 0)) := by ring
    · rw [spectrunc_correction _ _ _ _ vals vecs hsq hd hE hall] at hrun
      obtain ⟨w, hw, hwr, hwc, hwl, hwsum⟩ := scaleEigenvectors_spec Real.sqrt tolerance
        corrmat.n_rows ⟨vals, vecs, List.replicate corrmat.n_rows 0⟩ hvr hvc hlen rfl
      rw [hw] at hrun
      rcases normaliseRows_spec Real.sqrt hsqrt corrmat.n_rows w hwr hwc hwl hwsum
        with herr | ⟨w1, hw1, hr1, hc1, hunit⟩
      · change (normaliseRows Real.sqrt corrmat.n_rows w >>= _) = _ at hrun
        rw [herr] at hrun
        cases hrun
      · change (normaliseRows Real.sqrt corrmat.n_rows w >>= _) = _ at hrun
        rw [hw1] at hrun
        change (maxRowNorm corrmat.n_rows w1.myEigenvectors >>= _) = _ at hrun
        rw [maxRowNorm_spec corrmat.n_rows w1.myEigenvectors hr1 hc1 hunit] at hrun
        obtain ⟨res, hres, hrr, hrc, hval⟩ := rebuildCorrelation_spec corrmat.n_rows
          w1.myEigenvectors (if corrmat.n_rows = 0 then 0 else 1) corrmat hr1 hc1 rfl hsq.symm
        change rebuildCorrelation corrmat.n_rows w1.myEigenvectors
          (if corrmat.n_rows = 0 then 0 else 1) corrmat = _ at hrun
        rw [hres] at hrun
        cases hrun
        refine gram_isCorrelation result corrmat.n_rows w1.myEigenvectors.entry
          (by rw [hrc, hrr]) ?_ (fun i hi => (hval i (by omega)).1)
        intro i j hi hj
        rw [hrr] at hi hj
        have hn : corrmat.n_rows ≠ 0 := by omega
        rcases Nat.lt_trichotomy i j with h | rfl | h
        · rw [((hval j hj).2 i h).2, if_neg hn, div_one]
          exact Finset.sum_congr rfl fun k _ => mul_comm _ _
        · rw [(hval i hi).1, ← hunit i hi]
          exact Finset.sum_congr rfl fun k _ => sq _
        · rw [((hval i hi).2 j h).1, if_neg hn, div_one]

theorem sampleIndefinite_decomposition :
    IsEigenDecomposition (sampleIndefinite : MatrixOf ℝ) [4, -1]
      ⟨2, 2, fun i j => if j = 0 then 5 / 8 else if i = 0 then 3 / 4 else -(3 / 4)⟩ := by
  refine ⟨rfl, rfl, rfl, ?_⟩
  intro i j hi hj
  have hi2 : i < 2 := hi
  have hj2 : j < 2 := hj
  interval_cases i <;> interval_cases j <;>
    norm_num [sampleIndefinite, Finset.sum_range_succ]

theorem sqrt_four : Real.sqrt 4 = 2 := by
  rw [show (4 : ℝ) = 2 ^ 2 by norm_num]
  exact Real.sqrt_sq (by norm_num)

theorem sqrt_sixteen : Real.sqrt 16 = 4 := by
  rw [show (16 : ℝ) = 4 ^ 2 by norm_num]
  exact Real.sqrt_sq (by norm_num)

theorem sqrt_twentyfive : Real.sqrt 25 = 5 := by
  rw [show (25 : ℝ) = 5 ^ 2 by norm_num]
  exact Real.sqrt_sq (by norm_num)

theorem spectrunc_sampleIndefinite :
    ∃ result, spectrunc Real.sqrt sampleIndefiniteEig (sampleIndefinite : MatrixOf ℝ) 0
        = .ok result ∧ result.entry 0 1 = 1 ∧ result.entry 1 0 = 1 := by
  norm_num [spectrunc, sampleIndefiniteEig, sampleIndefinite, MatrixOf.is_square,
    assertUnitDiagonal, forLoop,
    MatrixOf.get, bind, Except.bind, pure, Except.pure, scaleEigenvectors, scaleColumn,
    normaliseRows, divideRow, maxRowNorm, rowProduct, rebuildCorrelation, rebuildRow,
    MatrixOf.set, index, assignIndex, sqrt_four, sqrt_sixteen, sqrt_twentyfive]

/-- Sample run of C22: the indefinite matrix with off-diagonal entry 17/8 is
truncated (tolerance 0) to the matrix of ones, a valid correlation matrix. -/
theorem spectrunc_valid_correlation_witness :
    ∃ result, spectrunc Real.sqrt sampleIndefiniteEig (sampleIndefinite : MatrixOf ℝ) 0
        = .ok result ∧ result.entry 0 1 = 1 ∧ IsCorrelation result := by
  obtain ⟨result, hrun, h01, _⟩ := spectrunc_sampleIndefinite
  exact ⟨result, hrun, h01, spectrunc_valid_correlation sampleIndefiniteEig sampleIndefinite
    result 0 (le_refl 0)
    (fun vals vecs h => by
      cases h
      exact sampleIndefinite_decomposition) hrun⟩

theorem sampleEigSym_asymmetric :
    sampleEigSym (sampleAsymmetric : MatrixOf ℝ) = some ([1, 1], MatrixOf.identity 2) := by
  have h : ∀ j, j < (sampleAsymmetric : MatrixOf ℝ).n_cols → ∀ i, i < j →
      (sampleAsymmetric : MatrixOf ℝ).entry i j = 0 := by
    intro j hj i hi
    simp only [sampleAsymmetric]
    rw [if_neg (by omega), if_neg (by omega)]
  unfold sampleEigSym
  rw [if_pos ⟨rfl, h⟩]
  simp [sampleAsymmetric, List.range_succ]

/-- C23. The assertions of `spectrunc` on its input: a matrix that is not
square is rejected, and so is a square matrix with a diagonal entry other than
1; but a square matrix with unit diagonal is never rejected for being
asymmetric: whenever the eigen-solver returns eigenvalues all above the
tolerance, `spectrunc` returns the matrix unchanged, symmetric or not. -/
theorem spectrunc_asserts {α : Type} [LinearOrderedField α] (sqrt : α → α)
    (eig_sym : MatrixOf α → Option (List α × MatrixOf α)) (corrmat : MatrixOf α)
    (tolerance : α) :
    (corrmat.n_rows ≠ corrmat.n_cols →
        spectrunc sqrt eig_sym corrmat tolerance
          = .error (.raised "spectrunc: input correlation matrix is not square!"))
      ∧ (corrmat.n_rows = corrmat.n_cols →
          (∃ i, i < corrmat.n_rows ∧ corrmat.entry i i ≠ 1) →
          spectrunc sqrt eig_sym corrmat tolerance = .error (.raised
            "spectrunc: input correlation matrix does not have all ones in the diagonal!"))
      ∧ (corrmat.n_rows = corrmat.n_cols →
          (∀ i, i < corrmat.n_rows → corrmat.entry i i = 1) →
          ∀ vals vecs, eig_sym corrmat = some (vals, vecs) →
            (∀ x, x ∈ vals → tolerance < x) →
            spectrunc sqrt eig_sym corrmat tolerance = .ok corrmat) := by
  refine ⟨spectrunc_not_square sqrt eig_sym corrmat tolerance, fun hsq hbad => ?_,
    fun hsq hdiag vals vecs heig hall => ?_⟩
  · rcases assertUnitDiagonal_spec corrmat corrmat.n_rows (le_refl _) (le_of_eq hsq)
      with ⟨hd, _⟩ | ⟨_, hall⟩
    · exact spectrunc_bad_diagonal sqrt eig_sym corrmat tolerance hsq hd
    · obtain ⟨i, hi, hne⟩ := hbad
      exact absurd (hall i hi) hne
  · exact spectrunc_early sqrt eig_sym corrmat tolerance vals vecs hsq
      (assertUnitDiagonal_ok corrmat corrmat.n_rows (le_refl _) (le_of_eq hsq) hdiag) heig hall

/-- The failing input of C23: the square matrix with rows `(1, 0)` and
`(1/2, 1)` is not symmetric, and `spectrunc` (tolerance 0, eigen-solver
reading the upper triangle) returns it unchanged instead of raising. -/
theorem spectrunc_asserts_witness :
    (sampleAsymmetric : MatrixOf ℝ).entry 1 0 ≠ (sampleAsymmetric : MatrixOf ℝ).entry 0 1
      ∧ spectrunc Real.sqrt sampleEigSym (sampleAsymmetric : MatrixOf ℝ) 0
        = .ok sampleAsymmetric :=
  ⟨by norm_num [sampleAsymmetric],
    (spectrunc_asserts Real.sqrt sampleEigSym (sampleAsymmetric : MatrixOf ℝ) 0).2.2 rfl
      (fun i hi => by
        have hi2 : i < 2 := hi
        interval_cases i <;> simp [sampleAsymmetric])
      [1, 1] (MatrixOf.identity 2) sampleEigSym_asymmetric
      (fun x hx => by
        simp only [List.mem_cons, List.mem_singleton, List.not_mem_nil, or_false, or_self] at hx
        rw [hx]
        exact zero_lt_one)⟩

/-! ### The quanto drift of the solver and of the closed form -/

end qf
